import Mathlib

/-!
# vtkFileSeriesReader: time-range registry, aggregation and index resolution

A shallow embedding of `Servers/Filters/vtkFileSeriesReader.cxx`.

* Time values are C++ `double`s.  The code only compares them (`<`, `>=`,
  `std::min`, `std::max`, the ordering of `std::map<double, ...>`), so they
  are embedded as rationals with the usual order (NaN is left out).
* `vtkTypeTraits<double>::Max()` is a constant of the VTK headers; every
  function that reads it takes it as the parameter `dmax`.
* A `std::map` is the list of its entries in ascending key order, an
  iterator is a position in that list (`begin()` is `0`, `end()` is the
  length).
* Reading through a null pointer (a missing key, a missing map entry) is
  the result `none`.
-/

namespace FileSeries

/-- A time value (`double`). -/
abbrev Time := ℚ

/-- The keys of a pipeline information object that the reader looks at. -/
structure vtkInformation where
  TIME_RANGE : Option (Time × Time)
  TIME_STEPS : Option (List Time)
  UPDATE_TIME_STEPS : Option (List Time)
deriving DecidableEq, Repr

/-- The information object `AddTimeRange` builds for an input: `INDEX` is
always set, the two time keys are copied from the source when present. -/
structure StoredInfo where
  INDEX : ℤ
  TIME_RANGE : Option (Time × Time)
  TIME_STEPS : Option (List Time)
deriving DecidableEq, Repr

/-- Assignment `m[k] = v` on a `std::map`, entries kept in ascending key order. -/
def mapAssign {κ α : Type} [LinearOrder κ] (k : κ) (v : α) : List (κ × α) → List (κ × α)
  | [] => [(k, v)]
  | (k', v') :: rest =>
    if k < k' then (k, v) :: (k', v') :: rest
    else if k = k' then (k, v) :: rest
    else (k', v') :: mapAssign k v rest

/-- Lookup of a key in a `std::map`; `none` when the key has no entry. -/
def mapLookup {κ α : Type} [DecidableEq κ] (k : κ) : List (κ × α) → Option α
  | [] => none
  | (k', v') :: rest => if k = k' then some v' else mapLookup k rest

/-- Position returned by `std::map::upper_bound`: the first entry whose key is
strictly greater than `t`, the length of the list (`end()`) when there is none. -/
def upper_bound {α : Type} (t : Time) : List (Time × α) → ℕ
  | [] => 0
  | (k, _) :: rest => if t < k then 0 else upper_bound t rest + 1

/-- Position returned by `std::map::find`: the entry whose key is `t`, the
length of the list (`end()`) when there is none. -/
def find {α : Type} (t : Time) : List (Time × α) → ℕ
  | [] => 0
  | (k, _) :: rest => if t = k then 0 else find t rest + 1

/-- What `info->Set(KEY, &values[0], values.size())` leaves under a
double-vector key for a `std::vector` `values`: the elements of a non-empty
vector; an empty vector hands over a null pointer, and `Set` with a null
pointer removes the key. -/
@[simp]
def SetVector : List Time → Option (List Time)
  | [] => none
  | value :: rest => some (value :: rest)

/-- What `info->CopyEntry(from, KEY)` leaves under a double-vector key: the
copy is a `Set` of what `Get` returns, and `Get` returns a null pointer for a
key that is absent or of length zero, so in both cases the key ends absent. -/
@[simp]
def CopyEntry : Option (List Time) → Option (List Time)
  | some values => SetVector values
  | none => none

/-- The class `vtkFileSeriesReaderTimeRanges`. -/
structure vtkFileSeriesReaderTimeRanges where
  RangeMap : List (Time × StoredInfo)
  InputLookup : List (ℤ × StoredInfo)
deriving DecidableEq, Repr

namespace vtkFileSeriesReaderTimeRanges

/-- `Reset`: both maps are cleared. -/
def Reset (_self : vtkFileSeriesReaderTimeRanges) : vtkFileSeriesReaderTimeRanges :=
  { RangeMap := [], InputLookup := [] }

/-- `AddTimeRange`.  The result is `none` when the source has an empty
`TIME_STEPS` and no `TIME_RANGE`: the code then reads `timeSteps[0]` of an
empty array.  With a `TIME_RANGE`, the copy of an empty `TIME_STEPS` leaves
the stored information without steps; a non-empty list is copied as it is. -/
def AddTimeRange (self : vtkFileSeriesReaderTimeRanges) (index : ℤ)
    (srcInfo : vtkInformation) : Option vtkFileSeriesReaderTimeRanges :=
  let lookup (info : StoredInfo) := mapAssign index info self.InputLookup
  match srcInfo.TIME_STEPS with
  | some timeSteps =>
    match srcInfo.TIME_RANGE with
    | some timeRange =>
      let info : StoredInfo :=
        { INDEX := index, TIME_RANGE := some timeRange,
          TIME_STEPS := CopyEntry (some timeSteps) }
      some { RangeMap := mapAssign timeRange.1 info self.RangeMap, InputLookup := lookup info }
    | none =>
      match timeSteps.head?, timeSteps.getLast? with
      | some first, some last =>
        let info : StoredInfo :=
          { INDEX := index, TIME_RANGE := some (first, last), TIME_STEPS := some timeSteps }
        some { RangeMap := mapAssign first info self.RangeMap, InputLookup := lookup info }
      | _, _ => none
  | none =>
    match srcInfo.TIME_RANGE with
    | some timeRange =>
      let info : StoredInfo :=
        { INDEX := index, TIME_RANGE := some timeRange, TIME_STEPS := none }
      some { RangeMap := mapAssign timeRange.1 info self.RangeMap, InputLookup := lookup info }
    | none =>
      -- warning "Input with index ... has no time information."
      some { RangeMap := self.RangeMap,
             InputLookup := lookup { INDEX := index, TIME_RANGE := none, TIME_STEPS := none } }

/-- The inner loop of `GetAggregateTimeInfo`:
`for (i = 0; (i < numLocalSteps) && (localTimeSteps[i] < localEndTime); i++)
   timeSteps.push_back(localTimeSteps[i]);` -/
def copyTimeSteps (localEndTime : Time) : List Time → List Time → List Time
  | [], timeSteps => timeSteps
  | s :: rest, timeSteps =>
    if s < localEndTime then copyTimeSteps localEndTime rest (timeSteps ++ [s]) else timeSteps

/-- The `while (itr != this->RangeMap.end())` loop of `GetAggregateTimeInfo`;
the first argument is the part of the map from `itr` on. -/
def aggregateLoop (dmax : Time) : List (Time × StoredInfo) → List Time → Option (List Time)
  | [], timeSteps => some timeSteps
  | [(_, info)], timeSteps =>
    some (copyTimeSteps dmax (info.TIME_STEPS.getD []) timeSteps)
  | (_, info) :: (k, next) :: rest, timeSteps =>
    match next.TIME_RANGE with
    | some nextRange =>
      aggregateLoop dmax ((k, next) :: rest)
        (copyTimeSteps nextRange.1 (info.TIME_STEPS.getD []) timeSteps)
    | none => none

/-- `GetAggregateTimeInfo`: the returned `int` and the output information.
The vector `timeSteps` is handed to `outInfo->Set` as `&timeSteps[0]` and
`timeSteps.size()`: when no step was copied the output is left without
`TIME_STEPS`. -/
def GetAggregateTimeInfo (dmax : Time) (self : vtkFileSeriesReaderTimeRanges)
    (outInfo : vtkInformation) : Option (ℤ × vtkInformation) :=
  match self.RangeMap.head?, self.RangeMap.getLast? with
  | some first, some last =>
    match first.2.TIME_RANGE, last.2.TIME_RANGE with
    | some firstRange, some lastRange =>
      if firstRange.1 ≥ lastRange.2 then
        some (1, { outInfo with TIME_RANGE := none, TIME_STEPS := none })
      else
        match aggregateLoop dmax self.RangeMap [] with
        | some timeSteps =>
          some (1, { outInfo with TIME_RANGE := some (firstRange.1, lastRange.2),
                                  TIME_STEPS := SetVector timeSteps })
        | none => none
    | _, _ => none
  | _, _ =>
    -- warning "No inputs with time information."
    some (0, outInfo)

/-- `GetInputTimeInfo`; `none` when `InputLookup[index]` is a null pointer.
Stored steps are never of length zero (`AddTimeRange` stores no steps then,
`AddTimeRange_steps_nonempty`), so their copy is the stored list. -/
def GetInputTimeInfo (self : vtkFileSeriesReaderTimeRanges) (index : ℤ)
    (outInfo : vtkInformation) : Option (ℤ × vtkInformation) :=
  match mapLookup index self.InputLookup with
  | some storedInfo =>
    let outInfo := { outInfo with TIME_RANGE := storedInfo.TIME_RANGE }
    match storedInfo.TIME_STEPS with
    | some timeSteps => some (1, { outInfo with TIME_STEPS := some timeSteps })
    | none => some (0, outInfo)
  | none => none

/-- `GetIndexForTime`.  The last case is not reached: the position used is
always inside a non-empty map (`GetIndexForTime_position_valid`). -/
def GetIndexForTime (self : vtkFileSeriesReaderTimeRanges) (time : Time) : ℤ :=
  if self.RangeMap.isEmpty then 0
  else
    let itr := upper_bound time self.RangeMap
    let itr := if itr = 0 then itr else itr - 1
    match self.RangeMap[itr]? with
    | some entry => entry.2.INDEX
    | none => 0

/-- `ChooseInputs`, the returned `std::set<int>`. -/
def ChooseInputs (self : vtkFileSeriesReaderTimeRanges) (outInfo : vtkInformation) :
    Finset ℤ :=
  match outInfo.UPDATE_TIME_STEPS with
  | some upTimes =>
    upTimes.foldl (fun indices t => insert (self.GetIndexForTime t) indices) ∅
  | none => insert 0 ∅

/-- `GetTimesForInput`; `none` when `InputLookup[inputId]` is a null pointer
or has no `TIME_RANGE`. -/
def GetTimesForInput (dmax : Time) (self : vtkFileSeriesReaderTimeRanges) (inputId : ℤ)
    (outInfo : vtkInformation) : Option (List Time) :=
  match mapLookup inputId self.InputLookup with
  | some inInfo =>
    match inInfo.TIME_RANGE with
    | some supportedTimeRange =>
      let allowed0 := supportedTimeRange.1
      let allowed1 :=
        match self.RangeMap[upper_bound allowed0 self.RangeMap]? with
        | some entry => entry.1
        | none => dmax
      let allowed0 := if find allowed0 self.RangeMap = 0 then -dmax else allowed0
      some ((outInfo.UPDATE_TIME_STEPS.getD []).foldl
        (fun times t =>
          if t ≥ allowed0 ∧ t < allowed1 then
            times ++ [max supportedTimeRange.1 (min supportedTimeRange.2 t)]
          else times) [])
    | none => none
  | none => none

/-- Class invariant of the registry: both maps list their keys in strictly
ascending order (they are `std::map`s), an entry of `RangeMap` is filed under
the start of its own `TIME_RANGE`, an entry of `InputLookup` is filed under
its own `INDEX`, and the start of every range in `InputLookup` is a key of
`RangeMap`.  `Reset` establishes it and `AddTimeRange` keeps it
(`WF_Reset`, `WF_AddTimeRange`). -/
def WF (self : vtkFileSeriesReaderTimeRanges) : Prop :=
  self.RangeMap.Pairwise (fun a b => a.1 < b.1) ∧
  self.InputLookup.Pairwise (fun a b => a.1 < b.1) ∧
  (∀ e ∈ self.RangeMap, e.2.TIME_RANGE.map Prod.fst = some e.1) ∧
  (∀ e ∈ self.InputLookup, e.2.INDEX = e.1) ∧
  (∀ e ∈ self.InputLookup, ∀ r, e.2.TIME_RANGE = some r →
    ∃ e' ∈ self.RangeMap, e'.1 = r.1)

/-- Registration of a list of inputs, in order, on a registry that was reset. -/
def registerAll (inputs : List (ℤ × vtkInformation)) : Option vtkFileSeriesReaderTimeRanges :=
  inputs.foldl (fun reg input => reg.bind (fun r => r.AddTimeRange input.1 input.2))
    (some (Reset { RangeMap := [], InputLookup := [] }))

end vtkFileSeriesReaderTimeRanges

/-- The start `AddTimeRange` files a source under: the start of its
`TIME_RANGE`, else its first time step. -/
def reportedStart (srcInfo : vtkInformation) : Option Time :=
  match srcInfo.TIME_RANGE with
  | some timeRange => some timeRange.1
  | none => (srcInfo.TIME_STEPS.getD []).head?

/-- The reader the series delegates to (`this->Reader`), which is not part of
this file: what its `ProcessRequest` returns and does to the output
information while it points to the file of the given input. -/
structure vtkAlgorithm where
  REQUEST_INFORMATION : ℤ → vtkInformation → ℤ × vtkInformation
  REQUEST_DATA : ℤ → vtkInformation → ℤ × vtkInformation

/-- The state of a `vtkFileSeriesReader` that the requests read and write.
`InformationRequests` records, latest last, the inputs for which the reader
was asked for its information. -/
structure vtkFileSeriesReader where
  NumberOfFileNames : ℕ
  IgnoreReaderTime : Bool
  LastRequestInformationIndex : ℤ
  TimeRanges : vtkFileSeriesReaderTimeRanges
  InformationRequests : List ℤ
deriving DecidableEq, Repr

/-- How `RequestUpdateExtent` ends. -/
inductive UpdateExtentResult where
  /-- Error "vtkTemporalDataSet not fully supported.", `return 0`. -/
  | temporalNotSupported
  /-- Error "Inputs are not set.", `return 0`. -/
  | inputsNotSet
  /-- The input `*(inputs.begin())` was selected, `return 1`. -/
  | selected (index : ℤ)
deriving DecidableEq, Repr

namespace vtkFileSeriesReader

/-- `RequestInformationForInput`; `outputVector` is `none` for the null
pointer, for which the reader works on a temporary information object. -/
def RequestInformationForInput (reader : vtkAlgorithm) (self : vtkFileSeriesReader)
    (index : ℤ) (outputVector : Option vtkInformation) :
    ℤ × vtkFileSeriesReader × Option vtkInformation :=
  if index ≠ self.LastRequestInformationIndex ∨ outputVector.isSome then
    let self := { self with LastRequestInformationIndex := index,
                            InformationRequests := self.InformationRequests ++ [index] }
    match outputVector with
    | some outInfo =>
      let r := reader.REQUEST_INFORMATION index outInfo
      (r.1, self, some r.2)
    | none =>
      let r := reader.REQUEST_INFORMATION index
        { TIME_RANGE := none, TIME_STEPS := none, UPDATE_TIME_STEPS := none }
      (r.1, self, none)
  else (1, self, outputVector)

/-- `RequestUpdateExtent`. -/
def RequestUpdateExtent (reader : vtkAlgorithm) (self : vtkFileSeriesReader)
    (outInfo : vtkInformation) : UpdateExtentResult × vtkFileSeriesReader :=
  let inputs := self.TimeRanges.ChooseInputs outInfo
  if inputs.card > 1 then (UpdateExtentResult.temporalNotSupported, self)
  else if h : inputs.card = 0 then (UpdateExtentResult.inputsNotSet, self)
  else
    let index := inputs.min' (Finset.card_pos.mp (Nat.pos_of_ne_zero h))
    (UpdateExtentResult.selected index,
      (RequestInformationForInput reader self index none).2.1)

/-- The loop `for (int i = 0; i < numFiles; i++)` of `RequestInformation`
that fakes a time step for each input, from `i` on, `n` inputs left. -/
def fakeTimeSteps : ℕ → ℤ → vtkFileSeriesReaderTimeRanges → vtkInformation →
    Option (vtkFileSeriesReaderTimeRanges × vtkInformation)
  | 0, _, ranges, outInfo => some (ranges, outInfo)
  | n + 1, i, ranges, outInfo =>
    let outInfo := { outInfo with TIME_STEPS := some [(i : Time)] }
    match ranges.AddTimeRange i outInfo with
    | some ranges => fakeTimeSteps n (i + 1) ranges outInfo
    | none => none

/-- The loop `for (int i = 1; i < numFiles; i++)` of `RequestInformation`
that queries the other files, from `i` on, `n` inputs left. -/
def queryOtherFiles (reader : vtkAlgorithm) : ℕ → ℤ → vtkFileSeriesReader → vtkInformation →
    Option (vtkFileSeriesReader × vtkInformation)
  | 0, _, self, outInfo => some (self, outInfo)
  | n + 1, i, self, outInfo =>
    let r := RequestInformationForInput reader self i (some outInfo)
    let outInfo := r.2.2.getD outInfo
    match r.2.1.TimeRanges.AddTimeRange i outInfo with
    | some ranges => queryOtherFiles reader n (i + 1) { r.2.1 with TimeRanges := ranges } outInfo
    | none => none

/-- `RequestInformation`: the returned `int`, the new state and the output
information. -/
def RequestInformation (dmax : Time) (reader : vtkAlgorithm) (self : vtkFileSeriesReader)
    (outInfo : vtkInformation) : Option (ℤ × vtkFileSeriesReader × vtkInformation) :=
  let self := { self with TimeRanges := self.TimeRanges.Reset }
  if self.NumberOfFileNames < 1 then some (0, self, outInfo)
  else
    let outInfo := { outInfo with TIME_STEPS := none, TIME_RANGE := none }
    let r := RequestInformationForInput reader self 0 (some outInfo)
    let self := r.2.1
    let outInfo := r.2.2.getD outInfo
    let collected : Option (vtkFileSeriesReader × vtkInformation) :=
      if self.IgnoreReaderTime = true
          ∨ (outInfo.TIME_STEPS.isNone ∧ outInfo.TIME_RANGE.isNone) then
        let outInfo := { outInfo with TIME_STEPS := none, TIME_RANGE := none }
        (fakeTimeSteps self.NumberOfFileNames 0 self.TimeRanges outInfo).map
          (fun p => ({ self with TimeRanges := p.1 }, p.2))
      else
        match self.TimeRanges.AddTimeRange 0 outInfo with
        | some ranges =>
          queryOtherFiles reader (self.NumberOfFileNames - 1) 1
            { self with TimeRanges := ranges } outInfo
        | none => none
    match collected with
    | some (self, outInfo) =>
      match self.TimeRanges.GetAggregateTimeInfo dmax outInfo with
      | some agg => some (1, self, agg.2)
      | none => none
    | none => none

/-- `RequestData`: the reader's return value and the output information. -/
def RequestData (dmax : Time) (reader : vtkAlgorithm) (self : vtkFileSeriesReader)
    (outInfo : vtkInformation) : Option (ℤ × vtkInformation) :=
  match self.TimeRanges.GetInputTimeInfo self.LastRequestInformationIndex outInfo with
  | some restored =>
    let r := reader.REQUEST_DATA self.LastRequestInformationIndex restored.2
    match self.TimeRanges.GetAggregateTimeInfo dmax r.2 with
    | some agg => some (r.1, agg.2)
    | none => none
  | none => none

end vtkFileSeriesReader

/-! ## The behaviour the specification describes -/

/-- Clamp of a time into `[start, end]`, as the specification words it. -/
def clampInto (range : Time × Time) (t : Time) : Time := max range.1 (min range.2 t)

/-- The upper bound of each entry's share of the time line: the start of the
next entry, `none` (unbounded) for the last entry. -/
def nextStarts (m : List (Time × StoredInfo)) : List (Option Time) :=
  m.tail.map (fun e => some e.1) ++ [none]

/-- The aggregate steps as the specification words them: of each entry, in
ascending start order, the steps strictly below the next entry's start, all
steps for the last entry. -/
def specAggregateSteps (m : List (Time × StoredInfo)) : List Time :=
  (m.zip (nextStarts m)).flatMap (fun p =>
    match p.2 with
    | some next => (p.1.2.TIME_STEPS.getD []).filter (fun s => s < next)
    | none => p.1.2.TIME_STEPS.getD [])

/-- The aggregate steps with "the leading steps" for "the steps": of each
entry, in ascending start order, the longest leading run of its steps that are
strictly below the next entry's start, all steps for the last entry. -/
def specLeadingSteps (m : List (Time × StoredInfo)) : List Time :=
  (m.zip (nextStarts m)).flatMap (fun p =>
    match p.2 with
    | some next => (p.1.2.TIME_STEPS.getD []).takeWhile (fun s => s < next)
    | none => p.1.2.TIME_STEPS.getD [])

/-- The steps the loops of `GetAggregateTimeInfo` copy, in closed form: of each
entry, in ascending start order, the longest leading run of its steps that are
strictly below `localEndTime`, which is the next entry's start and `dmax` for
the last entry. -/
def leadingAggregateSteps (dmax : Time) (m : List (Time × StoredInfo)) : List Time :=
  (m.zip (nextStarts m)).flatMap (fun p =>
    (p.1.2.TIME_STEPS.getD []).takeWhile (fun s => s < p.2.getD dmax))

/-- The lower bound of the window of the input that starts at `start`, as the
specification words it: `none` (unbounded) when no registered start is
smaller. -/
def specLower (m : List (Time × StoredInfo)) (start : Time) : Option Time :=
  if ∀ e ∈ m, start ≤ e.1 then none else some start

/-- The upper bound of the window of the input that starts at `start`, as the
specification words it: the smallest registered start greater than `start`,
`none` (unbounded) when there is none. -/
def specUpper (m : List (Time × StoredInfo)) (start : Time) : Option Time :=
  ((m.map Prod.fst).filter (fun k => start < k)).min?

/-- The requested times inside a window, clamped into the input's range, in
request order; a bound `none` is unbounded. -/
def windowedTimes (lower upper : Option Time) (range : Time × Time)
    (requested : List Time) : List Time :=
  (requested.filter (fun t =>
    (match lower with | some l => decide (l ≤ t) | none => true) &&
    (match upper with | some u => decide (t < u) | none => true))).map (clampInto range)

/-- The global range of the by-start-time view as the code takes it: `lo` is
the smallest registered start, `hi` the end of the entry with the largest
start. -/
def HasGlobalRange (m : List (Time × StoredInfo)) (lo hi : Time) : Prop :=
  ∃ first ∈ m, ∃ last ∈ m, (∀ e ∈ m, first.1 ≤ e.1 ∧ e.1 ≤ last.1) ∧
    first.1 = lo ∧ last.2.TIME_RANGE = some (last.1, hi)

namespace vtkFileSeriesReaderTimeRanges

/-- Both maps hold the same inputs: an entry of `RangeMap` is the entry
`InputLookup` holds for its index, and an entry of `InputLookup` has a range
and is the entry `RangeMap` holds for the start of that range. -/
def Linked (self : vtkFileSeriesReaderTimeRanges) : Prop :=
  (∀ e ∈ self.RangeMap, (e.2.INDEX, e.2) ∈ self.InputLookup) ∧
  (∀ e ∈ self.InputLookup, ∃ r, e.2.TIME_RANGE = some r ∧ (r.1, e.2) ∈ self.RangeMap)

end vtkFileSeriesReaderTimeRanges

/-- The steps of an entry are strictly ascending and not below the entry's
start. -/
def StepsAscendFromStart (e : Time × StoredInfo) : Prop :=
  ∀ steps, e.2.TIME_STEPS = some steps →
    steps.Pairwise (fun a b => a < b) ∧ ∀ s ∈ steps, e.1 ≤ s

/-- The step sequence that loses no step: of each entry, in ascending start
order, all of its steps. -/
def allSteps (m : List (Time × StoredInfo)) : List Time :=
  m.flatMap (fun e => e.2.TIME_STEPS.getD [])

/-- Every step of each entry is strictly below the start of the next entry, in
ascending start order; nothing is asked of the last entry. -/
def StepsBelowNext : List (Time × StoredInfo) → Prop
  | [] => True
  | [_] => True
  | e :: e' :: rest =>
    (∀ s ∈ e.2.TIME_STEPS.getD [], s < e'.1) ∧ StepsBelowNext (e' :: rest)

/-- The information `AddTimeRange` files for input `i` of a faked timeline: the
one step `i` and the range `[i, i]`. -/
def ordinalInfo (i : ℕ) : StoredInfo :=
  { INDEX := (i : ℤ), TIME_RANGE := some ((i : Time), (i : Time)),
    TIME_STEPS := some [(i : Time)] }

/-- The registry of a faked timeline of `n` inputs: input `i` filed under the
index `i` and under the start `i`. -/
def ordinalRegistry (n : ℕ) : vtkFileSeriesReaderTimeRanges :=
  { RangeMap := (List.range n).map (fun (i : ℕ) => ((i : Time), ordinalInfo i)),
    InputLookup := (List.range n).map (fun (i : ℕ) => ((i : ℤ), ordinalInfo i)) }

/-! ## Example registries -/

/-- A value for `dmax` in the examples: `1.0e+299`, the `VTK_DOUBLE_MAX` of
VTK's `vtkType.h`. -/
def sampleDoubleMax : Time := 10 ^ 299

/-- Input 0 with range `[0, 1]` and steps `0, 0.5, 1`; input 1 with range
`[2, 3]` and steps `2, 2.5, 3`. -/
def twoInputs : vtkFileSeriesReaderTimeRanges :=
  { RangeMap := [(0, { INDEX := 0, TIME_RANGE := some (0, 1), TIME_STEPS := some [0, 1 / 2, 1] }),
                 (2, { INDEX := 1, TIME_RANGE := some (2, 3), TIME_STEPS := some [2, 5 / 2, 3] })],
    InputLookup := [(0, { INDEX := 0, TIME_RANGE := some (0, 1), TIME_STEPS := some [0, 1 / 2, 1] }),
                    (1, { INDEX := 1, TIME_RANGE := some (2, 3), TIME_STEPS := some [2, 5 / 2, 3] })] }

/-- The sources `twoInputs` is registered from. -/
def twoInputsSources : List (ℤ × vtkInformation) :=
  [(0, { TIME_RANGE := some (0, 1), TIME_STEPS := some [0, 1 / 2, 1], UPDATE_TIME_STEPS := none }),
   (1, { TIME_RANGE := some (2, 3), TIME_STEPS := some [2, 5 / 2, 3], UPDATE_TIME_STEPS := none })]

/-- A single input with range `[3, 3]`. -/
def singlePoint : vtkFileSeriesReaderTimeRanges :=
  { RangeMap := [(3, { INDEX := 0, TIME_RANGE := some (3, 3), TIME_STEPS := none })],
    InputLookup := [(0, { INDEX := 0, TIME_RANGE := some (3, 3), TIME_STEPS := none })] }

/-- Input 0 with range `[0, 2]` and steps `0, 1, 2`; input 1 with range
`[2, 3]` and steps `2, 3`: the ranges touch at `2`. -/
def touchingInputs : vtkFileSeriesReaderTimeRanges :=
  { RangeMap := [(0, { INDEX := 0, TIME_RANGE := some (0, 2), TIME_STEPS := some [0, 1, 2] }),
                 (2, { INDEX := 1, TIME_RANGE := some (2, 3), TIME_STEPS := some [2, 3] })],
    InputLookup := [(0, { INDEX := 0, TIME_RANGE := some (0, 2), TIME_STEPS := some [0, 1, 2] }),
                    (1, { INDEX := 1, TIME_RANGE := some (2, 3), TIME_STEPS := some [2, 3] })] }

/-- Input 0 with range `[0, 3]` and the steps `0, 3, 1` in that order; input 1
with range `[2, 4]` and steps `2, 4`. -/
def unorderedSteps : vtkFileSeriesReaderTimeRanges :=
  { RangeMap := [(0, { INDEX := 0, TIME_RANGE := some (0, 3), TIME_STEPS := some [0, 3, 1] }),
                 (2, { INDEX := 1, TIME_RANGE := some (2, 4), TIME_STEPS := some [2, 4] })],
    InputLookup := [(0, { INDEX := 0, TIME_RANGE := some (0, 3), TIME_STEPS := some [0, 3, 1] }),
                    (1, { INDEX := 1, TIME_RANGE := some (2, 4), TIME_STEPS := some [2, 4] })] }

/-- The sources `unorderedSteps` is registered from. -/
def unorderedStepsSources : List (ℤ × vtkInformation) :=
  [(0, { TIME_RANGE := some (0, 3), TIME_STEPS := some [0, 3, 1], UPDATE_TIME_STEPS := none }),
   (1, { TIME_RANGE := some (2, 4), TIME_STEPS := some [2, 4], UPDATE_TIME_STEPS := none })]

/-- Input 0 with range `[0, 10]` and steps `0, 5, 10`; input 1 with range
`[1, 2]` and steps `1, 2`: the input that starts last does not end last. -/
def nestedInputs : vtkFileSeriesReaderTimeRanges :=
  { RangeMap := [(0, { INDEX := 0, TIME_RANGE := some (0, 10), TIME_STEPS := some [0, 5, 10] }),
                 (1, { INDEX := 1, TIME_RANGE := some (1, 2), TIME_STEPS := some [1, 2] })],
    InputLookup := [(0, { INDEX := 0, TIME_RANGE := some (0, 10), TIME_STEPS := some [0, 5, 10] }),
                    (1, { INDEX := 1, TIME_RANGE := some (1, 2), TIME_STEPS := some [1, 2] })] }

/-- The sources `nestedInputs` is registered from. -/
def nestedInputsSources : List (ℤ × vtkInformation) :=
  [(0, { TIME_RANGE := some (0, 10), TIME_STEPS := some [0, 5, 10], UPDATE_TIME_STEPS := none }),
   (1, { TIME_RANGE := some (1, 2), TIME_STEPS := some [1, 2], UPDATE_TIME_STEPS := none })]

/-- An output information object with no key set. -/
def emptyInfo : vtkInformation :=
  { TIME_RANGE := none, TIME_STEPS := none, UPDATE_TIME_STEPS := none }

/-- A request for the given times. -/
def requestFor (times : List Time) : vtkInformation :=
  { TIME_RANGE := none, TIME_STEPS := none, UPDATE_TIME_STEPS := some times }

/-- A reader that leaves the information untouched and reports success. -/
def idleReader : vtkAlgorithm :=
  { REQUEST_INFORMATION := fun _ info => (1, info), REQUEST_DATA := fun _ info => (1, info) }

/-- A controller over `twoInputs` that has probed no input yet. -/
def twoInputsReader : vtkFileSeriesReader :=
  { NumberOfFileNames := 2, IgnoreReaderTime := false, LastRequestInformationIndex := -1,
    TimeRanges := twoInputs, InformationRequests := [] }

/-- A single input with range `[0, 1]` and no steps. -/
def rangeOnlyInput : vtkFileSeriesReaderTimeRanges :=
  { RangeMap := [(0, { INDEX := 0, TIME_RANGE := some (0, 1), TIME_STEPS := none })],
    InputLookup := [(0, { INDEX := 0, TIME_RANGE := some (0, 1), TIME_STEPS := none })] }

/-- A single input with range `[0, sampleDoubleMax]` and the steps `0` and
`sampleDoubleMax`. -/
def farStepInput : vtkFileSeriesReaderTimeRanges :=
  { RangeMap := [(0, { INDEX := 0, TIME_RANGE := some (0, sampleDoubleMax),
                       TIME_STEPS := some [0, sampleDoubleMax] })],
    InputLookup := [(0, { INDEX := 0, TIME_RANGE := some (0, sampleDoubleMax),
                          TIME_STEPS := some [0, sampleDoubleMax] })] }

/-- A registry right after `Reset`. -/
def resetRegistry : vtkFileSeriesReaderTimeRanges :=
  vtkFileSeriesReaderTimeRanges.Reset { RangeMap := [], InputLookup := [] }

/-- A source that reports the range `[lo, hi]` and no steps. -/
def rangeSource (lo hi : Time) : vtkInformation :=
  { TIME_RANGE := some (lo, hi), TIME_STEPS := none, UPDATE_TIME_STEPS := none }

/-- A controller with `n` file names that ignores the reader's time and has
probed no input yet. -/
def ignoringReader (n : ℕ) : vtkFileSeriesReader :=
  { NumberOfFileNames := n, IgnoreReaderTime := true, LastRequestInformationIndex := -1,
    TimeRanges := resetRegistry, InformationRequests := [] }

/-- A source with range `[0, 2]` and steps `0, 2`: it starts where input 0 of
`twoInputsSources` starts. -/
def collidingSource : vtkInformation :=
  { TIME_RANGE := some (0, 2), TIME_STEPS := some [0, 2], UPDATE_TIME_STEPS := none }

/-- The registry after input 0 of `twoInputsSources` alone. -/
def firstInputOnly : vtkFileSeriesReaderTimeRanges :=
  { RangeMap := [(0, { INDEX := 0, TIME_RANGE := some (0, 1), TIME_STEPS := some [0, 1 / 2, 1] })],
    InputLookup :=
      [(0, { INDEX := 0, TIME_RANGE := some (0, 1), TIME_STEPS := some [0, 1 / 2, 1] })] }

/-- The registry after input 0 of `twoInputsSources` and then `collidingSource`
as input 1. -/
def collidedInputs : vtkFileSeriesReaderTimeRanges :=
  { RangeMap := [(0, { INDEX := 1, TIME_RANGE := some (0, 2), TIME_STEPS := some [0, 2] })],
    InputLookup :=
      [(0, { INDEX := 0, TIME_RANGE := some (0, 1), TIME_STEPS := some [0, 1 / 2, 1] }),
       (1, { INDEX := 1, TIME_RANGE := some (0, 2), TIME_STEPS := some [0, 2] })] }

/-- A single input with range `[0, 2]` and steps `0, 1, 2`. -/
def singleInput : vtkFileSeriesReaderTimeRanges :=
  { RangeMap := [(0, { INDEX := 0, TIME_RANGE := some (0, 2), TIME_STEPS := some [0, 1, 2] })],
    InputLookup := [(0, { INDEX := 0, TIME_RANGE := some (0, 2), TIME_STEPS := some [0, 1, 2] })] }

/-- An output information object that holds the range `[5, 6]` and the steps
`5, 6`. -/
def staleInfo : vtkInformation :=
  { TIME_RANGE := some (5, 6), TIME_STEPS := some [5, 6], UPDATE_TIME_STEPS := none }

/-- A reader that overwrites the range and the steps of the information it is
handed with `[7, 8]` and `7`, and reports success. -/
def scribblingReader : vtkAlgorithm :=
  { REQUEST_INFORMATION := fun _ info =>
      (1, { info with TIME_RANGE := some (7, 8), TIME_STEPS := some [7] }),
    REQUEST_DATA := fun _ info =>
      (1, { info with TIME_RANGE := some (7, 8), TIME_STEPS := some [7] }) }

/-- A controller over `twoInputs` whose last probed input is 1. -/
def twoInputsProbed : vtkFileSeriesReader :=
  { NumberOfFileNames := 2, IgnoreReaderTime := false, LastRequestInformationIndex := 1,
    TimeRanges := twoInputs, InformationRequests := [0, 1] }

/-! ## Vectors under a key -/

/-- A vector that is not empty is stored as it is. -/
theorem SetVector_of_ne_nil (values : List Time) (h : values ≠ []) :
    SetVector values = some values := by
  cases values with
  | nil => exact absurd rfl h
  | cons value rest => rfl

/-- What is stored under the key is never a vector of length zero. -/
theorem SetVector_ne_some_nil (values : List Time) : SetVector values ≠ some [] := by
  cases values <;> simp

/-- What a copy leaves under the key is never a vector of length zero. -/
theorem CopyEntry_ne_some_nil (values : Option (List Time)) : CopyEntry values ≠ some [] := by
  cases values with
  | none => simp
  | some l => exact SetVector_ne_some_nil l

/-! ## Ordered maps -/

theorem upper_bound_le_length {α : Type} (t : Time) (m : List (Time × α)) :
    upper_bound t m ≤ m.length := by
  induction m with
  | nil => simp [upper_bound]
  | cons e rest ih =>
    obtain ⟨k, v⟩ := e
    simp only [upper_bound, List.length_cons]
    split <;> omega

theorem upper_bound_below {α : Type} (t : Time) (m : List (Time × α)) :
    ∀ (i : ℕ) (e : Time × α), i < upper_bound t m → m[i]? = some e → e.1 ≤ t := by
  induction m with
  | nil => intro i e h; simp [upper_bound] at h
  | cons x rest ih =>
    obtain ⟨k, v⟩ := x
    intro i e h he
    simp only [upper_bound] at h
    split at h
    · omega
    · rename_i hk
      cases i with
      | zero =>
        simp at he
        subst he
        exact not_lt.mp hk
      | succ j =>
        simp at he
        exact ih j e (by omega) he

theorem sorted_getElem?_lt {α : Type} {m : List (Time × α)}
    (hs : m.Pairwise (fun a b => a.1 < b.1)) {i j : ℕ} {a b : Time × α}
    (hij : i < j) (ha : m[i]? = some a) (hb : m[j]? = some b) : a.1 < b.1 := by
  obtain ⟨hi, rfl⟩ := List.getElem?_eq_some.mp ha
  obtain ⟨hj, rfl⟩ := List.getElem?_eq_some.mp hb
  exact List.pairwise_iff_getElem.mp hs i j hi hj hij

theorem upper_bound_above {α : Type} (t : Time) (m : List (Time × α))
    (hs : m.Pairwise (fun a b => a.1 < b.1)) :
    ∀ (i : ℕ) (e : Time × α), upper_bound t m ≤ i → m[i]? = some e → t < e.1 := by
  induction m with
  | nil => intro i e _ he; simp at he
  | cons x rest ih =>
    obtain ⟨k, v⟩ := x
    intro i e h he
    simp only [upper_bound] at h
    rw [List.pairwise_cons] at hs
    split at h
    · rename_i hk
      cases i with
      | zero =>
        simp at he
        subst he
        exact hk
      | succ j =>
        simp at he
        have := hs.1 e (List.mem_iff_getElem?.mpr ⟨j, he⟩)
        exact lt_trans hk this
    · cases i with
      | zero => omega
      | succ j =>
        simp at he
        exact ih hs.2 j e (by omega) he

namespace vtkFileSeriesReaderTimeRanges

/-- The position `GetIndexForTime` reads is inside the map. -/
theorem GetIndexForTime_position_valid (self : vtkFileSeriesReaderTimeRanges) (t : Time)
    (hne : self.RangeMap ≠ []) :
    (if upper_bound t self.RangeMap = 0 then upper_bound t self.RangeMap
      else upper_bound t self.RangeMap - 1) < self.RangeMap.length := by
  have h1 := upper_bound_le_length t self.RangeMap
  have h2 : 0 < self.RangeMap.length := List.length_pos.mpr hne
  split <;> omega

/-- The entry `GetIndexForTime` answers with: the one with the greatest key
not above `t`, the one with the smallest key when all keys are above `t`. -/
theorem GetIndexForTime_entry (self : vtkFileSeriesReaderTimeRanges) (t : Time)
    (hs : self.RangeMap.Pairwise (fun a b => a.1 < b.1)) (hne : self.RangeMap ≠ []) :
    ∃ e ∈ self.RangeMap, self.GetIndexForTime t = e.2.INDEX ∧
      ((e.1 ≤ t ∧ ∀ e' ∈ self.RangeMap, e'.1 ≤ t → e'.1 ≤ e.1) ∨
       ((∀ e' ∈ self.RangeMap, t < e'.1) ∧ ∀ e' ∈ self.RangeMap, e.1 ≤ e'.1)) := by
  have hpos := GetIndexForTime_position_valid self t hne
  obtain ⟨e, he⟩ : ∃ e, self.RangeMap[if upper_bound t self.RangeMap = 0
      then upper_bound t self.RangeMap else upper_bound t self.RangeMap - 1]? = some e :=
    ⟨_, List.getElem?_eq_getElem hpos⟩
  refine ⟨e, List.mem_iff_getElem?.mpr ⟨_, he⟩, ?_, ?_⟩
  · have hemp : self.RangeMap.isEmpty = false := by
      cases h : self.RangeMap with
      | nil => exact absurd h hne
      | cons _ _ => rfl
    simp only [GetIndexForTime, hemp, he]
    simp
  · by_cases h0 : upper_bound t self.RangeMap = 0
    · right
      rw [if_pos h0, h0] at he
      have hall : ∀ e' ∈ self.RangeMap, t < e'.1 := by
        intro e' he'
        obtain ⟨j, hj⟩ := List.mem_iff_getElem?.mp he'
        exact upper_bound_above t _ hs j e' (by omega) hj
      refine ⟨hall, ?_⟩
      intro e' he'
      obtain ⟨j, hj⟩ := List.mem_iff_getElem?.mp he'
      rcases Nat.eq_zero_or_pos j with hj0 | hj0
      · subst hj0
        rw [he] at hj
        cases hj
        exact le_refl _
      · exact le_of_lt (sorted_getElem?_lt hs hj0 he hj)
    · left
      rw [if_neg h0] at he
      refine ⟨upper_bound_below t _ _ e (by omega) he, ?_⟩
      intro e' he' hle
      obtain ⟨j, hj⟩ := List.mem_iff_getElem?.mp he'
      have hjlt : j < upper_bound t self.RangeMap := by
        by_contra hcon
        have := upper_bound_above t _ hs j e' (by omega) hj
        exact absurd hle (not_le.mpr this)
      rcases Nat.lt_or_ge j (upper_bound t self.RangeMap - 1) with hlt | hge
      · exact le_of_lt (sorted_getElem?_lt hs hlt hj he)
      · have : j = upper_bound t self.RangeMap - 1 := by omega
        subst this
        rw [he] at hj
        cases hj
        exact le_refl _

end vtkFileSeriesReaderTimeRanges

theorem mem_mapAssign_self {κ α : Type} [LinearOrder κ] (k : κ) (v : α) (m : List (κ × α)) :
    (k, v) ∈ mapAssign k v m := by
  induction m with
  | nil => simp [mapAssign]
  | cons x rest ih =>
    obtain ⟨k', v'⟩ := x
    simp only [mapAssign]
    split
    · simp
    · split
      · simp
      · exact List.mem_cons_of_mem _ ih

theorem mem_mapAssign_of_mem {κ α : Type} [LinearOrder κ] (k : κ) (v : α) (m : List (κ × α))
    (e : κ × α) (he : e ∈ m) (hk : e.1 ≠ k) : e ∈ mapAssign k v m := by
  induction m with
  | nil => simp at he
  | cons x rest ih =>
    obtain ⟨k', v'⟩ := x
    simp only [mapAssign]
    split
    · exact List.mem_cons_of_mem _ he
    · split
      · rename_i _ hkk
        rcases List.mem_cons.mp he with h | h
        · subst h
          exact absurd hkk.symm hk
        · exact List.mem_cons_of_mem _ h
      · rcases List.mem_cons.mp he with h | h
        · subst h
          exact List.mem_cons_self _ _
        · exact List.mem_cons_of_mem _ (ih h)

theorem mem_of_mem_mapAssign {κ α : Type} [LinearOrder κ] (k : κ) (v : α) (m : List (κ × α))
    (hs : m.Pairwise (fun a b => a.1 < b.1)) (e : κ × α) (he : e ∈ mapAssign k v m) :
    e = (k, v) ∨ (e ∈ m ∧ e.1 ≠ k) := by
  induction m with
  | nil =>
    simp only [mapAssign, List.mem_singleton] at he
    exact Or.inl he
  | cons x rest ih =>
    obtain ⟨k', v'⟩ := x
    rw [List.pairwise_cons] at hs
    simp only [mapAssign] at he
    split at he
    · rename_i hlt
      rcases List.mem_cons.mp he with h | h
      · exact Or.inl h
      · right
        refine ⟨h, ?_⟩
        rcases List.mem_cons.mp h with h' | h'
        · subst h'
          exact ne_of_gt hlt
        · exact ne_of_gt (lt_trans hlt (hs.1 e h'))
    · split at he
      · rename_i _ heq
        rcases List.mem_cons.mp he with h | h
        · exact Or.inl h
        · right
          refine ⟨List.mem_cons_of_mem _ h, ?_⟩
          have := hs.1 e h
          rw [heq]
          exact ne_of_gt this
      · rename_i hnlt hne
        rcases List.mem_cons.mp he with h | h
        · right
          subst h
          exact ⟨List.mem_cons_self _ _, fun h => hne h.symm⟩
        · rcases ih hs.2 h with h' | h'
          · exact Or.inl h'
          · exact Or.inr ⟨List.mem_cons_of_mem _ h'.1, h'.2⟩

theorem mapAssign_sorted {κ α : Type} [LinearOrder κ] (k : κ) (v : α) (m : List (κ × α))
    (hs : m.Pairwise (fun a b => a.1 < b.1)) :
    (mapAssign k v m).Pairwise (fun a b => a.1 < b.1) := by
  induction m with
  | nil => simp [mapAssign]
  | cons x rest ih =>
    obtain ⟨k', v'⟩ := x
    have hs' := List.pairwise_cons.mp hs
    simp only [mapAssign]
    split
    · rename_i hlt
      refine List.pairwise_cons.mpr ⟨?_, hs⟩
      intro e he
      rcases List.mem_cons.mp he with h | h
      · subst h
        exact hlt
      · exact lt_trans hlt (hs'.1 e h)
    · split
      · rename_i _ heq
        refine List.pairwise_cons.mpr ⟨?_, hs'.2⟩
        intro e he
        rw [heq]
        exact hs'.1 e he
      · rename_i hnlt hne
        refine List.pairwise_cons.mpr ⟨?_, ih hs'.2⟩
        intro e he
        rcases mem_of_mem_mapAssign k v rest hs'.2 e he with h | h
        · subst h
          exact lt_of_le_of_ne (not_lt.mp hnlt) (fun h => hne h.symm)
        · exact hs'.1 e h.1

theorem mapLookup_eq_some {κ α : Type} [LinearOrder κ] (k : κ) (v : α) (m : List (κ × α))
    (hs : m.Pairwise (fun a b => a.1 < b.1)) :
    mapLookup k m = some v ↔ (k, v) ∈ m := by
  induction m with
  | nil => simp [mapLookup]
  | cons x rest ih =>
    obtain ⟨k', v'⟩ := x
    have hs' := List.pairwise_cons.mp hs
    simp only [mapLookup]
    split
    · rename_i heq
      subst heq
      constructor
      · intro h
        cases h
        exact List.mem_cons_self _ _
      · intro h
        rcases List.mem_cons.mp h with h' | h'
        · cases h'
          rfl
        · exact absurd (hs'.1 _ h') (lt_irrefl _)
    · rename_i hne
      rw [ih hs'.2]
      constructor
      · exact fun h => List.mem_cons_of_mem _ h
      · intro h
        rcases List.mem_cons.mp h with h' | h'
        · cases h'
          exact absurd rfl hne
        · exact h'

namespace vtkFileSeriesReaderTimeRanges

theorem WF_Reset (self : vtkFileSeriesReaderTimeRanges) : (Reset self).WF := by
  simp [WF, Reset]

/-- Filing an information object with a range under both maps keeps the invariant. -/
theorem WF_assign_both (self : vtkFileSeriesReaderTimeRanges) (hwf : self.WF)
    (index : ℤ) (range : Time × Time) (steps : Option (List Time)) :
    WF { RangeMap := mapAssign range.1
           { INDEX := index, TIME_RANGE := some range, TIME_STEPS := steps } self.RangeMap,
         InputLookup := mapAssign index
           { INDEX := index, TIME_RANGE := some range, TIME_STEPS := steps } self.InputLookup } := by
  obtain ⟨h1, h2, h3, h4, h5⟩ := hwf
  refine ⟨mapAssign_sorted _ _ _ h1, mapAssign_sorted _ _ _ h2, ?_, ?_, ?_⟩
  · intro e he
    rcases mem_of_mem_mapAssign _ _ _ h1 e he with h | h
    · subst h
      rfl
    · exact h3 e h.1
  · intro e he
    rcases mem_of_mem_mapAssign _ _ _ h2 e he with h | h
    · subst h
      rfl
    · exact h4 e h.1
  · intro e he r hr
    rcases mem_of_mem_mapAssign _ _ _ h2 e he with h | h
    · subst h
      simp only [Option.some.injEq] at hr
      subst hr
      exact ⟨_, mem_mapAssign_self _ _ _, rfl⟩
    · obtain ⟨e', he', hk⟩ := h5 e h.1 r hr
      by_cases hc : e'.1 = range.1
      · exact ⟨_, mem_mapAssign_self _ _ _, by rw [← hk, hc]⟩
      · exact ⟨e', mem_mapAssign_of_mem _ _ _ e' he' hc, hk⟩

/-- `AddTimeRange` keeps the invariant. -/
theorem WF_AddTimeRange (self self' : vtkFileSeriesReaderTimeRanges) (index : ℤ)
    (srcInfo : vtkInformation) (hwf : self.WF)
    (h : self.AddTimeRange index srcInfo = some self') : self'.WF := by
  unfold AddTimeRange at h
  split at h
  · split at h
    · cases h
      exact WF_assign_both self hwf index _ _
    · split at h
      · cases h
        exact WF_assign_both self hwf index (_, _) _
      · cases h
  · split at h
    · cases h
      exact WF_assign_both self hwf index _ _
    · cases h
      obtain ⟨h1, h2, h3, h4, h5⟩ := hwf
      refine ⟨h1, mapAssign_sorted _ _ _ h2, h3, ?_, ?_⟩
      · intro e he
        rcases mem_of_mem_mapAssign _ _ _ h2 e he with h | h
        · subst h
          rfl
        · exact h4 e h.1
      · intro e he r hr
        rcases mem_of_mem_mapAssign _ _ _ h2 e he with h | h
        · subst h
          cases hr
        · exact h5 e h.1 r hr

end vtkFileSeriesReaderTimeRanges

/-! ## Aggregation -/

namespace vtkFileSeriesReaderTimeRanges

theorem copyTimeSteps_eq (localEndTime : Time) (steps timeSteps : List Time) :
    copyTimeSteps localEndTime steps timeSteps
      = timeSteps ++ steps.takeWhile (fun s => s < localEndTime) := by
  induction steps generalizing timeSteps with
  | nil => simp [copyTimeSteps]
  | cons s rest ih =>
    simp only [copyTimeSteps]
    split
    · rename_i h
      rw [ih]
      simp [List.takeWhile_cons, h]
    · rename_i h
      simp [List.takeWhile_cons, h]

end vtkFileSeriesReaderTimeRanges

theorem leadingAggregateSteps_nil (dmax : Time) : leadingAggregateSteps dmax [] = [] := by
  simp [leadingAggregateSteps]

theorem leadingAggregateSteps_single (dmax : Time) (e : Time × StoredInfo) :
    leadingAggregateSteps dmax [e]
      = (e.2.TIME_STEPS.getD []).takeWhile (fun s => s < dmax) := by
  simp [leadingAggregateSteps, nextStarts]

theorem leadingAggregateSteps_cons (dmax : Time) (e e' : Time × StoredInfo)
    (rest : List (Time × StoredInfo)) :
    leadingAggregateSteps dmax (e :: e' :: rest)
      = (e.2.TIME_STEPS.getD []).takeWhile (fun s => s < e'.1)
        ++ leadingAggregateSteps dmax (e' :: rest) := by
  simp [leadingAggregateSteps, nextStarts]

namespace vtkFileSeriesReaderTimeRanges

theorem aggregateLoop_eq (dmax : Time) (m : List (Time × StoredInfo))
    (h : ∀ e ∈ m, e.2.TIME_RANGE.map Prod.fst = some e.1) (timeSteps : List Time) :
    aggregateLoop dmax m timeSteps = some (timeSteps ++ leadingAggregateSteps dmax m) := by
  induction m generalizing timeSteps with
  | nil => simp [aggregateLoop, leadingAggregateSteps_nil]
  | cons e rest ih =>
    cases rest with
    | nil =>
      obtain ⟨k, info⟩ := e
      simp [aggregateLoop, leadingAggregateSteps_single, copyTimeSteps_eq]
    | cons e' rest' =>
      obtain ⟨k, info⟩ := e
      obtain ⟨k', next⟩ := e'
      have hnext := h (k', next) (by simp)
      simp only at hnext
      cases hr : next.TIME_RANGE with
      | none => simp [hr] at hnext
      | some nextRange =>
        simp only [hr, Option.map_some', Option.some.injEq] at hnext
        simp only [aggregateLoop, hr]
        rw [ih (fun e he => h e (List.mem_cons_of_mem _ he))]
        rw [leadingAggregateSteps_cons, copyTimeSteps_eq, hnext]
        simp

end vtkFileSeriesReaderTimeRanges

theorem sorted_head_least {α : Type} {m : List (Time × α)}
    (hs : m.Pairwise (fun a b => a.1 < b.1)) {f : Time × α} (hf : m.head? = some f) :
    ∀ e ∈ m, f.1 ≤ e.1 := by
  cases m with
  | nil => simp at hf
  | cons x rest =>
    simp only [List.head?_cons, Option.some.injEq] at hf
    subst hf
    intro e he
    rcases List.mem_cons.mp he with h | h
    · rw [h]
    · exact le_of_lt ((List.pairwise_cons.mp hs).1 e h)

theorem sorted_getLast_greatest {α : Type} {m : List (Time × α)}
    (hs : m.Pairwise (fun a b => a.1 < b.1)) {l : Time × α} (hl : m.getLast? = some l) :
    ∀ e ∈ m, e.1 ≤ l.1 := by
  obtain ⟨ys, rfl⟩ := List.getLast?_eq_some_iff.mp hl
  intro e he
  rcases List.mem_append.mp he with h | h
  · exact le_of_lt ((List.pairwise_append.mp hs).2.2 e h l (by simp))
  · simp only [List.mem_singleton] at h
    rw [h]

theorem sorted_key_unique {κ α : Type} [LinearOrder κ] {m : List (κ × α)}
    (hs : m.Pairwise (fun a b => a.1 < b.1)) {a b : κ × α}
    (ha : a ∈ m) (hb : b ∈ m) (hk : a.1 = b.1) : a = b := by
  induction m with
  | nil => simp at ha
  | cons x rest ih =>
    have hs' := List.pairwise_cons.mp hs
    rcases List.mem_cons.mp ha with h1 | h1 <;> rcases List.mem_cons.mp hb with h2 | h2
    · rw [h1, h2]
    · subst h1
      exact absurd hk (ne_of_lt (hs'.1 b h2))
    · subst h2
      exact absurd hk.symm (ne_of_lt (hs'.1 a h1))
    · exact ih hs'.2 h1 h2

namespace vtkFileSeriesReaderTimeRanges

/-- A non-empty registry has a global range. -/
theorem exists_globalRange (self : vtkFileSeriesReaderTimeRanges) (hwf : self.WF)
    (hne : self.RangeMap ≠ []) : ∃ lo hi, HasGlobalRange self.RangeMap lo hi := by
  obtain ⟨h1, _, h3, _, _⟩ := hwf
  obtain ⟨f, hf⟩ : ∃ f, self.RangeMap.head? = some f := by
    cases h : self.RangeMap with
    | nil => exact absurd h hne
    | cons x _ => exact ⟨x, rfl⟩
  obtain ⟨l, hl⟩ : ∃ l, self.RangeMap.getLast? = some l := by
    cases h : self.RangeMap.getLast? with
    | none => exact absurd (List.getLast?_eq_none_iff.mp h) hne
    | some l => exact ⟨l, rfl⟩
  have hfm : f ∈ self.RangeMap := List.mem_of_mem_head? hf
  have hlm : l ∈ self.RangeMap := List.mem_of_mem_getLast? hl
  have hlr := h3 l hlm
  cases hr : l.2.TIME_RANGE with
  | none => simp [hr] at hlr
  | some r =>
    simp only [hr, Option.map_some', Option.some.injEq] at hlr
    refine ⟨f.1, r.2, f, hfm, l, hlm, ?_, rfl, ?_⟩
    · exact fun e he => ⟨sorted_head_least h1 hf e he, sorted_getLast_greatest h1 hl e he⟩
    · rw [← hlr, hr]

/-- What `GetAggregateTimeInfo` returns on a registry with global range
`[lo, hi]`. -/
theorem GetAggregateTimeInfo_of_range (dmax : Time) (self : vtkFileSeriesReaderTimeRanges)
    (outInfo : vtkInformation) (lo hi : Time) (hwf : self.WF)
    (hr : HasGlobalRange self.RangeMap lo hi) :
    self.GetAggregateTimeInfo dmax outInfo
      = some (1,
          if lo ≥ hi then { outInfo with TIME_RANGE := none, TIME_STEPS := none }
          else { outInfo with TIME_RANGE := some (lo, hi),
                              TIME_STEPS := SetVector (leadingAggregateSteps dmax self.RangeMap) }) := by
  obtain ⟨h1, _, h3, _, _⟩ := hwf
  obtain ⟨first, hfm, last, hlm, hall, hlo, hhi⟩ := hr
  have hne : self.RangeMap ≠ [] := List.ne_nil_of_mem hfm
  obtain ⟨f, hf⟩ : ∃ f, self.RangeMap.head? = some f := by
    cases h : self.RangeMap with
    | nil => exact absurd h hne
    | cons x _ => exact ⟨x, rfl⟩
  obtain ⟨l, hl⟩ : ∃ l, self.RangeMap.getLast? = some l := by
    cases h : self.RangeMap.getLast? with
    | none => exact absurd (List.getLast?_eq_none_iff.mp h) hne
    | some l => exact ⟨l, rfl⟩
  have hfe : f = first :=
    sorted_key_unique h1 (List.mem_of_mem_head? hf) hfm
      (le_antisymm (sorted_head_least h1 hf first hfm)
        (hall f (List.mem_of_mem_head? hf)).1)
  have hle : l = last :=
    sorted_key_unique h1 (List.mem_of_mem_getLast? hl) hlm
      (le_antisymm (hall l (List.mem_of_mem_getLast? hl)).2
        (sorted_getLast_greatest h1 hl last hlm))
  subst hfe hle
  have hfr := h3 f hfm
  cases hfr' : f.2.TIME_RANGE with
  | none => simp [hfr'] at hfr
  | some fr =>
    simp only [hfr', Option.map_some', Option.some.injEq] at hfr
    simp only [GetAggregateTimeInfo, hf, hl, hfr', hhi, aggregateLoop_eq dmax _ h3, hfr, hlo,
      List.nil_append]
    split <;> rfl

end vtkFileSeriesReaderTimeRanges

theorem entry_steps_sorted (e : Time × StoredInfo) (h : StepsAscendFromStart e) :
    (e.2.TIME_STEPS.getD []).Pairwise (fun a b => a < b)
      ∧ ∀ s ∈ e.2.TIME_STEPS.getD [], e.1 ≤ s := by
  cases hs : e.2.TIME_STEPS with
  | none => simp
  | some steps => simpa using h steps hs

theorem leadingAggregateSteps_sorted (dmax : Time) (m : List (Time × StoredInfo))
    (hs : m.Pairwise (fun a b => a.1 < b.1)) (hsteps : ∀ e ∈ m, StepsAscendFromStart e) :
    (leadingAggregateSteps dmax m).Pairwise (fun a b => a < b)
      ∧ ∀ s ∈ leadingAggregateSteps dmax m, ∀ f, m.head? = some f → f.1 ≤ s := by
  induction m with
  | nil => simp [leadingAggregateSteps_nil]
  | cons e rest ih =>
    have he := entry_steps_sorted e (hsteps e (List.mem_cons_self _ _))
    cases rest with
    | nil =>
      rw [leadingAggregateSteps_single]
      refine ⟨he.1.sublist (List.takeWhile_sublist _), ?_⟩
      intro s hsm f hf
      simp only [List.head?_cons, Option.some.injEq] at hf
      subst hf
      exact he.2 s ((List.takeWhile_sublist _).subset hsm)
    | cons e' rest' =>
      have hs' := List.pairwise_cons.mp hs
      have ih' := ih hs'.2 (fun x hx => hsteps x (List.mem_cons_of_mem _ hx))
      rw [leadingAggregateSteps_cons]
      refine ⟨List.pairwise_append.mpr
        ⟨he.1.sublist (List.takeWhile_sublist _), ih'.1, ?_⟩, ?_⟩
      · intro a ha b hb
        have h1 : a < e'.1 := by simpa using List.mem_takeWhile_imp ha
        exact lt_of_lt_of_le h1 (ih'.2 b hb e' rfl)
      · intro s hsm f hf
        simp only [List.head?_cons, Option.some.injEq] at hf
        subst hf
        rcases List.mem_append.mp hsm with h | h
        · exact he.2 s ((List.takeWhile_sublist _).subset h)
        · exact le_trans (le_of_lt (hs'.1 e' (List.mem_cons_self _ _))) (ih'.2 s h e' rfl)

/-! ## Windows -/

theorem find_eq_zero_iff {α : Type} (s : Time) (m : List (Time × α))
    (hs : m.Pairwise (fun a b => a.1 < b.1)) (hmem : ∃ e ∈ m, e.1 = s) :
    find s m = 0 ↔ ∀ e ∈ m, s ≤ e.1 := by
  cases m with
  | nil => simp at hmem
  | cons x rest =>
    obtain ⟨k, v⟩ := x
    have hs' := List.pairwise_cons.mp hs
    simp only [find]
    constructor
    · intro h
      split at h
      · rename_i heq
        subst heq
        intro e he
        rcases List.mem_cons.mp he with h' | h'
        · rw [h']
        · exact le_of_lt (hs'.1 e h')
      · omega
    · intro h
      have hk : s ≤ k := h (k, v) (List.mem_cons_self _ _)
      obtain ⟨e, he, hes⟩ := hmem
      have : s = k := by
        rcases List.mem_cons.mp he with h' | h'
        · rw [← hes, h']
        · have := hs'.1 e h'
          rw [hes] at this
          exact absurd hk (not_le.mpr this)
      simp [this]

theorem upper_bound_entry {α : Type} (s : Time) (m : List (Time × α))
    (hs : m.Pairwise (fun a b => a.1 < b.1)) (e : Time × α)
    (he : m[upper_bound s m]? = some e) :
    e ∈ m ∧ s < e.1 ∧ ∀ e' ∈ m, s < e'.1 → e.1 ≤ e'.1 := by
  refine ⟨List.mem_iff_getElem?.mpr ⟨_, he⟩, upper_bound_above s m hs _ e (le_refl _) he, ?_⟩
  intro e' he' hlt
  obtain ⟨j, hj⟩ := List.mem_iff_getElem?.mp he'
  rcases Nat.lt_trichotomy j (upper_bound s m) with h | h | h
  · exact absurd (upper_bound_below s m j e' h hj) (not_le.mpr hlt)
  · subst h
    rw [he] at hj
    cases hj
    exact le_refl _
  · exact le_of_lt (sorted_getElem?_lt hs h he hj)

theorem upper_bound_none {α : Type} (s : Time) (m : List (Time × α))
    (he : m[upper_bound s m]? = none) : ∀ e' ∈ m, e'.1 ≤ s := by
  intro e' he'
  obtain ⟨j, hj⟩ := List.mem_iff_getElem?.mp he'
  have hlen := List.getElem?_eq_none_iff.mp he
  have hj' := (List.getElem?_eq_some.mp hj).1
  exact upper_bound_below s m j e' (by omega) hj

theorem foldl_push_eq_filter_map {β : Type} (p : Time → Prop) [DecidablePred p]
    (f : Time → β) (l : List Time) (acc : List β) :
    l.foldl (fun times t => if p t then times ++ [f t] else times) acc
      = acc ++ (l.filter (fun t => decide (p t))).map f := by
  induction l generalizing acc with
  | nil => simp
  | cons t rest ih =>
    simp only [List.foldl_cons]
    rw [ih]
    by_cases h : p t
    · simp [h, List.filter_cons]
    · simp [h, List.filter_cons]

theorem specUpper_eq_some_iff (m : List (Time × StoredInfo)) (s k : Time) :
    specUpper m s = some k ↔
      (∃ e ∈ m, e.1 = k) ∧ s < k ∧ ∀ e' ∈ m, s < e'.1 → k ≤ e'.1 := by
  unfold specUpper
  haveI : Std.Antisymm (fun (x1 x2 : Time) => x1 ≤ x2) :=
    ⟨fun h1 h2 => le_antisymm h1 h2⟩
  rw [List.min?_eq_some_iff (fun a => le_refl a) (fun a b => min_choice a b)
    (fun a b c => le_min_iff)]
  simp only [List.mem_filter, List.mem_map, decide_eq_true_eq, and_imp,
    forall_exists_index]
  constructor
  · rintro ⟨⟨⟨e, he, hk⟩, hlt⟩, hmin⟩
    exact ⟨⟨e, he, hk⟩, hlt, fun e' he' h' => hmin e'.1 e' he' rfl h'⟩
  · rintro ⟨⟨e, he, hk⟩, hlt, hmin⟩
    refine ⟨⟨⟨e, he, hk⟩, hlt⟩, ?_⟩
    intro b e' he' hb hlt'
    subst hb
    exact hmin e' he' hlt'

theorem specUpper_eq_none_iff (m : List (Time × StoredInfo)) (s : Time) :
    specUpper m s = none ↔ ∀ e ∈ m, e.1 ≤ s := by
  unfold specUpper
  rw [List.min?_eq_none_iff, List.filter_eq_nil_iff]
  simp only [List.mem_map, decide_eq_true_eq, not_lt, forall_exists_index, and_imp]
  constructor
  · intro h e he
    exact h e.1 e he rfl
  · intro h a e he ha
    subst ha
    exact h e he

theorem upper_entry_eq_specUpper (dmax s : Time) (m : List (Time × StoredInfo))
    (hs : m.Pairwise (fun a b => a.1 < b.1)) :
    (match m[upper_bound s m]? with
      | some entry => entry.1
      | none => dmax) = (specUpper m s).getD dmax := by
  cases he : m[upper_bound s m]? with
  | some e =>
    obtain ⟨h1, h2, h3⟩ := upper_bound_entry s m hs e he
    have : specUpper m s = some e.1 :=
      (specUpper_eq_some_iff m s e.1).mpr ⟨⟨e, h1, rfl⟩, h2, h3⟩
    simp [this]
  | none =>
    have : specUpper m s = none :=
      (specUpper_eq_none_iff m s).mpr (upper_bound_none s m he)
    simp [this]

theorem find_lower_eq_specLower (dmax s : Time) (m : List (Time × StoredInfo))
    (hs : m.Pairwise (fun a b => a.1 < b.1)) (hmem : ∃ e ∈ m, e.1 = s) :
    (if find s m = 0 then -dmax else s) = (specLower m s).getD (-dmax) := by
  unfold specLower
  by_cases h : ∀ e ∈ m, s ≤ e.1
  · rw [if_pos ((find_eq_zero_iff s m hs hmem).mpr h), if_pos h]
    rfl
  · rw [if_neg (fun hf => h ((find_eq_zero_iff s m hs hmem).mp hf)), if_neg h]
    rfl

namespace vtkFileSeriesReaderTimeRanges

/-- What `GetTimesForInput` returns for a registered input with a range. -/
theorem GetTimesForInput_eq (dmax : Time) (self : vtkFileSeriesReaderTimeRanges)
    (index : ℤ) (info : StoredInfo) (range : Time × Time) (outInfo : vtkInformation)
    (hwf : self.WF) (hreg : mapLookup index self.InputLookup = some info)
    (hrange : info.TIME_RANGE = some range) :
    self.GetTimesForInput dmax index outInfo
      = some (windowedTimes
          (some ((specLower self.RangeMap range.1).getD (-dmax)))
          (some ((specUpper self.RangeMap range.1).getD dmax))
          range (outInfo.UPDATE_TIME_STEPS.getD [])) := by
  obtain ⟨h1, h2, h3, h4, h5⟩ := hwf
  have hmem : ∃ e ∈ self.RangeMap, e.1 = range.1 :=
    h5 (index, info) ((mapLookup_eq_some index info _ h2).mp hreg) range hrange
  simp only [GetTimesForInput, hreg, hrange, upper_entry_eq_specUpper dmax range.1 _ h1,
    find_lower_eq_specLower dmax range.1 _ h1 hmem, windowedTimes]
  rw [foldl_push_eq_filter_map]
  simp [clampInto]

end vtkFileSeriesReaderTimeRanges

/-! ## Selection -/

theorem foldl_insert_eq (f : Time → ℤ) (l : List Time) (s0 : Finset ℤ) :
    l.foldl (fun indices t => insert (f t) indices) s0 = s0 ∪ (l.map f).toFinset := by
  induction l generalizing s0 with
  | nil => simp
  | cons t rest ih =>
    simp only [List.foldl_cons, List.map_cons, List.toFinset_cons]
    rw [ih]
    ext x
    simp only [Finset.mem_union, Finset.mem_insert]
    tauto

namespace vtkFileSeriesReaderTimeRanges

theorem ChooseInputs_some (self : vtkFileSeriesReaderTimeRanges) (outInfo : vtkInformation)
    (upTimes : List Time) (h : outInfo.UPDATE_TIME_STEPS = some upTimes) :
    self.ChooseInputs outInfo = (upTimes.map self.GetIndexForTime).toFinset := by
  simp only [ChooseInputs, h]
  rw [foldl_insert_eq]
  simp

theorem mem_ChooseInputs (self : vtkFileSeriesReaderTimeRanges) (outInfo : vtkInformation)
    (upTimes : List Time) (h : outInfo.UPDATE_TIME_STEPS = some upTimes) (i : ℤ) :
    i ∈ self.ChooseInputs outInfo ↔ ∃ t ∈ upTimes, self.GetIndexForTime t = i := by
  rw [ChooseInputs_some self outInfo upTimes h]
  simp

end vtkFileSeriesReaderTimeRanges

namespace vtkFileSeriesReader

theorem RequestUpdateExtent_temporal_iff (reader : vtkAlgorithm) (self : vtkFileSeriesReader)
    (outInfo : vtkInformation) :
    (RequestUpdateExtent reader self outInfo).1 = UpdateExtentResult.temporalNotSupported
      ↔ 1 < (self.TimeRanges.ChooseInputs outInfo).card := by
  unfold RequestUpdateExtent
  simp only [gt_iff_lt]
  split
  · simp_all
  · split <;> simp_all

theorem RequestUpdateExtent_notSet_iff (reader : vtkAlgorithm) (self : vtkFileSeriesReader)
    (outInfo : vtkInformation) :
    (RequestUpdateExtent reader self outInfo).1 = UpdateExtentResult.inputsNotSet
      ↔ (self.TimeRanges.ChooseInputs outInfo).card = 0 := by
  unfold RequestUpdateExtent
  simp only [gt_iff_lt]
  split
  · rename_i h
    simp only [false_iff, reduceCtorEq]
    omega
  · split <;> simp_all

theorem RequestUpdateExtent_selected_iff (reader : vtkAlgorithm) (self : vtkFileSeriesReader)
    (outInfo : vtkInformation) (i : ℤ) :
    (RequestUpdateExtent reader self outInfo).1 = UpdateExtentResult.selected i
      ↔ self.TimeRanges.ChooseInputs outInfo = {i} := by
  unfold RequestUpdateExtent
  simp only [gt_iff_lt]
  split
  · rename_i h
    simp only [false_iff, reduceCtorEq]
    intro hc
    rw [hc] at h
    simp at h
  · rename_i h
    split
    · rename_i h0
      simp only [false_iff, reduceCtorEq]
      intro hc
      rw [hc] at h0
      simp at h0
    · rename_i h0
      have h1 : (self.TimeRanges.ChooseInputs outInfo).card = 1 := by omega
      obtain ⟨a, ha⟩ := Finset.card_eq_one.mp h1
      simp only [UpdateExtentResult.selected.injEq]
      constructor
      · intro hm
        rw [← hm]
        simp only [ha, Finset.min'_singleton]
      · intro hc
        simp only [hc, Finset.min'_singleton]

end vtkFileSeriesReader

namespace vtkFileSeriesReaderTimeRanges

/-- Inside `[-dmax, dmax)` the window of a registered input holds exactly the
times that `GetIndexForTime` resolves to it. -/
theorem window_iff_owner (dmax : Time) (self : vtkFileSeriesReaderTimeRanges)
    (i : ℤ) (info : StoredInfo) (range : Time × Time) (t : Time)
    (hwf : self.WF) (hl : self.Linked)
    (hreg : mapLookup i self.InputLookup = some info)
    (hrange : info.TIME_RANGE = some range) (hlo : -dmax ≤ t) (hhi : t < dmax) :
    ((specLower self.RangeMap range.1).getD (-dmax) ≤ t
        ∧ t < (specUpper self.RangeMap range.1).getD dmax)
      ↔ self.GetIndexForTime t = i := by
  obtain ⟨h1, h2, h3, h4, h5⟩ := hwf
  obtain ⟨la, lb⟩ := hl
  have him : (i, info) ∈ self.InputLookup := (mapLookup_eq_some i info _ h2).mp hreg
  have hsm : (range.1, info) ∈ self.RangeMap := by
    obtain ⟨r, hr, hm⟩ := lb (i, info) him
    simp only [hrange, Option.some.injEq] at hr
    subst hr
    exact hm
  have hne : self.RangeMap ≠ [] := List.ne_nil_of_mem hsm
  obtain ⟨e, hem, hidx, hown⟩ := GetIndexForTime_entry self t h1 hne
  have hK : e.2.INDEX = i ↔ e.1 = range.1 := by
    constructor
    · intro hi
      have hmem := la e hem
      rw [hi] at hmem
      have := sorted_key_unique h2 hmem him rfl
      simp only [Prod.mk.injEq, true_and] at this
      have h3e := h3 e hem
      rw [this, hrange] at h3e
      simp only [Option.map_some', Option.some.injEq] at h3e
      exact h3e.symm
    · intro hk
      have := sorted_key_unique h1 hem hsm hk
      rw [this]
      exact h4 (i, info) him
  rw [hidx, hK]
  -- no key lies in `(range.1, upper)`
  have hgap : ∀ e' ∈ self.RangeMap, range.1 < e'.1 →
      (specUpper self.RangeMap range.1).getD dmax ≤ e'.1 := by
    intro e' he' hlt
    cases hU : specUpper self.RangeMap range.1 with
    | none => exact absurd ((specUpper_eq_none_iff _ _).mp hU e' he') (not_le.mpr hlt)
    | some k => exact ((specUpper_eq_some_iff _ _ _).mp hU).2.2 e' he' hlt
  have hupper : ∀ u, (∀ e' ∈ self.RangeMap, e'.1 ≤ u → e'.1 ≤ range.1) → u < dmax →
      u < (specUpper self.RangeMap range.1).getD dmax := by
    intro u hu hud
    cases hU : specUpper self.RangeMap range.1 with
    | none => exact hud
    | some k =>
      obtain ⟨⟨e', he', hk⟩, hlt, _⟩ := (specUpper_eq_some_iff _ _ _).mp hU
      simp only [Option.getD_some]
      by_contra hcon
      have := hu e' he' (by rw [hk]; exact not_lt.mp hcon)
      rw [hk] at this
      exact absurd hlt (not_lt.mpr this)
  have hlower_none : (∀ e' ∈ self.RangeMap, range.1 ≤ e'.1) →
      (specLower self.RangeMap range.1).getD (-dmax) = -dmax := by
    intro h
    unfold specLower
    rw [if_pos h]
    rfl
  have hlower_lt : (specLower self.RangeMap range.1).getD (-dmax) < range.1 →
      ∀ e' ∈ self.RangeMap, range.1 ≤ e'.1 := by
    intro h
    by_contra hcon
    simp only [specLower, if_neg hcon, Option.getD_some, lt_self_iff_false] at h
  have hlower_le : ∀ u, range.1 ≤ u → -dmax ≤ u →
      (specLower self.RangeMap range.1).getD (-dmax) ≤ u := by
    intro u h1' h2'
    unfold specLower
    split
    · exact h2'
    · exact h1'
  constructor
  · rintro ⟨hL, hU⟩
    rcases hown with ⟨hle, hgreat⟩ | ⟨hall, hleast⟩
    · rcases le_or_lt range.1 t with hst | hst
      · have h' : range.1 ≤ e.1 := hgreat _ hsm hst
        rcases eq_or_lt_of_le h' with heq | hlt
        · exact heq.symm
        · exact absurd (lt_of_lt_of_le hU (hgap e hem hlt)) (not_lt.mpr hle)
      · have := hlower_lt (lt_of_le_of_lt hL hst) e hem
        exact absurd (lt_of_le_of_lt (le_trans this hle) hst) (lt_irrefl _)
    · have hts : t < range.1 := hall _ hsm
      exact le_antisymm (hleast _ hsm) (hlower_lt (lt_of_le_of_lt hL hts) e hem)
  · intro hes
    rcases hown with ⟨hle, hgreat⟩ | ⟨hall, hleast⟩
    · rw [hes] at hle hgreat
      exact ⟨hlower_le t hle hlo, hupper t hgreat hhi⟩
    · rw [hes] at hleast
      refine ⟨by rw [hlower_none hleast]; exact hlo, ?_⟩
      cases hU : specUpper self.RangeMap range.1 with
      | none => exact hhi
      | some k =>
        obtain ⟨⟨e', he', hk⟩, _, _⟩ := (specUpper_eq_some_iff _ _ _).mp hU
        simp only [Option.getD_some]
        rw [← hk]
        exact hall e' he'

end vtkFileSeriesReaderTimeRanges
namespace vtkFileSeriesReaderTimeRanges

/-! ## Registries built from distinct inputs -/

/-- What `AddTimeRange` files for a source that has time information. -/
theorem AddTimeRange_of_time (self self' : vtkFileSeriesReaderTimeRanges) (index : ℤ)
    (srcInfo : vtkInformation)
    (ht : srcInfo.TIME_STEPS ≠ none ∨ srcInfo.TIME_RANGE ≠ none)
    (h : self.AddTimeRange index srcInfo = some self') :
    ∃ range steps, reportedStart srcInfo = some range.1 ∧
      self' = { RangeMap := mapAssign range.1
                  { INDEX := index, TIME_RANGE := some range, TIME_STEPS := steps } self.RangeMap,
                InputLookup := mapAssign index
                  { INDEX := index, TIME_RANGE := some range, TIME_STEPS := steps }
                  self.InputLookup } := by
  unfold AddTimeRange at h
  cases hs : srcInfo.TIME_STEPS with
  | some timeSteps =>
    cases hr : srcInfo.TIME_RANGE with
    | some timeRange =>
      simp only [hs, hr, Option.some.injEq] at h
      exact ⟨timeRange, CopyEntry (some timeSteps), by simp [reportedStart, hr], h.symm⟩
    | none =>
      simp only [hs, hr] at h
      cases hh : timeSteps.head? with
      | none => simp [hh] at h
      | some first =>
        cases hl : timeSteps.getLast? with
        | none => simp [hh, hl] at h
        | some last =>
          simp only [hh, hl, Option.some.injEq] at h
          exact ⟨(first, last), some timeSteps, by simp [reportedStart, hr, hs, hh], h.symm⟩
  | none =>
    cases hr : srcInfo.TIME_RANGE with
    | some timeRange =>
      simp only [hs, hr, Option.some.injEq] at h
      exact ⟨timeRange, none, by simp [reportedStart, hr], h.symm⟩
    | none =>
      rcases ht with ht | ht
      · exact absurd hs ht
      · exact absurd hr ht

/-- Filing a new index under a new start keeps the two maps linked. -/
theorem Linked_assign_both (self : vtkFileSeriesReaderTimeRanges) (hwf : self.WF)
    (hl : self.Linked) (index : ℤ) (range : Time × Time) (steps : Option (List Time))
    (hidx : ∀ e ∈ self.InputLookup, e.1 ≠ index)
    (hstart : ∀ e ∈ self.RangeMap, e.1 ≠ range.1) :
    Linked { RangeMap := mapAssign range.1
               { INDEX := index, TIME_RANGE := some range, TIME_STEPS := steps } self.RangeMap,
             InputLookup := mapAssign index
               { INDEX := index, TIME_RANGE := some range, TIME_STEPS := steps }
               self.InputLookup } := by
  obtain ⟨h1, h2, h3, h4, h5⟩ := hwf
  obtain ⟨la, lb⟩ := hl
  constructor
  · intro e he
    rcases mem_of_mem_mapAssign _ _ _ h1 e he with h | h
    · subst h
      exact mem_mapAssign_self _ _ _
    · exact mem_mapAssign_of_mem _ _ _ _ (la e h.1) (hidx _ (la e h.1))
  · intro e he
    rcases mem_of_mem_mapAssign _ _ _ h2 e he with h | h
    · subst h
      exact ⟨range, rfl, mem_mapAssign_self _ _ _⟩
    · obtain ⟨r, hr, hm⟩ := lb e h.1
      exact ⟨r, hr, mem_mapAssign_of_mem _ _ _ _ hm (hstart _ hm)⟩

/-- Registration of inputs with distinct new indices and distinct new starts,
each with time information, keeps the invariant and the link of the two maps,
and registers every input. -/
theorem register_distinct (inputs : List (ℤ × vtkInformation)) :
    ∀ (reg0 reg : vtkFileSeriesReaderTimeRanges), reg0.WF → reg0.Linked →
      (∀ p ∈ inputs, ∀ e ∈ reg0.InputLookup, e.1 ≠ p.1) →
      (inputs.map Prod.fst).Nodup →
      (∀ p ∈ inputs, ∀ e ∈ reg0.RangeMap, reportedStart p.2 ≠ some e.1) →
      (inputs.map (fun p => reportedStart p.2)).Nodup →
      (∀ p ∈ inputs, p.2.TIME_STEPS ≠ none ∨ p.2.TIME_RANGE ≠ none) →
      inputs.foldl (fun reg input => reg.bind (fun r => r.AddTimeRange input.1 input.2))
        (some reg0) = some reg →
      reg.WF ∧ reg.Linked ∧ (∀ p ∈ inputs, ∃ e ∈ reg.InputLookup, e.1 = p.1)
        ∧ (∀ e ∈ reg0.InputLookup, ∃ e' ∈ reg.InputLookup, e'.1 = e.1) := by
  induction inputs with
  | nil =>
    intro reg0 reg hwf hl _ _ _ _ _ h
    simp only [List.foldl_nil, Option.some.injEq] at h
    subst h
    exact ⟨hwf, hl, by simp, fun e he => ⟨e, he, rfl⟩⟩
  | cons p rest ih =>
    intro reg0 reg hwf hl hidx hnd hstart hsnd htime h
    simp only [List.foldl_cons, Option.some_bind] at h
    cases h1 : reg0.AddTimeRange p.1 p.2 with
    | none =>
      rw [h1] at h
      have : ∀ l : List (ℤ × vtkInformation),
          l.foldl (fun reg input => reg.bind (fun r => r.AddTimeRange input.1 input.2))
            (none : Option vtkFileSeriesReaderTimeRanges) = none := by
        intro l
        induction l with
        | nil => rfl
        | cons _ _ ihl => simpa using ihl
      rw [this] at h
      cases h
    | some reg1 =>
      rw [h1] at h
      obtain ⟨range, steps, hrs, hreg1⟩ :=
        AddTimeRange_of_time reg0 reg1 p.1 p.2 (htime p (List.mem_cons_self _ _)) h1
      have hwf1 : reg1.WF := WF_AddTimeRange reg0 reg1 p.1 p.2 hwf h1
      have hfresh : ∀ e ∈ reg0.RangeMap, e.1 ≠ range.1 := by
        intro e he hk
        exact hstart p (List.mem_cons_self _ _) e he (by rw [hrs, hk])
      have hl1 : reg1.Linked := by
        rw [hreg1]
        exact Linked_assign_both reg0 hwf hl p.1 range steps
          (hidx p (List.mem_cons_self _ _)) hfresh
      simp only [List.map_cons, List.nodup_cons] at hnd hsnd
      have hidx1 : ∀ q ∈ rest, ∀ e ∈ reg1.InputLookup, e.1 ≠ q.1 := by
        intro q hq e he
        rw [hreg1] at he
        rcases mem_of_mem_mapAssign _ _ _ hwf.2.1 e he with h' | h'
        · subst h'
          intro hk
          exact hnd.1 (List.mem_map.mpr ⟨q, hq, hk.symm⟩)
        · exact hidx q (List.mem_cons_of_mem _ hq) e h'.1
      have hstart1 : ∀ q ∈ rest, ∀ e ∈ reg1.RangeMap, reportedStart q.2 ≠ some e.1 := by
        intro q hq e he
        rw [hreg1] at he
        rcases mem_of_mem_mapAssign _ _ _ hwf.1 e he with h' | h'
        · subst h'
          intro hk
          exact hsnd.1 (List.mem_map.mpr ⟨q, hq, by rw [hk, hrs]⟩)
        · exact hstart q (List.mem_cons_of_mem _ hq) e h'.1
      obtain ⟨r1, r2, r3, r4⟩ := ih reg1 reg hwf1 hl1 hidx1 hnd.2 hstart1 hsnd.2
        (fun q hq => htime q (List.mem_cons_of_mem _ hq)) h
      have hp1 : ∃ e ∈ reg1.InputLookup, e.1 = p.1 := by
        rw [hreg1]
        exact ⟨_, mem_mapAssign_self _ _ _, rfl⟩
      refine ⟨r1, r2, ?_, ?_⟩
      · intro q hq
        rcases List.mem_cons.mp hq with h' | h'
        · subst h'
          obtain ⟨e, he, hk⟩ := hp1
          obtain ⟨e', he', hk'⟩ := r4 e he
          exact ⟨e', he', by rw [hk', hk]⟩
        · exact r3 q h'
      · intro e he
        have : ∃ e1 ∈ reg1.InputLookup, e1.1 = e.1 := by
          rw [hreg1]
          exact ⟨e, mem_mapAssign_of_mem _ _ _ e he
            (hidx p (List.mem_cons_self _ _) e he), rfl⟩
        obtain ⟨e1, he1, hk1⟩ := this
        obtain ⟨e', he', hk'⟩ := r4 e1 he1
        exact ⟨e', he', by rw [hk', hk1]⟩

/-- A registry built from distinct indices and distinct starts. -/
theorem registerAll_distinct (inputs : List (ℤ × vtkInformation))
    (reg : vtkFileSeriesReaderTimeRanges)
    (hidx : (inputs.map Prod.fst).Nodup)
    (hstart : (inputs.map (fun p => reportedStart p.2)).Nodup)
    (htime : ∀ p ∈ inputs, p.2.TIME_STEPS ≠ none ∨ p.2.TIME_RANGE ≠ none)
    (h : registerAll inputs = some reg) :
    reg.WF ∧ reg.Linked ∧ ∀ p ∈ inputs, ∃ e ∈ reg.InputLookup, e.1 = p.1 := by
  have := register_distinct inputs (Reset { RangeMap := [], InputLookup := [] }) reg
    (WF_Reset _) (by simp [Linked, Reset]) (by simp [Reset]) hidx (by simp [Reset]) hstart
    htime h
  exact ⟨this.1, this.2.1, this.2.2.1⟩

end vtkFileSeriesReaderTimeRanges

/-! ## Facts about the example registries -/

theorem twoInputs_WF : twoInputs.WF := by
  norm_num [vtkFileSeriesReaderTimeRanges.WF, twoInputs]

theorem singlePoint_WF : singlePoint.WF := by
  norm_num [vtkFileSeriesReaderTimeRanges.WF, singlePoint]

theorem touchingInputs_WF : touchingInputs.WF := by
  norm_num [vtkFileSeriesReaderTimeRanges.WF, touchingInputs]

theorem unorderedSteps_WF : unorderedSteps.WF := by
  norm_num [vtkFileSeriesReaderTimeRanges.WF, unorderedSteps]

theorem nestedInputs_WF : nestedInputs.WF := by
  norm_num [vtkFileSeriesReaderTimeRanges.WF, nestedInputs]

theorem takeWhile_eq_filter_of_ascending (b : Time) (l : List Time)
    (h : l.Pairwise (fun x y => x ≤ y)) :
    l.takeWhile (fun s => s < b) = l.filter (fun s => s < b) := by
  induction l with
  | nil => rfl
  | cons a rest ih =>
    have h' := List.pairwise_cons.mp h
    by_cases hab : a < b
    · simp only [List.takeWhile_cons, List.filter_cons, hab, decide_True, if_true]
      rw [ih h'.2]
    · simp only [List.takeWhile_cons, List.filter_cons, hab, decide_False]
      symm
      simp only [Bool.false_eq_true, if_false]
      rw [List.filter_eq_nil_iff]
      intro x hx
      simp only [decide_eq_true_eq, not_lt]
      exact le_trans (not_lt.mp hab) (h'.1 x hx)

/-- With every entry's steps in ascending order and below `dmax`, the leading
runs are the steps below the next start. -/
theorem leadingAggregateSteps_eq_spec (dmax : Time) (m : List (Time × StoredInfo))
    (h : ∀ e ∈ m, ∀ steps, e.2.TIME_STEPS = some steps →
      steps.Pairwise (fun x y => x ≤ y) ∧ ∀ s ∈ steps, s < dmax) :
    leadingAggregateSteps dmax m = specAggregateSteps m := by
  have hentry : ∀ e ∈ m, (e.2.TIME_STEPS.getD []).Pairwise (fun x y => x ≤ y)
      ∧ ∀ s ∈ e.2.TIME_STEPS.getD [], s < dmax := by
    intro e he
    cases hs : e.2.TIME_STEPS with
    | none => simp
    | some steps => simpa using h e he steps hs
  induction m with
  | nil => simp [leadingAggregateSteps, specAggregateSteps]
  | cons e rest ih =>
    have he := hentry e (List.mem_cons_self _ _)
    cases rest with
    | nil =>
      rw [leadingAggregateSteps_single]
      simp only [specAggregateSteps, nextStarts, List.tail_cons, List.map_nil, List.nil_append,
        List.zip_cons_cons, List.zip_nil_right, List.flatMap_cons, List.flatMap_nil,
        List.append_nil]
      rw [List.takeWhile_eq_self_iff]
      intro s hs
      simpa using he.2 s hs
    | cons e' rest' =>
      have ih' := ih (fun x hx => h x (List.mem_cons_of_mem _ hx))
        (fun x hx => hentry x (List.mem_cons_of_mem _ hx))
      rw [leadingAggregateSteps_cons, ih', takeWhile_eq_filter_of_ascending _ _ he.1]
      simp [specAggregateSteps, nextStarts]

/-- With the steps of the last entry below `dmax`, the loops copy the leading
run below the next start of every entry but the last, and all steps of the
last. -/
theorem leadingAggregateSteps_eq_leading (dmax : Time) (m : List (Time × StoredInfo))
    (hlast : ∀ e, m.getLast? = some e → ∀ s ∈ e.2.TIME_STEPS.getD [], s < dmax) :
    leadingAggregateSteps dmax m = specLeadingSteps m := by
  induction m with
  | nil => simp [leadingAggregateSteps, specLeadingSteps]
  | cons e rest ih =>
    cases rest with
    | nil =>
      rw [leadingAggregateSteps_single]
      simp only [specLeadingSteps, nextStarts, List.tail_cons, List.map_nil, List.nil_append,
        List.zip_cons_cons, List.zip_nil_right, List.flatMap_cons, List.flatMap_nil,
        List.append_nil]
      rw [List.takeWhile_eq_self_iff]
      intro s hs
      simpa using hlast e (by simp) s hs
    | cons e' rest' =>
      have ih' := ih (fun x hx => hlast x (by simpa [List.getLast?_cons_cons] using hx))
      rw [leadingAggregateSteps_cons, ih']
      simp [specLeadingSteps, nextStarts]

/-- With every entry's steps in ascending order, the leading runs below the
next start are the steps below the next start. -/
theorem specLeadingSteps_eq_spec (m : List (Time × StoredInfo))
    (h : ∀ e ∈ m, ∀ steps, e.2.TIME_STEPS = some steps → steps.Pairwise (fun x y => x ≤ y)) :
    specLeadingSteps m = specAggregateSteps m := by
  have hentry : ∀ e ∈ m, (e.2.TIME_STEPS.getD []).Pairwise (fun x y => x ≤ y) := by
    intro e he
    cases hs : e.2.TIME_STEPS with
    | none => simp
    | some steps => simpa using h e he steps hs
  induction m with
  | nil => simp [specLeadingSteps, specAggregateSteps]
  | cons e rest ih =>
    have he := hentry e (List.mem_cons_self _ _)
    cases rest with
    | nil => simp [specLeadingSteps, specAggregateSteps, nextStarts]
    | cons e' rest' =>
      have ih' := ih (fun x hx => h x (List.mem_cons_of_mem _ hx))
        (fun x hx => hentry x (List.mem_cons_of_mem _ hx))
      have hl : specLeadingSteps (e :: e' :: rest')
          = (e.2.TIME_STEPS.getD []).takeWhile (fun s => s < e'.1)
            ++ specLeadingSteps (e' :: rest') := by
        simp [specLeadingSteps, nextStarts]
      have hr : specAggregateSteps (e :: e' :: rest')
          = (e.2.TIME_STEPS.getD []).filter (fun s => s < e'.1)
            ++ specAggregateSteps (e' :: rest') := by
        simp [specAggregateSteps, nextStarts]
      rw [hl, hr, ih', takeWhile_eq_filter_of_ascending _ _ he]

/-- On an input that reports a range and no steps no step is copied: the
output gets the range and is left without steps, whatever steps it held. -/
theorem GetAggregateTimeInfo_range_only :
    rangeOnlyInput.GetAggregateTimeInfo sampleDoubleMax staleInfo
      = some (1, { TIME_RANGE := some (0, 1), TIME_STEPS := none, UPDATE_TIME_STEPS := none }) := by
  norm_num [rangeOnlyInput, vtkFileSeriesReaderTimeRanges.GetAggregateTimeInfo,
    vtkFileSeriesReaderTimeRanges.aggregateLoop, vtkFileSeriesReaderTimeRanges.copyTimeSteps,
    staleInfo]

open vtkFileSeriesReaderTimeRanges vtkFileSeriesReader

/-! ## The claims -/

/-- C1. Ownership rule of `GetIndexForTime`: on a registry with at least one
entry in the by-start-time view, the answer for a time `t` is the index of an
entry of that view, filed under its own start, which has the greatest start
not above `t` or, when every start is above `t`, the smallest start. -/
theorem C1_GetIndexForTime_owner (self : vtkFileSeriesReaderTimeRanges) (t : Time)
    (hwf : self.WF) (hne : self.RangeMap ≠ []) :
    ∃ e ∈ self.RangeMap,
      e.2.TIME_RANGE.map Prod.fst = some e.1 ∧ self.GetIndexForTime t = e.2.INDEX ∧
      ((e.1 ≤ t ∧ ∀ e' ∈ self.RangeMap, e'.1 ≤ t → e'.1 ≤ e.1) ∨
       ((∀ e' ∈ self.RangeMap, t < e'.1) ∧ ∀ e' ∈ self.RangeMap, e.1 ≤ e'.1)) := by
  obtain ⟨e, he, hidx, hown⟩ := GetIndexForTime_entry self t hwf.1 hne
  exact ⟨e, he, hwf.2.2.1 e he, hidx, hown⟩

/-- C1 on the two inputs that start at 0 and 2: the rule applies at `t = 1.5`,
and the times 1.5, 2 and -5 resolve to the inputs 0, 1 and 0. -/
theorem C1_GetIndexForTime_owner_witness :
    (twoInputs.WF ∧ twoInputs.RangeMap ≠ []) ∧
    (∃ e ∈ twoInputs.RangeMap,
      e.2.TIME_RANGE.map Prod.fst = some e.1 ∧ twoInputs.GetIndexForTime (3 / 2) = e.2.INDEX ∧
      ((e.1 ≤ 3 / 2 ∧ ∀ e' ∈ twoInputs.RangeMap, e'.1 ≤ 3 / 2 → e'.1 ≤ e.1) ∨
       ((∀ e' ∈ twoInputs.RangeMap, 3 / 2 < e'.1) ∧ ∀ e' ∈ twoInputs.RangeMap, e.1 ≤ e'.1))) ∧
    twoInputs.GetIndexForTime (3 / 2) = 0 ∧ twoInputs.GetIndexForTime 2 = 1 ∧
    twoInputs.GetIndexForTime (-5) = 0 :=
  ⟨⟨twoInputs_WF, by simp [twoInputs]⟩,
   C1_GetIndexForTime_owner twoInputs (3 / 2) twoInputs_WF (by simp [twoInputs]),
   by norm_num [twoInputs, GetIndexForTime, upper_bound],
   by norm_num [twoInputs, GetIndexForTime, upper_bound],
   by norm_num [twoInputs, GetIndexForTime, upper_bound]⟩

/-- C2, as stated, fails: input 0 lists its steps as `0, 3, 1` and input 1
starts at 2.  The code stops copying at the step 3 and emits `0, 2, 4`; the
steps of input 0 below 2 are `0, 1`, so the claim asks for `0, 1, 2, 4`. -/
theorem C2_aggregate_steps_counterexample :
    registerAll unorderedStepsSources = some unorderedSteps ∧
    HasGlobalRange unorderedSteps.RangeMap 0 4 ∧
    unorderedSteps.GetAggregateTimeInfo sampleDoubleMax emptyInfo
      = some (1, { TIME_RANGE := some (0, 4), TIME_STEPS := some [0, 2, 4],
                   UPDATE_TIME_STEPS := none }) ∧
    specAggregateSteps unorderedSteps.RangeMap = [0, 1, 2, 4] ∧
    (unorderedSteps.GetAggregateTimeInfo sampleDoubleMax emptyInfo).map
        (fun r => r.2.TIME_STEPS)
      ≠ some (some (specAggregateSteps unorderedSteps.RangeMap)) := by
  refine ⟨?_, ?_, ?_, ?_, ?_⟩
  · norm_num [registerAll, unorderedStepsSources, unorderedSteps, Reset, AddTimeRange, mapAssign]
  · norm_num [HasGlobalRange, unorderedSteps]
  · norm_num [unorderedSteps, GetAggregateTimeInfo, aggregateLoop, copyTimeSteps, emptyInfo,
      sampleDoubleMax]
  · norm_num [specAggregateSteps, nextStarts, unorderedSteps]
  · norm_num [unorderedSteps, GetAggregateTimeInfo, aggregateLoop, copyTimeSteps, emptyInfo,
      sampleDoubleMax, specAggregateSteps, nextStarts]

/-- C2, amended.  On a registry with a non-degenerate global range, no step of
whose last entry is at or above `dmax`, the call succeeds and emits as the
step sequence the concatenation, over the entries in ascending start order, of
the longest leading run of the entry's steps that are strictly below the next
entry's start, all of the entry's steps for the last entry; it leaves the
output without steps when this concatenation is empty.  When every entry lists
its steps in ascending order, the concatenation is the one the claim words:
the steps strictly below the next entry's start, all steps for the last
entry. -/
theorem C2_aggregate_steps_leading (dmax : Time) (self : vtkFileSeriesReaderTimeRanges)
    (outInfo : vtkInformation) (lo hi : Time) (hwf : self.WF)
    (hr : HasGlobalRange self.RangeMap lo hi) (hnd : lo < hi)
    (hlast : ∀ e, self.RangeMap.getLast? = some e → ∀ s ∈ e.2.TIME_STEPS.getD [], s < dmax) :
    self.GetAggregateTimeInfo dmax outInfo
      = some (1, { outInfo with
          TIME_RANGE := some (lo, hi),
          TIME_STEPS := SetVector (specLeadingSteps self.RangeMap) }) ∧
    ((∀ e ∈ self.RangeMap, ∀ steps, e.2.TIME_STEPS = some steps →
        steps.Pairwise (fun x y => x ≤ y)) →
      specLeadingSteps self.RangeMap = specAggregateSteps self.RangeMap) := by
  refine ⟨?_, specLeadingSteps_eq_spec self.RangeMap⟩
  rw [GetAggregateTimeInfo_of_range dmax self outInfo lo hi hwf hr, if_neg (not_le.mpr hnd),
    leadingAggregateSteps_eq_leading dmax self.RangeMap hlast]

/-- C2 (amended) on the inputs with steps `0, 3, 1` and `2, 4`: the emitted
steps are `0, 2, 4`. -/
theorem C2_aggregate_steps_leading_witness :
    (unorderedSteps.WF ∧ HasGlobalRange unorderedSteps.RangeMap 0 4 ∧ (0 : Time) < 4 ∧
      ∀ e, unorderedSteps.RangeMap.getLast? = some e →
        ∀ s ∈ e.2.TIME_STEPS.getD [], s < sampleDoubleMax) ∧
    (unorderedSteps.GetAggregateTimeInfo sampleDoubleMax emptyInfo
      = some (1, { emptyInfo with
          TIME_RANGE := some (0, 4),
          TIME_STEPS := SetVector (specLeadingSteps unorderedSteps.RangeMap) }) ∧
    ((∀ e ∈ unorderedSteps.RangeMap, ∀ steps, e.2.TIME_STEPS = some steps →
        steps.Pairwise (fun x y => x ≤ y)) →
      specLeadingSteps unorderedSteps.RangeMap
        = specAggregateSteps unorderedSteps.RangeMap)) ∧
    SetVector (specLeadingSteps unorderedSteps.RangeMap) = some [0, 2, 4] :=
  ⟨⟨unorderedSteps_WF, by norm_num [HasGlobalRange, unorderedSteps], by norm_num,
      by norm_num [unorderedSteps, sampleDoubleMax]⟩,
   C2_aggregate_steps_leading sampleDoubleMax unorderedSteps emptyInfo 0 4 unorderedSteps_WF
     (by norm_num [HasGlobalRange, unorderedSteps]) (by norm_num)
     (by norm_num [unorderedSteps, sampleDoubleMax]),
   by norm_num [specLeadingSteps, nextStarts, unorderedSteps]⟩

/-- C3. Aggregate steps are ordered and free of duplicates: on a registry with
a non-degenerate global range in which every entry lists its steps in strictly
ascending order and no step of an entry is below the entry's start, the call
succeeds and the step sequence `timeSteps` it hands to the output (which holds
it as its steps, and holds no steps when the sequence is empty) is strictly
ascending, so no value occurs twice; nothing is asked of the ends of the
ranges, which may touch or overlap. -/
theorem C3_aggregate_steps_strictly_ascending (dmax : Time)
    (self : vtkFileSeriesReaderTimeRanges) (outInfo : vtkInformation) (lo hi : Time)
    (hwf : self.WF) (hr : HasGlobalRange self.RangeMap lo hi) (hnd : lo < hi)
    (hsteps : ∀ e ∈ self.RangeMap, StepsAscendFromStart e) :
    ∃ timeSteps,
      self.GetAggregateTimeInfo dmax outInfo
        = some (1, { outInfo with TIME_RANGE := some (lo, hi),
                                  TIME_STEPS := SetVector timeSteps }) ∧
      timeSteps.Pairwise (fun a b => a < b) ∧ timeSteps.Nodup := by
  refine ⟨leadingAggregateSteps dmax self.RangeMap, ?_, ?_, ?_⟩
  · rw [GetAggregateTimeInfo_of_range dmax self outInfo lo hi hwf hr, if_neg (not_le.mpr hnd)]
  · exact (leadingAggregateSteps_sorted dmax self.RangeMap hwf.1 hsteps).1
  · exact ((leadingAggregateSteps_sorted dmax self.RangeMap hwf.1 hsteps).1).imp
      (fun h => ne_of_lt h)

/-- C3 on two inputs whose ranges `[0, 2]` and `[2, 3]` touch at 2, a step of
both: the emitted steps are `0, 1, 2, 3`. -/
theorem C3_aggregate_steps_strictly_ascending_witness :
    (touchingInputs.WF ∧ HasGlobalRange touchingInputs.RangeMap 0 3 ∧ (0 : Time) < 3 ∧
      ∀ e ∈ touchingInputs.RangeMap, StepsAscendFromStart e) ∧
    (∃ timeSteps,
      touchingInputs.GetAggregateTimeInfo sampleDoubleMax emptyInfo
        = some (1, { emptyInfo with TIME_RANGE := some (0, 3),
                                    TIME_STEPS := SetVector timeSteps }) ∧
      timeSteps.Pairwise (fun a b => a < b) ∧ timeSteps.Nodup) ∧
    touchingInputs.GetAggregateTimeInfo sampleDoubleMax emptyInfo
      = some (1, { TIME_RANGE := some (0, 3), TIME_STEPS := some [0, 1, 2, 3],
                   UPDATE_TIME_STEPS := none }) :=
  ⟨⟨touchingInputs_WF, by norm_num [HasGlobalRange, touchingInputs], by norm_num,
      by norm_num [StepsAscendFromStart, touchingInputs]⟩,
   C3_aggregate_steps_strictly_ascending sampleDoubleMax touchingInputs emptyInfo 0 3
     touchingInputs_WF (by norm_num [HasGlobalRange, touchingInputs]) (by norm_num)
     (by norm_num [StepsAscendFromStart, touchingInputs]),
   by norm_num [touchingInputs, GetAggregateTimeInfo, aggregateLoop, copyTimeSteps, emptyInfo,
      sampleDoubleMax]⟩

/-- C4, as stated, fails: input 0 has range `[0, 10]` and input 1 has range
`[1, 2]`.  The emitted range is `[0, 2]`, its upper bound the end of the input
that starts last, while the largest end among the entries is 10. -/
theorem C4_aggregate_range_counterexample :
    registerAll nestedInputsSources = some nestedInputs ∧
    nestedInputs.GetAggregateTimeInfo sampleDoubleMax emptyInfo
      = some (1, { TIME_RANGE := some (0, 2), TIME_STEPS := some [0, 1, 2],
                   UPDATE_TIME_STEPS := none }) ∧
    ¬ (∀ e ∈ nestedInputs.RangeMap, ∀ r, e.2.TIME_RANGE = some r → r.2 ≤ 2) := by
  refine ⟨?_, ?_, ?_⟩
  · norm_num [registerAll, nestedInputsSources, nestedInputs, Reset, AddTimeRange, mapAssign]
  · norm_num [nestedInputs, GetAggregateTimeInfo, aggregateLoop, copyTimeSteps, emptyInfo,
      sampleDoubleMax]
  · norm_num [nestedInputs]

/-- C4, amended.  On a non-empty registry the call succeeds, and the range it
emits (it emits one exactly when `lo < hi`) is `[lo, hi]` with `lo` the
smallest start among the registered entries and `hi` the end of the entry
with the largest start; with the range the output holds the step sequence
`timeSteps` the call hands to it, no steps when that sequence is empty. -/
theorem C4_aggregate_range (dmax : Time) (self : vtkFileSeriesReaderTimeRanges)
    (outInfo : vtkInformation) (hwf : self.WF) (hne : self.RangeMap ≠ []) :
    ∃ first ∈ self.RangeMap, ∃ last ∈ self.RangeMap, ∃ hi,
      (∀ e ∈ self.RangeMap, first.1 ≤ e.1 ∧ e.1 ≤ last.1) ∧
      last.2.TIME_RANGE = some (last.1, hi) ∧
      (first.1 < hi → ∃ timeSteps,
        self.GetAggregateTimeInfo dmax outInfo
          = some (1, { outInfo with TIME_RANGE := some (first.1, hi),
                                    TIME_STEPS := SetVector timeSteps })) ∧
      (hi ≤ first.1 →
        self.GetAggregateTimeInfo dmax outInfo
          = some (1, { outInfo with TIME_RANGE := none, TIME_STEPS := none })) := by
  obtain ⟨lo, hi, hr⟩ := exists_globalRange self hwf hne
  have hagg := GetAggregateTimeInfo_of_range dmax self outInfo lo hi hwf hr
  obtain ⟨first, hfm, last, hlm, hall, hlo, hhi⟩ := hr
  subst hlo
  refine ⟨first, hfm, last, hlm, hi, hall, hhi, ?_, ?_⟩
  · intro hnd
    exact ⟨_, by rw [hagg, if_neg (not_le.mpr hnd)]⟩
  · intro hdeg
    rw [hagg, if_pos hdeg]

/-- C4 (amended) on the inputs with ranges `[0, 10]` and `[1, 2]`. -/
theorem C4_aggregate_range_witness :
    (nestedInputs.WF ∧ nestedInputs.RangeMap ≠ []) ∧
    ∃ first ∈ nestedInputs.RangeMap, ∃ last ∈ nestedInputs.RangeMap, ∃ hi,
      (∀ e ∈ nestedInputs.RangeMap, first.1 ≤ e.1 ∧ e.1 ≤ last.1) ∧
      last.2.TIME_RANGE = some (last.1, hi) ∧
      (first.1 < hi → ∃ timeSteps,
        nestedInputs.GetAggregateTimeInfo sampleDoubleMax emptyInfo
          = some (1, { emptyInfo with TIME_RANGE := some (first.1, hi),
                                      TIME_STEPS := SetVector timeSteps })) ∧
      (hi ≤ first.1 →
        nestedInputs.GetAggregateTimeInfo sampleDoubleMax emptyInfo
          = some (1, { emptyInfo with TIME_RANGE := none, TIME_STEPS := none })) :=
  ⟨⟨nestedInputs_WF, by simp [nestedInputs]⟩,
   C4_aggregate_range sampleDoubleMax nestedInputs emptyInfo nestedInputs_WF
     (by simp [nestedInputs])⟩

/-- C5. Degenerate collapse: on a registry whose global start `lo` (the
smallest start) is not below its global end `hi` (the end of the entry with
the largest start), and so too when `lo` is not below any entry's end,
`GetAggregateTimeInfo` returns 1 and leaves the output with neither
`TIME_RANGE` nor `TIME_STEPS`, whatever the output held before. -/
theorem C5_degenerate_collapse (dmax : Time) (self : vtkFileSeriesReaderTimeRanges)
    (outInfo : vtkInformation) (lo hi : Time) (hwf : self.WF)
    (hr : HasGlobalRange self.RangeMap lo hi) :
    (hi ≤ lo →
      self.GetAggregateTimeInfo dmax outInfo
        = some (1, { outInfo with TIME_RANGE := none, TIME_STEPS := none })) ∧
    ((∀ e ∈ self.RangeMap, ∀ r, e.2.TIME_RANGE = some r → r.2 ≤ lo) →
      self.GetAggregateTimeInfo dmax outInfo
        = some (1, { outInfo with TIME_RANGE := none, TIME_STEPS := none })) := by
  have hagg := GetAggregateTimeInfo_of_range dmax self outInfo lo hi hwf hr
  constructor
  · intro hdeg
    rw [hagg, if_pos hdeg]
  · intro hall
    obtain ⟨_, _, last, hlm, _, _, hhi⟩ := hr
    have hdeg : hi ≤ lo := hall last hlm _ hhi
    rw [hagg, if_pos hdeg]

/-- C5 on a single input with range `[3, 3]`, for an output that held a range
and steps before the call. -/
theorem C5_degenerate_collapse_witness :
    (singlePoint.WF ∧ HasGlobalRange singlePoint.RangeMap 3 3) ∧
    ((3 : Time) ≤ 3 →
      singlePoint.GetAggregateTimeInfo sampleDoubleMax
          { TIME_RANGE := some (0, 9), TIME_STEPS := some [0, 9], UPDATE_TIME_STEPS := none }
        = some (1, { TIME_RANGE := none, TIME_STEPS := none, UPDATE_TIME_STEPS := none })) ∧
    singlePoint.GetAggregateTimeInfo sampleDoubleMax
        { TIME_RANGE := some (0, 9), TIME_STEPS := some [0, 9], UPDATE_TIME_STEPS := none }
      = some (1, { TIME_RANGE := none, TIME_STEPS := none, UPDATE_TIME_STEPS := none }) :=
  ⟨⟨singlePoint_WF, by norm_num [HasGlobalRange, singlePoint]⟩,
   (C5_degenerate_collapse sampleDoubleMax singlePoint
      { TIME_RANGE := some (0, 9), TIME_STEPS := some [0, 9], UPDATE_TIME_STEPS := none }
      3 3 singlePoint_WF (by norm_num [HasGlobalRange, singlePoint])).1,
   by norm_num [singlePoint, GetAggregateTimeInfo]⟩

/-- For requested times inside `[-dmax, dmax)` the bounds `-dmax` and `dmax`
act as no bound. -/
theorem windowedTimes_getD (dmax : Time) (lower upper : Option Time) (range : Time × Time)
    (requested : List Time) (h : ∀ t ∈ requested, -dmax ≤ t ∧ t < dmax) :
    windowedTimes (some (lower.getD (-dmax))) (some (upper.getD dmax)) range requested
      = windowedTimes lower upper range requested := by
  unfold windowedTimes
  congr 1
  apply List.filter_congr
  intro t ht
  obtain ⟨h1, h2⟩ := h t ht
  cases lower <;> cases upper <;> simp [h1, h2]

/-- C6. The code at the failing input: on the inputs with ranges `[0, 1]` and
`[2, 3]`, input 1 starts last, so its window has no upper bound ("There is no
next time." in the code) and the request `[dmax]` is to be answered with the
clamped value 3, as the claim says; the code compares the time with the
sentinel `dmax` it uses for "no bound" and returns no time. -/
theorem C6_GetTimesForInput_at_sentinel :
    mapLookup 1 twoInputs.InputLookup
      = some { INDEX := 1, TIME_RANGE := some (2, 3), TIME_STEPS := some [2, 5 / 2, 3] } ∧
    twoInputs.GetTimesForInput sampleDoubleMax 1 (requestFor [sampleDoubleMax]) = some [] ∧
    windowedTimes (specLower twoInputs.RangeMap 2) (specUpper twoInputs.RangeMap 2) (2, 3)
      [sampleDoubleMax] = [3] ∧
    twoInputs.GetTimesForInput sampleDoubleMax 1 (requestFor [sampleDoubleMax])
      ≠ some (windowedTimes (specLower twoInputs.RangeMap 2) (specUpper twoInputs.RangeMap 2)
          (2, 3) [sampleDoubleMax]) := by
  have hcode : twoInputs.GetTimesForInput sampleDoubleMax 1 (requestFor [sampleDoubleMax])
      = some [] := by
    norm_num [twoInputs, GetTimesForInput, mapLookup, upper_bound, find, requestFor,
      sampleDoubleMax]
  have hspec : windowedTimes (specLower twoInputs.RangeMap 2) (specUpper twoInputs.RangeMap 2)
      (2, 3) [sampleDoubleMax] = [3] := by
    norm_num [twoInputs, windowedTimes, specLower, specUpper, clampInto, sampleDoubleMax]
  refine ⟨?_, hcode, hspec, ?_⟩
  · norm_num [twoInputs, mapLookup]
  · rw [hcode, hspec]
    simp

/-- The window of `GetTimesForInput` in the words of the specification: for an
input registered with range `[start, end]` the call returns, in request order,
`max(start, min(end, t))` for exactly the requested `t` with
`lower ≤ t < upper`, where `lower` is the sentinel `-dmax` if the input has the
smallest registered start and otherwise its own start, and `upper` is the
smallest registered start greater than its own start, or the sentinel `dmax`
if there is none; for requests that stay inside `[-dmax, dmax)` the sentinels
are no bound at all. -/
theorem GetTimesForInput_window (dmax : Time) (self : vtkFileSeriesReaderTimeRanges)
    (index : ℤ) (info : StoredInfo) (range : Time × Time) (outInfo : vtkInformation)
    (hwf : self.WF) (hreg : mapLookup index self.InputLookup = some info)
    (hrange : info.TIME_RANGE = some range) :
    self.GetTimesForInput dmax index outInfo
      = some (windowedTimes
          (some ((specLower self.RangeMap range.1).getD (-dmax)))
          (some ((specUpper self.RangeMap range.1).getD dmax))
          range (outInfo.UPDATE_TIME_STEPS.getD [])) ∧
    ((∀ t ∈ outInfo.UPDATE_TIME_STEPS.getD [], -dmax ≤ t ∧ t < dmax) →
      self.GetTimesForInput dmax index outInfo
        = some (windowedTimes (specLower self.RangeMap range.1)
            (specUpper self.RangeMap range.1) range (outInfo.UPDATE_TIME_STEPS.getD []))) := by
  have h := GetTimesForInput_eq dmax self index info range outInfo hwf hreg hrange
  refine ⟨h, fun hin => ?_⟩
  rw [h, windowedTimes_getD dmax _ _ range _ hin]

/-- The window on the inputs with ranges `[0, 1]` and `[2, 3]`: input 0
answers the request `[0, 0.9, 1.9]` with `[0, 0.9, 1]`. -/
theorem GetTimesForInput_window_example :
    (twoInputs.WF ∧
      mapLookup 0 twoInputs.InputLookup
        = some { INDEX := 0, TIME_RANGE := some (0, 1), TIME_STEPS := some [0, 1 / 2, 1] }) ∧
    (twoInputs.GetTimesForInput sampleDoubleMax 0 (requestFor [0, 9 / 10, 19 / 10])
      = some (windowedTimes
          (some ((specLower twoInputs.RangeMap 0).getD (-sampleDoubleMax)))
          (some ((specUpper twoInputs.RangeMap 0).getD sampleDoubleMax))
          (0, 1) ((requestFor [0, 9 / 10, 19 / 10]).UPDATE_TIME_STEPS.getD [])) ∧
    ((∀ t ∈ (requestFor [0, 9 / 10, 19 / 10]).UPDATE_TIME_STEPS.getD [],
        -sampleDoubleMax ≤ t ∧ t < sampleDoubleMax) →
      twoInputs.GetTimesForInput sampleDoubleMax 0 (requestFor [0, 9 / 10, 19 / 10])
        = some (windowedTimes (specLower twoInputs.RangeMap 0)
            (specUpper twoInputs.RangeMap 0) (0, 1)
            ((requestFor [0, 9 / 10, 19 / 10]).UPDATE_TIME_STEPS.getD [])))) ∧
    twoInputs.GetTimesForInput sampleDoubleMax 0 (requestFor [0, 9 / 10, 19 / 10])
      = some [0, 9 / 10, 1] :=
  ⟨⟨twoInputs_WF, by norm_num [twoInputs, mapLookup]⟩,
   GetTimesForInput_window sampleDoubleMax twoInputs 0
     { INDEX := 0, TIME_RANGE := some (0, 1), TIME_STEPS := some [0, 1 / 2, 1] } (0, 1)
     (requestFor [0, 9 / 10, 19 / 10]) twoInputs_WF (by norm_num [twoInputs, mapLookup]) rfl,
   by norm_num [twoInputs, GetTimesForInput, mapLookup, upper_bound, find, requestFor,
      sampleDoubleMax]⟩

/-- Whatever value the constant `dmax` has, the input that starts last does
not answer a request for the time `dmax` itself. -/
theorem GetTimesForInput_at_dmax (dmax : Time) :
    twoInputs.GetTimesForInput dmax 1 (requestFor [dmax]) = some [] := by
  norm_num [twoInputs, GetTimesForInput, mapLookup, upper_bound, find, requestFor]

/-- On `twoInputs` every time from 2 on resolves to input 1. -/
theorem GetIndexForTime_from_two (t : Time) (h : 2 ≤ t) : twoInputs.GetIndexForTime t = 1 := by
  have h0 : ¬ t < 0 := by linarith
  have h2 : ¬ t < 2 := by linarith
  simp [twoInputs, GetIndexForTime, upper_bound, h0, h2]

/-- C7. The code at the failing input: on the registry built from the inputs 0
and 1 with starts 0 and 2, `GetIndexForTime` resolves the time `dmax` to
input 1, yet the time contributes no value to `GetTimesForInput` of input 1,
nor of input 0: the two functions disagree at the sentinel, and the requested
time is assigned to no input. -/
theorem C7_window_resolution_at_sentinel :
    registerAll twoInputsSources = some twoInputs ∧
    twoInputs.GetIndexForTime sampleDoubleMax = 1 ∧
    twoInputs.GetTimesForInput sampleDoubleMax 1 (requestFor [sampleDoubleMax]) = some [] ∧
    twoInputs.GetTimesForInput sampleDoubleMax 0 (requestFor [sampleDoubleMax]) = some [] ∧
    ¬ (twoInputs.GetTimesForInput sampleDoubleMax 1 (requestFor [sampleDoubleMax]) ≠ some []
        ↔ twoInputs.GetIndexForTime sampleDoubleMax = 1) := by
  have hidx : twoInputs.GetIndexForTime sampleDoubleMax = 1 :=
    GetIndexForTime_from_two sampleDoubleMax (by norm_num [sampleDoubleMax])
  have hone := GetTimesForInput_at_dmax sampleDoubleMax
  refine ⟨?_, hidx, hone, ?_, ?_⟩
  · norm_num [registerAll, twoInputsSources, twoInputs, Reset, AddTimeRange, mapAssign]
  · norm_num [twoInputs, GetTimesForInput, mapLookup, upper_bound, find, requestFor,
      sampleDoubleMax]
  · intro h
    exact h.mpr hidx hone

/-- Windowing agrees with resolution inside the sentinels.  On a registry built
by registering pairwise distinct indices with pairwise distinct starts, each
with time information, and for requested times inside `[-dmax, dmax)`: a
registered index `i` has a range, and `GetTimesForInput` of `i` returns the
clamped values of exactly the requested times that `GetIndexForTime` resolves
to `i`, in request order; the index a time resolves to is registered, so each
such time is assigned to exactly one registered input. -/
theorem window_agrees_with_resolution (dmax : Time)
    (inputs : List (ℤ × vtkInformation)) (reg : vtkFileSeriesReaderTimeRanges)
    (hidx : (inputs.map Prod.fst).Nodup)
    (hstart : (inputs.map (fun p => reportedStart p.2)).Nodup)
    (htime : ∀ p ∈ inputs, p.2.TIME_STEPS ≠ none ∨ p.2.TIME_RANGE ≠ none)
    (hreg : registerAll inputs = some reg)
    (i : ℤ) (hi : i ∈ inputs.map Prod.fst) (outInfo : vtkInformation)
    (hin : ∀ t ∈ outInfo.UPDATE_TIME_STEPS.getD [], -dmax ≤ t ∧ t < dmax) :
    (∃ info range, mapLookup i reg.InputLookup = some info ∧ info.TIME_RANGE = some range ∧
      reg.GetTimesForInput dmax i outInfo
        = some (((outInfo.UPDATE_TIME_STEPS.getD []).filter
            (fun t => decide (reg.GetIndexForTime t = i))).map (clampInto range))) ∧
    (∀ t, ∃ info, mapLookup (reg.GetIndexForTime t) reg.InputLookup = some info) := by
  obtain ⟨hwf, hl, hall⟩ := registerAll_distinct inputs reg hidx hstart htime hreg
  obtain ⟨p, hp, hpi⟩ := List.mem_map.mp hi
  obtain ⟨e, he, hek⟩ := hall p hp
  obtain ⟨k, info⟩ := e
  simp only at hek
  rw [hpi] at hek
  subst hek
  have hlook : mapLookup k reg.InputLookup = some info :=
    (mapLookup_eq_some k info _ hwf.2.1).mpr he
  obtain ⟨range, hrange, hrm⟩ := hl.2 (k, info) he
  constructor
  · refine ⟨info, range, hlook, hrange, ?_⟩
    rw [GetTimesForInput_eq dmax reg k info range outInfo hwf hlook hrange]
    unfold windowedTimes
    congr 2
    apply List.filter_congr
    intro t ht
    obtain ⟨h1, h2⟩ := hin t ht
    have := window_iff_owner dmax reg k info range t hwf hl hlook hrange h1 h2
    by_cases hg : reg.GetIndexForTime t = k
    · have hw := this.mpr hg
      simp [hg, hw.1, hw.2]
    · have hw : ¬ ((specLower reg.RangeMap range.1).getD (-dmax) ≤ t
          ∧ t < (specUpper reg.RangeMap range.1).getD dmax) := fun h => hg (this.mp h)
      simp only [hg, decide_False, Bool.and_eq_true, decide_eq_true_eq]
      simpa using hw
  · intro t
    have hne : reg.RangeMap ≠ [] := List.ne_nil_of_mem hrm
    obtain ⟨e', he', hidx', _⟩ := GetIndexForTime_entry reg t hwf.1 hne
    rw [hidx']
    exact ⟨e'.2, (mapLookup_eq_some _ _ _ hwf.2.1).mpr (hl.1 e' he')⟩

/-- Windowing and resolution on the registry built from the inputs 0 and 1 with
starts 0 and 2: of the request `[0, 0.9, 1.9, 2, 2.5]` input 0 takes the first
three times and input 1 the last two. -/
theorem window_agrees_with_resolution_example :
    ((twoInputsSources.map Prod.fst).Nodup ∧
      (twoInputsSources.map (fun p => reportedStart p.2)).Nodup ∧
      (∀ p ∈ twoInputsSources, p.2.TIME_STEPS ≠ none ∨ p.2.TIME_RANGE ≠ none) ∧
      registerAll twoInputsSources = some twoInputs ∧
      (0 : ℤ) ∈ twoInputsSources.map Prod.fst ∧
      ∀ t ∈ (requestFor [0, 9 / 10, 19 / 10, 2, 5 / 2]).UPDATE_TIME_STEPS.getD [],
        -sampleDoubleMax ≤ t ∧ t < sampleDoubleMax) ∧
    ((∃ info range, mapLookup 0 twoInputs.InputLookup = some info ∧
        info.TIME_RANGE = some range ∧
        twoInputs.GetTimesForInput sampleDoubleMax 0 (requestFor [0, 9 / 10, 19 / 10, 2, 5 / 2])
          = some ((((requestFor [0, 9 / 10, 19 / 10, 2, 5 / 2]).UPDATE_TIME_STEPS.getD []).filter
              (fun t => decide (twoInputs.GetIndexForTime t = 0))).map (clampInto range))) ∧
      (∀ t, ∃ info,
        mapLookup (twoInputs.GetIndexForTime t) twoInputs.InputLookup = some info)) ∧
    twoInputs.GetTimesForInput sampleDoubleMax 0 (requestFor [0, 9 / 10, 19 / 10, 2, 5 / 2])
      = some [0, 9 / 10, 1] ∧
    twoInputs.GetTimesForInput sampleDoubleMax 1 (requestFor [0, 9 / 10, 19 / 10, 2, 5 / 2])
      = some [2, 5 / 2] :=
  ⟨⟨by norm_num [twoInputsSources], by norm_num [twoInputsSources, reportedStart],
      by simp [twoInputsSources],
      by norm_num [registerAll, twoInputsSources, twoInputs, Reset, AddTimeRange, mapAssign],
      by norm_num [twoInputsSources], by norm_num [requestFor, sampleDoubleMax]⟩,
   window_agrees_with_resolution sampleDoubleMax twoInputsSources twoInputs
     (by norm_num [twoInputsSources]) (by norm_num [twoInputsSources, reportedStart])
     (by simp [twoInputsSources])
     (by norm_num [registerAll, twoInputsSources, twoInputs, Reset, AddTimeRange, mapAssign])
     0 (by norm_num [twoInputsSources]) (requestFor [0, 9 / 10, 19 / 10, 2, 5 / 2])
     (by norm_num [requestFor, sampleDoubleMax]),
   by norm_num [twoInputs, GetTimesForInput, mapLookup, upper_bound, find, requestFor,
      sampleDoubleMax],
   by norm_num [twoInputs, GetTimesForInput, mapLookup, upper_bound, find, requestFor,
      sampleDoubleMax]⟩

/-- C8. `ChooseInputs` is the image of resolution: for a request that carries
requested times (one or more, and also for none at all), the returned set is
exactly `{ GetIndexForTime(t) : t in the requested times }`. -/
theorem C8_ChooseInputs_image (self : vtkFileSeriesReaderTimeRanges)
    (range : Option (Time × Time)) (steps : Option (List Time)) (upTimes : List Time) :
    self.ChooseInputs
        { TIME_RANGE := range, TIME_STEPS := steps, UPDATE_TIME_STEPS := some upTimes }
      = upTimes.toFinset.image self.GetIndexForTime := by
  rw [ChooseInputs_some self _ upTimes rfl]
  ext i
  simp

/-- C8 on the inputs with ranges `[0, 1]` and `[2, 3]`: the request
`[0.5, 2.5]` gives `{0, 1}` and the request `[0.5]` gives `{0}`. -/
theorem C8_ChooseInputs_image_witness :
    twoInputs.ChooseInputs (requestFor [1 / 2, 5 / 2]) = {0, 1} ∧
    twoInputs.ChooseInputs (requestFor [1 / 2]) = {0} := by
  constructor
  · have h := C8_ChooseInputs_image twoInputs none none [1 / 2, 5 / 2]
    rw [requestFor, h]
    norm_num [twoInputs, GetIndexForTime, upper_bound]
  · norm_num [requestFor, twoInputs, ChooseInputs, GetIndexForTime, upper_bound]

/-- C9. Selection outcome: for a non-empty list of requested times,
`RequestUpdateExtent` selects the index `i` (and returns 1) exactly when every
requested time resolves to `i` under `GetIndexForTime`, and it fails with
"vtkTemporalDataSet not fully supported" exactly when two requested times
resolve to different inputs. -/
theorem C9_selection_outcome (reader : vtkAlgorithm) (self : vtkFileSeriesReader)
    (range : Option (Time × Time)) (steps : Option (List Time)) (t : Time)
    (rest : List Time) :
    (∀ i, (RequestUpdateExtent reader self
            { TIME_RANGE := range, TIME_STEPS := steps,
              UPDATE_TIME_STEPS := some (t :: rest) }).1
          = UpdateExtentResult.selected i
        ↔ ∀ t' ∈ t :: rest, self.TimeRanges.GetIndexForTime t' = i) ∧
    ((RequestUpdateExtent reader self
          { TIME_RANGE := range, TIME_STEPS := steps,
            UPDATE_TIME_STEPS := some (t :: rest) }).1
        = UpdateExtentResult.temporalNotSupported
      ↔ ∃ t1 ∈ t :: rest, ∃ t2 ∈ t :: rest,
          self.TimeRanges.GetIndexForTime t1 ≠ self.TimeRanges.GetIndexForTime t2) := by
  constructor
  · intro i
    rw [RequestUpdateExtent_selected_iff]
    constructor
    · intro h t' ht'
      have : self.TimeRanges.GetIndexForTime t' ∈ self.TimeRanges.ChooseInputs
          { TIME_RANGE := range, TIME_STEPS := steps,
            UPDATE_TIME_STEPS := some (t :: rest) } :=
        (mem_ChooseInputs _ _ _ rfl _).mpr ⟨t', ht', rfl⟩
      rw [h] at this
      exact Finset.mem_singleton.mp this
    · intro h
      ext j
      rw [mem_ChooseInputs _ _ _ rfl, Finset.mem_singleton]
      constructor
      · rintro ⟨t', ht', hj⟩
        rw [← hj]
        exact h t' ht'
      · intro hj
        exact ⟨t, List.mem_cons_self _ _, by rw [hj]; exact h t (List.mem_cons_self _ _)⟩
  · rw [RequestUpdateExtent_temporal_iff, Finset.one_lt_card]
    constructor
    · rintro ⟨a, ha, b, hb, hab⟩
      obtain ⟨t1, ht1, h1⟩ := (mem_ChooseInputs _ _ _ rfl a).mp ha
      obtain ⟨t2, ht2, h2⟩ := (mem_ChooseInputs _ _ _ rfl b).mp hb
      exact ⟨t1, ht1, t2, ht2, by rw [h1, h2]; exact hab⟩
    · rintro ⟨t1, ht1, t2, ht2, hne⟩
      exact ⟨_, (mem_ChooseInputs _ _ _ rfl _).mpr ⟨t1, ht1, rfl⟩,
        _, (mem_ChooseInputs _ _ _ rfl _).mpr ⟨t2, ht2, rfl⟩, hne⟩

/-- C9 on the inputs with ranges `[0, 1]` and `[2, 3]`: the request
`[0.5, 2.5]` fails as not supported, the request `[0.5]` selects input 0. -/
theorem C9_selection_outcome_witness :
    (RequestUpdateExtent idleReader twoInputsReader (requestFor [1 / 2, 5 / 2])).1
      = UpdateExtentResult.temporalNotSupported ∧
    (RequestUpdateExtent idleReader twoInputsReader (requestFor [1 / 2])).1
      = UpdateExtentResult.selected 0 := by
  constructor
  · rw [requestFor, (C9_selection_outcome idleReader twoInputsReader none none (1 / 2) [5 / 2]).2]
    refine ⟨1 / 2, by simp, 5 / 2, by simp, ?_⟩
    norm_num [twoInputsReader, twoInputs, GetIndexForTime, upper_bound]
  · rw [requestFor, (C9_selection_outcome idleReader twoInputsReader none none (1 / 2) []).1]
    intro t' ht'
    simp only [List.mem_singleton] at ht'
    subst ht'
    norm_num [twoInputsReader, twoInputs, GetIndexForTime, upper_bound]

/-- C10, as stated, fails: a request whose list of requested times is present
and empty makes `ChooseInputs` return the empty set, not `{0}`. -/
theorem C10_empty_request_counterexample :
    twoInputs.ChooseInputs (requestFor []) = ∅ ∧
    twoInputs.ChooseInputs (requestFor []) ≠ {0} := by
  have h : twoInputs.ChooseInputs (requestFor []) = ∅ := by
    simp [ChooseInputs, requestFor]
  refine ⟨h, ?_⟩
  rw [h]
  decide

/-- C10, amended.  When the request carries no requested-times entry
(`UPDATE_TIME_STEPS` is absent), `ChooseInputs` returns exactly `{0}`; when
the entry is present with an empty list, it returns the empty set. -/
theorem C10_absent_request_defaults (self : vtkFileSeriesReaderTimeRanges)
    (range : Option (Time × Time)) (steps : Option (List Time)) :
    self.ChooseInputs
        { TIME_RANGE := range, TIME_STEPS := steps, UPDATE_TIME_STEPS := none } = {0} ∧
    self.ChooseInputs
        { TIME_RANGE := range, TIME_STEPS := steps, UPDATE_TIME_STEPS := some [] } = ∅ := by
  constructor
  · simp [ChooseInputs]
  · simp [ChooseInputs]

/-! ## Assignment and lookup -/

theorem mapLookup_mapAssign_self {κ α : Type} [LinearOrder κ] (k : κ) (v : α)
    (m : List (κ × α)) : mapLookup k (mapAssign k v m) = some v := by
  induction m with
  | nil => simp [mapAssign, mapLookup]
  | cons x rest ih =>
    obtain ⟨k', v'⟩ := x
    simp only [mapAssign]
    split
    · simp [mapLookup]
    · split
      · simp [mapLookup]
      · rename_i _ hne
        simp only [mapLookup, if_neg hne]
        exact ih

theorem mapLookup_mapAssign_ne {κ α : Type} [LinearOrder κ] (i k : κ) (v : α)
    (m : List (κ × α)) (h : i ≠ k) : mapLookup i (mapAssign k v m) = mapLookup i m := by
  induction m with
  | nil => simp [mapAssign, mapLookup, h]
  | cons x rest ih =>
    obtain ⟨k', v'⟩ := x
    simp only [mapAssign]
    split
    · simp [mapLookup, h]
    · split
      · rename_i _ heq
        subst heq
        simp [mapLookup, h]
      · simp only [mapLookup]
        rw [ih]

theorem mapAssign_mapAssign {κ α : Type} [LinearOrder κ] (k : κ) (u v : α)
    (m : List (κ × α)) : mapAssign k v (mapAssign k u m) = mapAssign k v m := by
  induction m with
  | nil => simp [mapAssign]
  | cons x rest ih =>
    obtain ⟨k', v'⟩ := x
    simp only [mapAssign]
    split
    · rename_i hlt
      simp [mapAssign]
    · split
      · rename_i _ heq
        simp [mapAssign]
      · rename_i hnlt hne
        simp only [mapAssign, if_neg hnlt, if_neg hne]
        rw [ih]

theorem mapAssign_append_last {κ α : Type} [LinearOrder κ] (k : κ) (v : α)
    (m : List (κ × α)) (h : ∀ e ∈ m, e.1 < k) : mapAssign k v m = m ++ [(k, v)] := by
  induction m with
  | nil => simp [mapAssign]
  | cons x rest ih =>
    obtain ⟨k', v'⟩ := x
    have hk : k' < k := h (k', v') (List.mem_cons_self _ _)
    simp only [mapAssign, if_neg (not_lt.mpr (le_of_lt hk)), if_neg (ne_of_gt hk)]
    rw [ih (fun e he => h e (List.mem_cons_of_mem _ he))]
    rfl

/-- An entry of a map after an assignment is the assigned one or was in the
map before. -/
theorem mem_mapAssign_cases {κ α : Type} [LinearOrder κ] (k : κ) (v : α) (m : List (κ × α))
    (e : κ × α) (he : e ∈ mapAssign k v m) : e = (k, v) ∨ e ∈ m := by
  induction m with
  | nil =>
    simp only [mapAssign, List.mem_singleton] at he
    exact Or.inl he
  | cons x rest ih =>
    obtain ⟨k', v'⟩ := x
    simp only [mapAssign] at he
    split at he
    · rcases List.mem_cons.mp he with h | h
      · exact Or.inl h
      · exact Or.inr h
    · split at he
      · rcases List.mem_cons.mp he with h | h
        · exact Or.inl h
        · exact Or.inr (List.mem_cons_of_mem _ h)
      · rcases List.mem_cons.mp he with h | h
        · exact Or.inr (h ▸ List.mem_cons_self _ _)
        · rcases ih h with h' | h'
          · exact Or.inl h'
          · exact Or.inr (List.mem_cons_of_mem _ h')

namespace vtkFileSeriesReaderTimeRanges

/-- What `AddTimeRange` does with a source that has time information, on any
registry: the stored information depends on the source only. -/
theorem AddTimeRange_shape (self self' : vtkFileSeriesReaderTimeRanges) (index : ℤ)
    (srcInfo : vtkInformation)
    (ht : srcInfo.TIME_STEPS ≠ none ∨ srcInfo.TIME_RANGE ≠ none)
    (h : self.AddTimeRange index srcInfo = some self') :
    ∃ range, reportedStart srcInfo = some range.1 ∧
      ∀ other : vtkFileSeriesReaderTimeRanges, other.AddTimeRange index srcInfo
        = some { RangeMap := mapAssign range.1
                   { INDEX := index, TIME_RANGE := some range,
                     TIME_STEPS := CopyEntry srcInfo.TIME_STEPS } other.RangeMap,
                 InputLookup := mapAssign index
                   { INDEX := index, TIME_RANGE := some range,
                     TIME_STEPS := CopyEntry srcInfo.TIME_STEPS } other.InputLookup } := by
  unfold AddTimeRange at h
  cases hs : srcInfo.TIME_STEPS with
  | some timeSteps =>
    cases hr : srcInfo.TIME_RANGE with
    | some timeRange =>
      refine ⟨timeRange, by simp [reportedStart, hr], fun other => ?_⟩
      simp [AddTimeRange, hs, hr]
    | none =>
      simp only [hs, hr] at h
      cases timeSteps with
      | nil => simp at h
      | cons first rest =>
        refine ⟨(first, (first :: rest).getLast (List.cons_ne_nil _ _)),
          by simp [reportedStart, hr, hs], fun other => ?_⟩
        simp [AddTimeRange, hs, hr, List.getLast?_eq_getLast]
  | none =>
    cases hr : srcInfo.TIME_RANGE with
    | some timeRange =>
      refine ⟨timeRange, by simp [reportedStart, hr], fun other => ?_⟩
      simp [AddTimeRange, hs, hr]
    | none =>
      rcases ht with ht | ht
      · exact absurd hs ht
      · exact absurd hr ht

/-- `AddTimeRange` stores no step list of length zero: when no entry of the
registry holds one, no entry of the registry after the call does. -/
theorem AddTimeRange_steps_nonempty (self self' : vtkFileSeriesReaderTimeRanges) (index : ℤ)
    (srcInfo : vtkInformation)
    (hself : (∀ e ∈ self.RangeMap, e.2.TIME_STEPS ≠ some []) ∧
      ∀ e ∈ self.InputLookup, e.2.TIME_STEPS ≠ some [])
    (h : self.AddTimeRange index srcInfo = some self') :
    (∀ e ∈ self'.RangeMap, e.2.TIME_STEPS ≠ some []) ∧
      ∀ e ∈ self'.InputLookup, e.2.TIME_STEPS ≠ some [] := by
  by_cases ht : srcInfo.TIME_STEPS ≠ none ∨ srcInfo.TIME_RANGE ≠ none
  · obtain ⟨range, -, hshape⟩ := AddTimeRange_shape self self' index srcInfo ht h
    have hreg := (hshape self).symm.trans h
    simp only [Option.some.injEq] at hreg
    subst hreg
    constructor
    · intro e he
      rcases mem_mapAssign_cases _ _ _ e he with rfl | he'
      · exact CopyEntry_ne_some_nil srcInfo.TIME_STEPS
      · exact hself.1 e he'
    · intro e he
      rcases mem_mapAssign_cases _ _ _ e he with rfl | he'
      · exact CopyEntry_ne_some_nil srcInfo.TIME_STEPS
      · exact hself.2 e he'
  · simp only [not_or, not_not] at ht
    simp only [AddTimeRange, ht.1, ht.2, Option.some.injEq] at h
    subst h
    refine ⟨hself.1, fun e he => ?_⟩
    rcases mem_mapAssign_cases _ _ _ e he with rfl | he'
    · simp
    · exact hself.2 e he'

/-- `GetAggregateTimeInfo` reads the by-start-time view only. -/
theorem GetAggregateTimeInfo_congr (dmax : Time) (a b : vtkFileSeriesReaderTimeRanges)
    (outInfo : vtkInformation) (h : a.RangeMap = b.RangeMap) :
    a.GetAggregateTimeInfo dmax outInfo = b.GetAggregateTimeInfo dmax outInfo := by
  unfold GetAggregateTimeInfo
  rw [h]

/-- `GetIndexForTime` at a registered start answers with the entry filed there. -/
theorem GetIndexForTime_at_start (self : vtkFileSeriesReaderTimeRanges)
    (hs : self.RangeMap.Pairwise (fun a b => a.1 < b.1)) (s : Time) (info : StoredInfo)
    (hmem : (s, info) ∈ self.RangeMap) : self.GetIndexForTime s = info.INDEX := by
  obtain ⟨e, he, hidx, hown⟩ := GetIndexForTime_entry self s hs (List.ne_nil_of_mem hmem)
  rcases hown with ⟨hle, hgreat⟩ | ⟨hall, _⟩
  · have hk : e.1 = s := le_antisymm hle (hgreat _ hmem (le_refl _))
    have := sorted_key_unique hs he hmem hk
    rw [hidx, this]
  · exact absurd (hall _ hmem) (lt_irrefl _)

end vtkFileSeriesReaderTimeRanges

/-- C11, as stated, fails: on a registry that was reset, input 0 reports the
range `[0, 1]` and a step list that is present with length zero.  The copy of
the empty list leaves the stored entry without steps, so the entry stored for
input 0 does not hold the reported (empty) step list. -/
theorem C11_empty_steps_counterexample :
    resetRegistry.AddTimeRange 0
        { TIME_RANGE := some (0, 1), TIME_STEPS := some [], UPDATE_TIME_STEPS := none }
      = some { RangeMap := [(0, { INDEX := 0, TIME_RANGE := some (0, 1), TIME_STEPS := none })],
               InputLookup :=
                 [(0, { INDEX := 0, TIME_RANGE := some (0, 1), TIME_STEPS := none })] } ∧
    (resetRegistry.AddTimeRange 0
        { TIME_RANGE := some (0, 1), TIME_STEPS := some [], UPDATE_TIME_STEPS := none }).bind
        (fun reg => mapLookup 0 reg.InputLookup)
      ≠ some { INDEX := 0, TIME_RANGE := some (0, 1), TIME_STEPS := some [] } := by
  have h : resetRegistry.AddTimeRange 0
        { TIME_RANGE := some (0, 1), TIME_STEPS := some [], UPDATE_TIME_STEPS := none }
      = some { RangeMap := [(0, { INDEX := 0, TIME_RANGE := some (0, 1), TIME_STEPS := none })],
               InputLookup :=
                 [(0, { INDEX := 0, TIME_RANGE := some (0, 1), TIME_STEPS := none })] } := by
    norm_num [resetRegistry, Reset, AddTimeRange, mapAssign]
  refine ⟨h, ?_⟩
  rw [h]
  simp [mapLookup]

/-- C11, amended.  `AddTimeRange` stores the reported time information: the
entry filed for `index`, in the by-index map and in the by-start-time view,
has (i) the reported steps and range when both are present and the step list
is not empty, and the reported range and no steps when the range is present
with a step list of length zero, (ii) the reported steps and the range from
the first to the last step when only a non-empty step list is present,
(iii) the reported range and no steps when only a range is present. -/
theorem C11_AddTimeRange_stores (self : vtkFileSeriesReaderTimeRanges) (index : ℤ)
    (update : Option (List Time)) :
    (∀ (range : Time × Time) (first : Time) (rest : List Time), ∃ reg,
      self.AddTimeRange index
          { TIME_RANGE := some range, TIME_STEPS := some (first :: rest),
            UPDATE_TIME_STEPS := update }
        = some reg ∧
      mapLookup index reg.InputLookup
        = some { INDEX := index, TIME_RANGE := some range,
                 TIME_STEPS := some (first :: rest) } ∧
      (range.1, { INDEX := index, TIME_RANGE := some range, TIME_STEPS := some (first :: rest) })
        ∈ reg.RangeMap) ∧
    (∀ (range : Time × Time), ∃ reg,
      self.AddTimeRange index
          { TIME_RANGE := some range, TIME_STEPS := some [], UPDATE_TIME_STEPS := update }
        = some reg ∧
      mapLookup index reg.InputLookup
        = some { INDEX := index, TIME_RANGE := some range, TIME_STEPS := none } ∧
      (range.1, { INDEX := index, TIME_RANGE := some range, TIME_STEPS := none })
        ∈ reg.RangeMap) ∧
    (∀ (first : Time) (rest : List Time), ∃ reg,
      self.AddTimeRange index
          { TIME_RANGE := none, TIME_STEPS := some (first :: rest), UPDATE_TIME_STEPS := update }
        = some reg ∧
      mapLookup index reg.InputLookup
        = some { INDEX := index,
                 TIME_RANGE := some (first, (first :: rest).getLast (List.cons_ne_nil _ _)),
                 TIME_STEPS := some (first :: rest) } ∧
      (first, { INDEX := index,
                TIME_RANGE := some (first, (first :: rest).getLast (List.cons_ne_nil _ _)),
                TIME_STEPS := some (first :: rest) })
        ∈ reg.RangeMap) ∧
    (∀ (range : Time × Time), ∃ reg,
      self.AddTimeRange index
          { TIME_RANGE := some range, TIME_STEPS := none, UPDATE_TIME_STEPS := update }
        = some reg ∧
      mapLookup index reg.InputLookup
        = some { INDEX := index, TIME_RANGE := some range, TIME_STEPS := none } ∧
      (range.1, { INDEX := index, TIME_RANGE := some range, TIME_STEPS := none })
        ∈ reg.RangeMap) := by
  refine ⟨fun range first rest => ⟨_, rfl, ?_, ?_⟩, fun range => ⟨_, rfl, ?_, ?_⟩,
    fun first rest => ?_, fun range => ⟨_, rfl, ?_, ?_⟩⟩
  · exact mapLookup_mapAssign_self _ _ _
  · exact mem_mapAssign_self _ _ _
  · exact mapLookup_mapAssign_self _ _ _
  · exact mem_mapAssign_self _ _ _
  · refine ⟨{ RangeMap := mapAssign first
                 { INDEX := index,
                   TIME_RANGE := some (first, (first :: rest).getLast (List.cons_ne_nil _ _)),
                   TIME_STEPS := some (first :: rest) } self.RangeMap,
               InputLookup := mapAssign index
                 { INDEX := index,
                   TIME_RANGE := some (first, (first :: rest).getLast (List.cons_ne_nil _ _)),
                   TIME_STEPS := some (first :: rest) } self.InputLookup },
      ?_, mapLookup_mapAssign_self _ _ _, mem_mapAssign_self _ _ _⟩
    simp [AddTimeRange, List.getLast?_eq_getLast]
  · exact mapLookup_mapAssign_self _ _ _
  · exact mem_mapAssign_self _ _ _

/-- C11 (amended) on a registry that was reset: the steps `2, 2.5, 3` alone are
stored with the range `[2, 3]`. -/
theorem C11_AddTimeRange_stores_witness :
    (∃ reg,
      resetRegistry.AddTimeRange 1
          { TIME_RANGE := none, TIME_STEPS := some [2, 5 / 2, 3], UPDATE_TIME_STEPS := none }
        = some reg ∧
      mapLookup 1 reg.InputLookup
        = some { INDEX := 1,
                 TIME_RANGE := some (2, ([2, 5 / 2, 3] : List Time).getLast (List.cons_ne_nil _ _)),
                 TIME_STEPS := some [2, 5 / 2, 3] } ∧
      (2, { INDEX := 1,
            TIME_RANGE := some (2, ([2, 5 / 2, 3] : List Time).getLast (List.cons_ne_nil _ _)),
            TIME_STEPS := some [2, 5 / 2, 3] })
        ∈ reg.RangeMap) ∧
    resetRegistry.AddTimeRange 1
        { TIME_RANGE := none, TIME_STEPS := some [2, 5 / 2, 3], UPDATE_TIME_STEPS := none }
      = some { RangeMap := [(2, { INDEX := 1, TIME_RANGE := some (2, 3),
                                  TIME_STEPS := some [2, 5 / 2, 3] })],
               InputLookup := [(1, { INDEX := 1, TIME_RANGE := some (2, 3),
                                     TIME_STEPS := some [2, 5 / 2, 3] })] } :=
  ⟨(C11_AddTimeRange_stores resetRegistry 1 none).2.2.1 2 [5 / 2, 3],
   by norm_num [resetRegistry, Reset, AddTimeRange, mapAssign]⟩

/-- C12, as stated, fails: on a registry that was reset, `AddTimeRange` of
input 7 with neither range nor steps leaves the by-start-time view empty but
files an entry for 7 in the by-index map. -/
theorem C12_missing_time_counterexample :
    resetRegistry.AddTimeRange 7 emptyInfo
      = some { RangeMap := [],
               InputLookup := [(7, { INDEX := 7, TIME_RANGE := none, TIME_STEPS := none })] } ∧
    resetRegistry.AddTimeRange 7 emptyInfo ≠ some resetRegistry := by
  have h : resetRegistry.AddTimeRange 7 emptyInfo
      = some { RangeMap := [],
               InputLookup := [(7, { INDEX := 7, TIME_RANGE := none, TIME_STEPS := none })] } := by
    simp [resetRegistry, Reset, AddTimeRange, emptyInfo, mapAssign]
  refine ⟨h, ?_⟩
  rw [h]
  simp [resetRegistry, Reset]

/-- C12, amended.  When the reported information has neither a range nor
steps, `AddTimeRange` leaves the by-start-time view unchanged, so the
aggregate is what it was and the input contributes nothing to it; in the
by-index map it files for `index` an entry that holds the index only, and
leaves the entries of the other indices as they were. -/
theorem C12_missing_time_keeps_range_map (self : vtkFileSeriesReaderTimeRanges) (index : ℤ)
    (update : Option (List Time)) :
    ∃ reg,
      self.AddTimeRange index
          { TIME_RANGE := none, TIME_STEPS := none, UPDATE_TIME_STEPS := update } = some reg ∧
      reg.RangeMap = self.RangeMap ∧
      (∀ dmax outInfo,
        reg.GetAggregateTimeInfo dmax outInfo = self.GetAggregateTimeInfo dmax outInfo) ∧
      mapLookup index reg.InputLookup
        = some { INDEX := index, TIME_RANGE := none, TIME_STEPS := none } ∧
      ∀ i, i ≠ index → mapLookup i reg.InputLookup = mapLookup i self.InputLookup := by
  refine ⟨_, rfl, rfl, fun dmax outInfo => ?_, mapLookup_mapAssign_self _ _ _,
    fun i hi => mapLookup_mapAssign_ne i index _ _ hi⟩
  exact GetAggregateTimeInfo_congr dmax _ _ outInfo rfl

/-- C13. Start-value collision: when distinct indices `i` and `j` report the
same start `s`, after `AddTimeRange(i, a)` and then `AddTimeRange(j, b)` the
by-start-time view holds one entry at `s`, the one of `j` (with the steps
copied from `b`), so that `GetIndexForTime(s) = j`; the view, and with it the
aggregate, is what registering `j` alone gives, so nothing of `i` appears in
it; the by-index map still holds for `i` what `AddTimeRange(i, a)` stored
(index `i`, the steps copied from `a`, start `s`). -/
theorem C13_start_collision (self r1 r2 : vtkFileSeriesReaderTimeRanges) (i j : ℤ)
    (a b : vtkInformation) (s : Time) (hwf : self.WF) (hij : i ≠ j)
    (ha : reportedStart a = some s) (hb : reportedStart b = some s)
    (hta : a.TIME_STEPS ≠ none ∨ a.TIME_RANGE ≠ none)
    (htb : b.TIME_STEPS ≠ none ∨ b.TIME_RANGE ≠ none)
    (h1 : self.AddTimeRange i a = some r1) (h2 : r1.AddTimeRange j b = some r2) :
    (∃ infoB, infoB.INDEX = j ∧ infoB.TIME_STEPS = CopyEntry b.TIME_STEPS ∧
      (s, infoB) ∈ r2.RangeMap ∧
      ∀ e ∈ r2.RangeMap, e.1 = s → e = (s, infoB)) ∧
    r2.GetIndexForTime s = j ∧
    (∃ alone, self.AddTimeRange j b = some alone ∧ r2.RangeMap = alone.RangeMap ∧
      ∀ dmax outInfo,
        r2.GetAggregateTimeInfo dmax outInfo = alone.GetAggregateTimeInfo dmax outInfo) ∧
    (∃ infoA, mapLookup i r1.InputLookup = some infoA ∧ mapLookup i r2.InputLookup = some infoA ∧
      infoA.INDEX = i ∧ infoA.TIME_STEPS = CopyEntry a.TIME_STEPS ∧
      infoA.TIME_RANGE.map Prod.fst = some s) := by
  obtain ⟨ra, hra, hsa⟩ := AddTimeRange_shape self r1 i a hta h1
  obtain ⟨rb, hrb, hsb⟩ := AddTimeRange_shape r1 r2 j b htb h2
  have hr1 := (hsa self).symm.trans h1
  have hr2 := (hsb r1).symm.trans h2
  simp only [Option.some.injEq] at hr1 hr2
  rw [ha] at hra
  rw [hb] at hrb
  simp only [Option.some.injEq] at hra hrb
  have hwf1 : r1.WF := WF_AddTimeRange self r1 i a hwf h1
  have hwf2 : r2.WF := WF_AddTimeRange r1 r2 j b hwf1 h2
  have hmem : (s, ({ INDEX := j, TIME_RANGE := some rb, TIME_STEPS := CopyEntry b.TIME_STEPS }
      : StoredInfo)) ∈ r2.RangeMap := by
    rw [← hr2, hrb]
    exact mem_mapAssign_self _ _ _
  refine ⟨⟨_, rfl, rfl, hmem, fun e he hk => sorted_key_unique hwf2.1 he hmem hk⟩, ?_, ?_, ?_⟩
  · exact GetIndexForTime_at_start r2 hwf2.1 s _ hmem
  · have hrm : r2.RangeMap = mapAssign rb.1
        { INDEX := j, TIME_RANGE := some rb, TIME_STEPS := CopyEntry b.TIME_STEPS }
        self.RangeMap := by
      rw [← hr2, ← hr1]
      simp only
      rw [← hra, hrb, mapAssign_mapAssign]
    exact ⟨_, hsb self, hrm, fun dmax outInfo => GetAggregateTimeInfo_congr dmax _ _ outInfo hrm⟩
  · have hl1 : mapLookup i r1.InputLookup
        = some { INDEX := i, TIME_RANGE := some ra, TIME_STEPS := CopyEntry a.TIME_STEPS } := by
      rw [← hr1]
      exact mapLookup_mapAssign_self _ _ _
    refine ⟨_, hl1, ?_, rfl, rfl, by simp [hra]⟩
    rw [← hr2]
    simp only
    rw [mapLookup_mapAssign_ne i j _ _ hij, hl1]

/-- C13 on a registry that was reset: input 0 with range `[0, 1]` and then
input 1 with range `[0, 2]`; the time 0 resolves to input 1. -/
theorem C13_start_collision_witness :
    (resetRegistry.WF ∧ (0 : ℤ) ≠ 1 ∧
      reportedStart { TIME_RANGE := some (0, 1), TIME_STEPS := some [0, 1 / 2, 1],
                      UPDATE_TIME_STEPS := none } = some 0 ∧
      reportedStart collidingSource = some 0 ∧
      resetRegistry.AddTimeRange 0
          { TIME_RANGE := some (0, 1), TIME_STEPS := some [0, 1 / 2, 1],
            UPDATE_TIME_STEPS := none } = some firstInputOnly ∧
      firstInputOnly.AddTimeRange 1 collidingSource = some collidedInputs) ∧
    collidedInputs.GetIndexForTime 0 = 1 ∧
    (∃ alone, resetRegistry.AddTimeRange 1 collidingSource = some alone ∧
      collidedInputs.RangeMap = alone.RangeMap ∧
      ∀ dmax outInfo,
        collidedInputs.GetAggregateTimeInfo dmax outInfo
          = alone.GetAggregateTimeInfo dmax outInfo) :=
  have hwf : resetRegistry.WF := WF_Reset _
  have h1 : resetRegistry.AddTimeRange 0
      { TIME_RANGE := some (0, 1), TIME_STEPS := some [0, 1 / 2, 1],
        UPDATE_TIME_STEPS := none } = some firstInputOnly := by
    norm_num [resetRegistry, Reset, AddTimeRange, mapAssign, firstInputOnly]
  have h2 : firstInputOnly.AddTimeRange 1 collidingSource = some collidedInputs := by
    norm_num [AddTimeRange, mapAssign, firstInputOnly, collidingSource, collidedInputs]
  have hthm := C13_start_collision resetRegistry firstInputOnly collidedInputs 0 1
    { TIME_RANGE := some (0, 1), TIME_STEPS := some [0, 1 / 2, 1], UPDATE_TIME_STEPS := none }
    collidingSource 0 hwf (by decide) (by simp [reportedStart])
    (by simp [reportedStart, collidingSource]) (by simp) (by simp [collidingSource]) h1 h2
  ⟨⟨hwf, by decide, by simp [reportedStart], by simp [reportedStart, collidingSource], h1, h2⟩,
   hthm.2.1, hthm.2.2.1⟩

/-- C14, as stated, fails: on a registry that was reset, input 0 registered
with range `[0, 1]` and then again with range `[5, 6]` leaves two entries of
index 0 in the by-start-time view, while registering `[5, 6]` alone leaves
one. -/
theorem C14_reregistration_counterexample :
    (resetRegistry.AddTimeRange 0 (rangeSource 0 1)).bind
        (fun r => r.AddTimeRange 0 (rangeSource 5 6))
      = some { RangeMap := [(0, { INDEX := 0, TIME_RANGE := some (0, 1), TIME_STEPS := none }),
                            (5, { INDEX := 0, TIME_RANGE := some (5, 6), TIME_STEPS := none })],
               InputLookup :=
                 [(0, { INDEX := 0, TIME_RANGE := some (5, 6), TIME_STEPS := none })] } ∧
    resetRegistry.AddTimeRange 0 (rangeSource 5 6)
      = some { RangeMap := [(5, { INDEX := 0, TIME_RANGE := some (5, 6), TIME_STEPS := none })],
               InputLookup :=
                 [(0, { INDEX := 0, TIME_RANGE := some (5, 6), TIME_STEPS := none })] } ∧
    (resetRegistry.AddTimeRange 0 (rangeSource 0 1)).bind
        (fun r => r.AddTimeRange 0 (rangeSource 5 6))
      ≠ resetRegistry.AddTimeRange 0 (rangeSource 5 6) := by
  have h1 : (resetRegistry.AddTimeRange 0 (rangeSource 0 1)).bind
        (fun r => r.AddTimeRange 0 (rangeSource 5 6))
      = some { RangeMap := [(0, { INDEX := 0, TIME_RANGE := some (0, 1), TIME_STEPS := none }),
                            (5, { INDEX := 0, TIME_RANGE := some (5, 6), TIME_STEPS := none })],
               InputLookup :=
                 [(0, { INDEX := 0, TIME_RANGE := some (5, 6), TIME_STEPS := none })] } := by
    norm_num [resetRegistry, Reset, AddTimeRange, mapAssign, rangeSource]
  have h2 : resetRegistry.AddTimeRange 0 (rangeSource 5 6)
      = some { RangeMap := [(5, { INDEX := 0, TIME_RANGE := some (5, 6), TIME_STEPS := none })],
               InputLookup :=
                 [(0, { INDEX := 0, TIME_RANGE := some (5, 6), TIME_STEPS := none })] } := by
    norm_num [resetRegistry, Reset, AddTimeRange, mapAssign, rangeSource]
  refine ⟨h1, h2, ?_⟩
  rw [h1, h2]
  simp

/-- C14, amended.  For reported infos `a` and `b` that both carry time
information, after `AddTimeRange(i, a)` and then `AddTimeRange(i, b)` the
by-index map is the one after `AddTimeRange(i, b)` alone, with one entry for
`i`; the whole registry is the same when `a` and `b` report the same start;
when the starts differ, the by-start-time view still holds the entry of `a`
(index `i`, the steps copied from `a`) under the start of `a`, next to the
entry of `b`. -/
theorem C14_reregistration (self r1 alone : vtkFileSeriesReaderTimeRanges) (i : ℤ)
    (a b : vtkInformation)
    (hta : a.TIME_STEPS ≠ none ∨ a.TIME_RANGE ≠ none)
    (htb : b.TIME_STEPS ≠ none ∨ b.TIME_RANGE ≠ none)
    (h1 : self.AddTimeRange i a = some r1) (hb : self.AddTimeRange i b = some alone) :
    ∃ r2, r1.AddTimeRange i b = some r2 ∧
      r2.InputLookup = alone.InputLookup ∧
      (reportedStart a = reportedStart b → r2 = alone) ∧
      (reportedStart a ≠ reportedStart b →
        (∃ e ∈ r2.RangeMap, e.2.INDEX = i ∧ some e.1 = reportedStart a ∧
          e.2.TIME_STEPS = CopyEntry a.TIME_STEPS) ∧
        (∃ e ∈ r2.RangeMap, e.2.INDEX = i ∧ some e.1 = reportedStart b ∧
          e.2.TIME_STEPS = CopyEntry b.TIME_STEPS)) := by
  obtain ⟨ra, hra, hsa⟩ := AddTimeRange_shape self r1 i a hta h1
  obtain ⟨rb, hrb, hsb⟩ := AddTimeRange_shape self alone i b htb hb
  have hr1 := (hsa self).symm.trans h1
  have hal := (hsb self).symm.trans hb
  simp only [Option.some.injEq] at hr1 hal
  refine ⟨_, hsb r1, ?_, ?_, ?_⟩
  · rw [← hal, ← hr1]
    simp only
    rw [mapAssign_mapAssign]
  · intro hst
    rw [hra, hrb] at hst
    simp only [Option.some.injEq] at hst
    rw [← hal, ← hr1]
    simp only
    rw [mapAssign_mapAssign, hst, mapAssign_mapAssign]
  · intro hst
    rw [hra, hrb] at hst
    have hne : ra.1 ≠ rb.1 := fun h => hst (by rw [h])
    constructor
    · refine ⟨(ra.1, { INDEX := i, TIME_RANGE := some ra,
                       TIME_STEPS := CopyEntry a.TIME_STEPS }),
        ?_, rfl, hra.symm, rfl⟩
      rw [← hr1]
      exact mem_mapAssign_of_mem _ _ _ _ (mem_mapAssign_self _ _ _) hne
    · exact ⟨(rb.1, { INDEX := i, TIME_RANGE := some rb,
                      TIME_STEPS := CopyEntry b.TIME_STEPS }),
        mem_mapAssign_self _ _ _, rfl, hrb.symm, rfl⟩

/-- C14 (amended) on a registry that was reset, for input 0 registered with
range `[0, 1]` and then with range `[5, 6]`. -/
theorem C14_reregistration_witness :
    (resetRegistry.AddTimeRange 0 (rangeSource 0 1)
        = some { RangeMap := [(0, { INDEX := 0, TIME_RANGE := some (0, 1), TIME_STEPS := none })],
                 InputLookup :=
                   [(0, { INDEX := 0, TIME_RANGE := some (0, 1), TIME_STEPS := none })] } ∧
      resetRegistry.AddTimeRange 0 (rangeSource 5 6)
        = some { RangeMap := [(5, { INDEX := 0, TIME_RANGE := some (5, 6), TIME_STEPS := none })],
                 InputLookup :=
                   [(0, { INDEX := 0, TIME_RANGE := some (5, 6), TIME_STEPS := none })] }) ∧
    ∃ r2,
      vtkFileSeriesReaderTimeRanges.AddTimeRange
          { RangeMap := [(0, { INDEX := 0, TIME_RANGE := some (0, 1), TIME_STEPS := none })],
            InputLookup :=
              [(0, { INDEX := 0, TIME_RANGE := some (0, 1), TIME_STEPS := none })] }
          0 (rangeSource 5 6) = some r2 ∧
      r2.InputLookup = [(0, { INDEX := 0, TIME_RANGE := some (5, 6), TIME_STEPS := none })] :=
  have h1 : resetRegistry.AddTimeRange 0 (rangeSource 0 1)
      = some { RangeMap := [(0, { INDEX := 0, TIME_RANGE := some (0, 1), TIME_STEPS := none })],
               InputLookup :=
                 [(0, { INDEX := 0, TIME_RANGE := some (0, 1), TIME_STEPS := none })] } := by
    norm_num [resetRegistry, Reset, AddTimeRange, mapAssign, rangeSource]
  have h2 : resetRegistry.AddTimeRange 0 (rangeSource 5 6)
      = some { RangeMap := [(5, { INDEX := 0, TIME_RANGE := some (5, 6), TIME_STEPS := none })],
               InputLookup :=
                 [(0, { INDEX := 0, TIME_RANGE := some (5, 6), TIME_STEPS := none })] } := by
    norm_num [resetRegistry, Reset, AddTimeRange, mapAssign, rangeSource]
  ⟨⟨h1, h2⟩,
   (C14_reregistration resetRegistry _ _ 0 (rangeSource 0 1) (rangeSource 5 6)
      (by simp [rangeSource]) (by simp [rangeSource]) h1 h2).imp
      (fun _ h => ⟨h.1, h.2.1⟩)⟩

/-- C18. Aggregation of an empty registry fails without effect: with no entry
in the by-start-time view, as right after `Reset`, `GetAggregateTimeInfo`
returns 0 and leaves the output information as it was. -/
theorem C18_empty_registry_fails (dmax : Time) (outInfo : vtkInformation) :
    (∀ self : vtkFileSeriesReaderTimeRanges, self.RangeMap = [] →
      self.GetAggregateTimeInfo dmax outInfo = some (0, outInfo)) ∧
    (∀ self : vtkFileSeriesReaderTimeRanges,
      (Reset self).GetAggregateTimeInfo dmax outInfo = some (0, outInfo)) := by
  constructor
  · intro self h
    simp [GetAggregateTimeInfo, h]
  · intro self
    simp [GetAggregateTimeInfo, Reset]

/-- C18 on `twoInputs` after `Reset`, for an output that holds a range and
steps. -/
theorem C18_empty_registry_fails_witness :
    (Reset twoInputs).GetAggregateTimeInfo sampleDoubleMax
        { TIME_RANGE := some (0, 9), TIME_STEPS := some [0, 9], UPDATE_TIME_STEPS := none }
      = some (0, { TIME_RANGE := some (0, 9), TIME_STEPS := some [0, 9],
                   UPDATE_TIME_STEPS := none }) :=
  (C18_empty_registry_fails sampleDoubleMax _).2 twoInputs

/-- C19, as stated, fails: on the registry with the two inputs of ranges
`[0, 1]` and `[2, 3]`, a request whose list of requested times is present and
empty makes `ChooseInputs` return the empty set and `RequestUpdateExtent` end
with "Inputs are not set.", while both maps hold two inputs. -/
theorem C19_zero_selected_counterexample :
    twoInputs.ChooseInputs (requestFor []) = ∅ ∧
    (RequestUpdateExtent idleReader twoInputsReader (requestFor [])).1
      = UpdateExtentResult.inputsNotSet ∧
    twoInputs.RangeMap.length = 2 ∧ twoInputs.InputLookup.length = 2 := by
  have h : twoInputs.ChooseInputs (requestFor []) = ∅ := by
    simp [ChooseInputs, requestFor]
  refine ⟨h, ?_, by simp [twoInputs], by simp [twoInputs]⟩
  rw [RequestUpdateExtent_notSet_iff]
  show (twoInputs.ChooseInputs (requestFor [])).card = 0
  rw [h]
  rfl

/-- C19, amended.  `ChooseInputs` returns the empty set, and
`RequestUpdateExtent` ends with "Inputs are not set.", exactly when the
request carries a list of requested times that is present and empty, whatever
the registry holds; on a registry with no input a request with no entry for
the requested times selects `{0}`. -/
theorem C19_zero_selected_iff_empty_request (reader : vtkAlgorithm)
    (self : vtkFileSeriesReader) (outInfo : vtkInformation) :
    (self.TimeRanges.ChooseInputs outInfo = ∅ ↔ outInfo.UPDATE_TIME_STEPS = some []) ∧
    ((RequestUpdateExtent reader self outInfo).1 = UpdateExtentResult.inputsNotSet
      ↔ outInfo.UPDATE_TIME_STEPS = some []) ∧
    (outInfo.UPDATE_TIME_STEPS = none →
      (Reset self.TimeRanges).ChooseInputs outInfo = {0}) := by
  have hiff : self.TimeRanges.ChooseInputs outInfo = ∅ ↔ outInfo.UPDATE_TIME_STEPS = some [] := by
    cases hu : outInfo.UPDATE_TIME_STEPS with
    | none => simp [ChooseInputs, hu]
    | some upTimes =>
      rw [ChooseInputs_some _ _ upTimes hu]
      cases upTimes with
      | nil => simp
      | cons t rest => simp
  refine ⟨hiff, ?_, ?_⟩
  · rw [RequestUpdateExtent_notSet_iff, Finset.card_eq_zero, hiff]
  · intro hu
    simp [ChooseInputs, hu]

namespace vtkFileSeriesReaderTimeRanges

/-- `GetInputTimeInfo` returns for a registered index. -/
theorem GetInputTimeInfo_total (self : vtkFileSeriesReaderTimeRanges) (index : ℤ)
    (info : StoredInfo) (slot : vtkInformation)
    (hreg : mapLookup index self.InputLookup = some info) :
    ∃ ret out, self.GetInputTimeInfo index slot = some (ret, out) ∧
      out.UPDATE_TIME_STEPS = slot.UPDATE_TIME_STEPS := by
  cases hs : info.TIME_STEPS with
  | none =>
    exact ⟨0, { slot with TIME_RANGE := info.TIME_RANGE },
      by simp [GetInputTimeInfo, hreg, hs], rfl⟩
  | some steps =>
    exact ⟨1, { slot with TIME_RANGE := info.TIME_RANGE, TIME_STEPS := some steps },
      by simp [GetInputTimeInfo, hreg, hs], rfl⟩

end vtkFileSeriesReaderTimeRanges

/-- C20, as stated, fails: input 0 is stored with the range `[0, 1]` and no
steps; on a slot that holds the steps `5, 6`, `GetInputTimeInfo` sets the
range to `[0, 1]`, returns 0 and leaves the steps `5, 6` in the slot. -/
theorem C20_local_time_counterexample :
    mapLookup 0 rangeOnlyInput.InputLookup
      = some { INDEX := 0, TIME_RANGE := some (0, 1), TIME_STEPS := none } ∧
    rangeOnlyInput.GetInputTimeInfo 0 staleInfo
      = some (0, { TIME_RANGE := some (0, 1), TIME_STEPS := some [5, 6],
                   UPDATE_TIME_STEPS := none }) := by
  constructor
  · simp [rangeOnlyInput, mapLookup]
  · simp [rangeOnlyInput, GetInputTimeInfo, mapLookup, staleInfo]

/-- C20, amended.  For a registered index, `GetInputTimeInfo` sets the slot's
range to the input's stored range (absent when none is stored); when the
input stored steps it sets the slot's steps to them and returns 1; when the
input stored no steps it returns 0 and leaves the slot's steps as they were. -/
theorem C20_local_time_restored (self : vtkFileSeriesReaderTimeRanges) (index : ℤ)
    (info : StoredInfo) (slot : vtkInformation)
    (hreg : mapLookup index self.InputLookup = some info) :
    ∃ ret out, self.GetInputTimeInfo index slot = some (ret, out) ∧
      out.TIME_RANGE = info.TIME_RANGE ∧
      (∀ steps, info.TIME_STEPS = some steps → ret = 1 ∧ out.TIME_STEPS = some steps) ∧
      (info.TIME_STEPS = none → ret = 0 ∧ out.TIME_STEPS = slot.TIME_STEPS) ∧
      out.UPDATE_TIME_STEPS = slot.UPDATE_TIME_STEPS := by
  cases hs : info.TIME_STEPS with
  | none =>
    refine ⟨0, { slot with TIME_RANGE := info.TIME_RANGE }, ?_, rfl, ?_, ?_, rfl⟩
    · simp [GetInputTimeInfo, hreg, hs]
    · intro steps h
      cases h
    · intro _
      exact ⟨rfl, rfl⟩
  | some steps =>
    refine ⟨1, { slot with TIME_RANGE := info.TIME_RANGE, TIME_STEPS := some steps },
      ?_, rfl, ?_, ?_, rfl⟩
    · simp [GetInputTimeInfo, hreg, hs]
    · intro steps' h
      cases h
      exact ⟨rfl, rfl⟩
    · intro h
      cases h

/-- C20 (amended) on input 1 of the inputs with ranges `[0, 1]` and `[2, 3]`:
the slot gets the range `[2, 3]` and the steps `2, 2.5, 3`. -/
theorem C20_local_time_restored_witness :
    mapLookup 1 twoInputs.InputLookup
      = some { INDEX := 1, TIME_RANGE := some (2, 3), TIME_STEPS := some [2, 5 / 2, 3] } ∧
    (∃ ret out, twoInputs.GetInputTimeInfo 1 staleInfo = some (ret, out) ∧
      out.TIME_RANGE = some (2, 3) ∧
      (∀ steps, some [2, 5 / 2, 3] = some steps → ret = 1 ∧ out.TIME_STEPS = some steps) ∧
      ((some [2, 5 / 2, 3] : Option (List Time)) = none →
        ret = 0 ∧ out.TIME_STEPS = staleInfo.TIME_STEPS) ∧
      out.UPDATE_TIME_STEPS = staleInfo.UPDATE_TIME_STEPS) ∧
    twoInputs.GetInputTimeInfo 1 staleInfo
      = some (1, { TIME_RANGE := some (2, 3), TIME_STEPS := some [2, 5 / 2, 3],
                   UPDATE_TIME_STEPS := none }) :=
  ⟨by norm_num [twoInputs, mapLookup],
   C20_local_time_restored twoInputs 1
     { INDEX := 1, TIME_RANGE := some (2, 3), TIME_STEPS := some [2, 5 / 2, 3] } staleInfo
     (by norm_num [twoInputs, mapLookup]),
   by norm_num [twoInputs, GetInputTimeInfo, mapLookup, staleInfo]⟩

/-- C16. Fetch restores the global view: on a registry with an entry in the
by-start-time view and a registered last-probed index, whatever the reader
does to the slot during the delegated request, `RequestData` returns the
reader's result, and the slot's range and steps are then the ones
`GetAggregateTimeInfo` computes from the registry on any output, both absent
when the global range is degenerate. -/
theorem C16_fetch_restores_global (dmax : Time) (reader : vtkAlgorithm)
    (self : vtkFileSeriesReader) (outInfo : vtkInformation) (info : StoredInfo)
    (hwf : self.TimeRanges.WF) (hne : self.TimeRanges.RangeMap ≠ [])
    (hreg : mapLookup self.LastRequestInformationIndex self.TimeRanges.InputLookup
      = some info) :
    ∃ ret out, RequestData dmax reader self outInfo = some (ret, out) ∧
      (∀ other : vtkInformation, ∃ agg,
        self.TimeRanges.GetAggregateTimeInfo dmax other = some (1, agg) ∧
        out.TIME_RANGE = agg.TIME_RANGE ∧ out.TIME_STEPS = agg.TIME_STEPS) ∧
      (∀ lo hi, HasGlobalRange self.TimeRanges.RangeMap lo hi → hi ≤ lo →
        out.TIME_RANGE = none ∧ out.TIME_STEPS = none) := by
  obtain ⟨lo, hi, hr⟩ := exists_globalRange self.TimeRanges hwf hne
  obtain ⟨ret, restored, hget, -⟩ :=
    GetInputTimeInfo_total self.TimeRanges self.LastRequestInformationIndex info outInfo hreg
  have hagg := fun o => GetAggregateTimeInfo_of_range dmax self.TimeRanges o lo hi hwf hr
  refine ⟨(reader.REQUEST_DATA self.LastRequestInformationIndex restored).1,
    (if lo ≥ hi then
      { (reader.REQUEST_DATA self.LastRequestInformationIndex restored).2 with
        TIME_RANGE := none, TIME_STEPS := none }
    else
      { (reader.REQUEST_DATA self.LastRequestInformationIndex restored).2 with
        TIME_RANGE := some (lo, hi),
        TIME_STEPS := SetVector (leadingAggregateSteps dmax self.TimeRanges.RangeMap) }),
    ?_, ?_, ?_⟩
  · simp only [RequestData, hget, hagg]
  · intro other
    refine ⟨_, hagg other, ?_, ?_⟩ <;> split <;> rfl
  · intro lo' hi' hr' hdeg
    have h1 := hagg outInfo
    rw [GetAggregateTimeInfo_of_range dmax self.TimeRanges outInfo lo' hi' hwf hr',
      if_pos hdeg] at h1
    simp only [Option.some.injEq, Prod.mk.injEq, true_and] at h1
    by_cases hc : lo ≥ hi
    · simp [if_pos hc]
    · rw [if_neg hc] at h1
      simp at h1

/-- C16 on the inputs with ranges `[0, 1]` and `[2, 3]`, input 1 probed last,
with a reader that overwrites the slot: after `RequestData` the slot holds the
range `[0, 3]` and the six aggregate steps. -/
theorem C16_fetch_restores_global_witness :
    (twoInputsProbed.TimeRanges.WF ∧ twoInputsProbed.TimeRanges.RangeMap ≠ [] ∧
      mapLookup twoInputsProbed.LastRequestInformationIndex twoInputsProbed.TimeRanges.InputLookup
        = some { INDEX := 1, TIME_RANGE := some (2, 3), TIME_STEPS := some [2, 5 / 2, 3] }) ∧
    (∃ ret out, RequestData sampleDoubleMax scribblingReader twoInputsProbed staleInfo
        = some (ret, out) ∧
      (∀ other : vtkInformation, ∃ agg,
        twoInputsProbed.TimeRanges.GetAggregateTimeInfo sampleDoubleMax other = some (1, agg) ∧
        out.TIME_RANGE = agg.TIME_RANGE ∧ out.TIME_STEPS = agg.TIME_STEPS) ∧
      (∀ lo hi, HasGlobalRange twoInputsProbed.TimeRanges.RangeMap lo hi → hi ≤ lo →
        out.TIME_RANGE = none ∧ out.TIME_STEPS = none)) ∧
    RequestData sampleDoubleMax scribblingReader twoInputsProbed staleInfo
      = some (1, { TIME_RANGE := some (0, 3), TIME_STEPS := some [0, 1 / 2, 1, 2, 5 / 2, 3],
                   UPDATE_TIME_STEPS := none }) :=
  ⟨⟨twoInputs_WF, by simp [twoInputsProbed, twoInputs],
      by norm_num [twoInputsProbed, twoInputs, mapLookup]⟩,
   C16_fetch_restores_global sampleDoubleMax scribblingReader twoInputsProbed staleInfo
     { INDEX := 1, TIME_RANGE := some (2, 3), TIME_STEPS := some [2, 5 / 2, 3] }
     twoInputs_WF (by simp [twoInputsProbed, twoInputs])
     (by norm_num [twoInputsProbed, twoInputs, mapLookup]),
   by norm_num [RequestData, twoInputsProbed, twoInputs, GetInputTimeInfo, mapLookup,
      scribblingReader, staleInfo, GetAggregateTimeInfo, aggregateLoop, copyTimeSteps,
      sampleDoubleMax]⟩

theorem allSteps_cons (e : Time × StoredInfo) (m : List (Time × StoredInfo)) :
    allSteps (e :: m) = e.2.TIME_STEPS.getD [] ++ allSteps m := by
  simp [allSteps]

/-- With every step below the next start, and below `dmax` for the last entry,
the leading runs are the complete step lists. -/
theorem leadingAggregateSteps_eq_all (dmax : Time) (m : List (Time × StoredInfo))
    (hbelow : StepsBelowNext m)
    (hlast : ∀ l, m.getLast? = some l → ∀ s ∈ l.2.TIME_STEPS.getD [], s < dmax) :
    leadingAggregateSteps dmax m = allSteps m := by
  induction m with
  | nil => simp [leadingAggregateSteps_nil, allSteps]
  | cons e rest ih =>
    cases rest with
    | nil =>
      rw [leadingAggregateSteps_single, allSteps_cons]
      simp only [allSteps, List.flatMap_nil, List.append_nil]
      rw [List.takeWhile_eq_self_iff]
      intro s hs
      simpa using hlast e rfl s hs
    | cons e' rest' =>
      obtain ⟨h1, h2⟩ := hbelow
      rw [leadingAggregateSteps_cons, allSteps_cons,
        ih h2 (fun l hl => hlast l (by rw [List.getLast?_cons_cons]; exact hl))]
      congr 1
      rw [List.takeWhile_eq_self_iff]
      intro s hs
      simpa using h1 s hs

/-- C17. The code at the failing input: a single input with range `[0, dmax]`
and the steps `0, dmax` has a non-degenerate range and no next entry, so all
of its steps are to be copied; the code compares each step with the sentinel
`dmax` it uses for "no next entry" and emits the step `0` alone: the step
`dmax` is lost. -/
theorem C17_step_at_sentinel_lost :
    HasGlobalRange farStepInput.RangeMap 0 sampleDoubleMax ∧ (0 : Time) < sampleDoubleMax ∧
    StepsBelowNext farStepInput.RangeMap ∧
    farStepInput.GetAggregateTimeInfo sampleDoubleMax emptyInfo
      = some (1, { TIME_RANGE := some (0, sampleDoubleMax), TIME_STEPS := some [0],
                   UPDATE_TIME_STEPS := none }) ∧
    allSteps farStepInput.RangeMap = [0, sampleDoubleMax] ∧
    ([0] : List Time) ≠ [0, sampleDoubleMax] := by
  refine ⟨?_, ?_, ?_, ?_, ?_, ?_⟩
  · norm_num [HasGlobalRange, farStepInput]
  · norm_num [sampleDoubleMax]
  · simp [farStepInput, StepsBelowNext]
  · norm_num [farStepInput, GetAggregateTimeInfo, aggregateLoop, copyTimeSteps, emptyInfo,
      sampleDoubleMax]
  · simp [allSteps, farStepInput]
  · simp

/-- No step is lost below the sentinel.  On a registry with a non-degenerate
global range in which every step of each entry is strictly below the next
entry's start, and every step of the last entry is below `dmax`, the step
sequence handed to the output is the concatenation of all entries' complete
step lists in ascending start order; the output holds no steps when it is
empty. -/
theorem GetAggregateTimeInfo_all_steps (dmax : Time) (self : vtkFileSeriesReaderTimeRanges)
    (outInfo : vtkInformation) (lo hi : Time) (hwf : self.WF)
    (hr : HasGlobalRange self.RangeMap lo hi) (hnd : lo < hi)
    (hbelow : StepsBelowNext self.RangeMap)
    (hlast : ∀ l, self.RangeMap.getLast? = some l → ∀ s ∈ l.2.TIME_STEPS.getD [], s < dmax) :
    self.GetAggregateTimeInfo dmax outInfo
      = some (1, { outInfo with TIME_RANGE := some (lo, hi),
                                TIME_STEPS := SetVector (allSteps self.RangeMap) }) := by
  rw [GetAggregateTimeInfo_of_range dmax self outInfo lo hi hwf hr, if_neg (not_le.mpr hnd),
    leadingAggregateSteps_eq_all dmax self.RangeMap hbelow hlast]

/-- The two examples of the specification: the inputs with steps `0, 0.5, 1`
and `2, 2.5, 3` give the range `[0, 3]` with the steps `0, 0.5, 1, 2, 2.5, 3`;
a single input with steps `0, 1, 2` gives the range `[0, 2]` with the steps
`0, 1, 2`. -/
theorem GetAggregateTimeInfo_all_steps_example :
    (twoInputs.WF ∧ HasGlobalRange twoInputs.RangeMap 0 3 ∧ (0 : Time) < 3 ∧
      StepsBelowNext twoInputs.RangeMap ∧
      ∀ l, twoInputs.RangeMap.getLast? = some l →
        ∀ s ∈ l.2.TIME_STEPS.getD [], s < sampleDoubleMax) ∧
    twoInputs.GetAggregateTimeInfo sampleDoubleMax emptyInfo
      = some (1, { emptyInfo with TIME_RANGE := some (0, 3),
                                  TIME_STEPS := SetVector (allSteps twoInputs.RangeMap) }) ∧
    allSteps twoInputs.RangeMap = [0, 1 / 2, 1, 2, 5 / 2, 3] ∧
    singleInput.GetAggregateTimeInfo sampleDoubleMax emptyInfo
      = some (1, { TIME_RANGE := some (0, 2), TIME_STEPS := some [0, 1, 2],
                   UPDATE_TIME_STEPS := none }) :=
  have hr : HasGlobalRange twoInputs.RangeMap 0 3 := by norm_num [HasGlobalRange, twoInputs]
  have hb : StepsBelowNext twoInputs.RangeMap := by norm_num [StepsBelowNext, twoInputs]
  have hl : ∀ l, twoInputs.RangeMap.getLast? = some l →
      ∀ s ∈ l.2.TIME_STEPS.getD [], s < sampleDoubleMax := by
    intro l hl
    simp only [twoInputs, List.getLast?_cons_cons, List.getLast?_singleton,
      Option.some.injEq] at hl
    subst hl
    norm_num [sampleDoubleMax]
  ⟨⟨twoInputs_WF, hr, by norm_num, hb, hl⟩,
   GetAggregateTimeInfo_all_steps sampleDoubleMax twoInputs emptyInfo 0 3 twoInputs_WF hr
     (by norm_num) hb hl,
   by norm_num [allSteps, twoInputs],
   by norm_num [singleInput, GetAggregateTimeInfo, aggregateLoop, copyTimeSteps, emptyInfo,
      sampleDoubleMax]⟩

/-! ## The faked timeline -/

theorem ordinalRegistry_succ (m : ℕ) :
    ordinalRegistry (m + 1)
      = { RangeMap := (ordinalRegistry m).RangeMap ++ [((m : Time), ordinalInfo m)],
          InputLookup := (ordinalRegistry m).InputLookup ++ [((m : ℤ), ordinalInfo m)] } := by
  simp [ordinalRegistry, List.range_succ]

/-- Registration of the faked step `m` on the registry of the inputs before it. -/
theorem AddTimeRange_ordinal (m : ℕ) (outInfo : vtkInformation)
    (hr : outInfo.TIME_RANGE = none) (hs : outInfo.TIME_STEPS = some [(m : Time)]) :
    (ordinalRegistry m).AddTimeRange (m : ℤ) outInfo = some (ordinalRegistry (m + 1)) := by
  have h1 : mapAssign (m : Time) (ordinalInfo m) (ordinalRegistry m).RangeMap
      = (ordinalRegistry m).RangeMap ++ [((m : Time), ordinalInfo m)] := by
    apply mapAssign_append_last
    intro e he
    simp only [ordinalRegistry, List.mem_map, List.mem_range] at he
    obtain ⟨i, hi, rfl⟩ := he
    show ((i : ℕ) : Time) < (m : Time)
    exact_mod_cast hi
  have h2 : mapAssign (m : ℤ) (ordinalInfo m) (ordinalRegistry m).InputLookup
      = (ordinalRegistry m).InputLookup ++ [((m : ℤ), ordinalInfo m)] := by
    apply mapAssign_append_last
    intro e he
    simp only [ordinalRegistry, List.mem_map, List.mem_range] at he
    obtain ⟨i, hi, rfl⟩ := he
    show ((i : ℕ) : ℤ) < (m : ℤ)
    exact_mod_cast hi
  rw [ordinalRegistry_succ, ← h1, ← h2]
  simp [AddTimeRange, hr, hs, ordinalInfo]

/-- The loop that fakes the time steps, run from input `m` on the registry of
the inputs before `m`. -/
theorem fakeTimeSteps_ordinal (k : ℕ) :
    ∀ (m : ℕ) (outInfo : vtkInformation), outInfo.TIME_RANGE = none →
      ∃ out, vtkFileSeriesReader.fakeTimeSteps k (m : ℤ) (ordinalRegistry m) outInfo
          = some (ordinalRegistry (m + k), out) ∧
        out.UPDATE_TIME_STEPS = outInfo.UPDATE_TIME_STEPS := by
  induction k with
  | zero =>
    intro m outInfo _
    exact ⟨outInfo, by simp [vtkFileSeriesReader.fakeTimeSteps], rfl⟩
  | succ k ih =>
    intro m outInfo hr
    have hadd := AddTimeRange_ordinal m
      { outInfo with TIME_STEPS := some [((m : ℤ) : Time)] } hr (by simp)
    obtain ⟨out, hout, hu⟩ := ih (m + 1)
      { outInfo with TIME_STEPS := some [((m : ℤ) : Time)] } hr
    refine ⟨out, ?_, hu⟩
    simp only [vtkFileSeriesReader.fakeTimeSteps, hadd]
    have hc : ((m : ℤ) + 1) = ((m + 1 : ℕ) : ℤ) := by push_cast; rfl
    rw [hc, hout]
    congr 3
    omega

theorem ordinalRegistry_WF (n : ℕ) : (ordinalRegistry n).WF := by
  induction n with
  | zero => simp [WF, ordinalRegistry]
  | succ m ih =>
    exact WF_AddTimeRange (ordinalRegistry m) _ (m : ℤ)
      { TIME_RANGE := none, TIME_STEPS := some [(m : Time)], UPDATE_TIME_STEPS := none } ih
      (AddTimeRange_ordinal m _ rfl rfl)

theorem ordinalRegistry_lookup (n i : ℕ) (hi : i < n) :
    mapLookup (i : ℤ) (ordinalRegistry n).InputLookup = some (ordinalInfo i) := by
  rw [mapLookup_eq_some _ _ _ (ordinalRegistry_WF n).2.1]
  simp only [ordinalRegistry, List.mem_map, List.mem_range]
  exact ⟨i, hi, rfl⟩

theorem ordinalRegistry_globalRange (n : ℕ) :
    HasGlobalRange (ordinalRegistry (n + 1)).RangeMap 0 (n : Time) := by
  refine ⟨(((0 : ℕ) : Time), ordinalInfo 0), ?_, (((n : ℕ) : Time), ordinalInfo n), ?_, ?_, ?_, ?_⟩
  · simp only [ordinalRegistry, List.mem_map, List.mem_range]
    exact ⟨0, by omega, rfl⟩
  · simp only [ordinalRegistry, List.mem_map, List.mem_range]
    exact ⟨n, by omega, rfl⟩
  · intro e he
    simp only [ordinalRegistry, List.mem_map, List.mem_range] at he
    obtain ⟨i, hi, rfl⟩ := he
    constructor
    · simp
    · simp only [Nat.cast_le]
      omega
  · simp
  · simp [ordinalInfo]

theorem ordinal_stepsBelowNext (k : ℕ) :
    ∀ s : ℕ, StepsBelowNext
      ((List.range' s k).map (fun (i : ℕ) => ((i : Time), ordinalInfo i))) := by
  induction k with
  | zero => intro s; simp [StepsBelowNext]
  | succ k ih =>
    intro s
    cases k with
    | zero => simp [StepsBelowNext]
    | succ k =>
      have := ih (s + 1)
      simp only [List.range'_succ, List.map_cons] at this ⊢
      refine ⟨?_, this⟩
      intro x hx
      simp only [ordinalInfo, Option.getD_some, List.mem_singleton] at hx
      subst hx
      push_cast
      linarith

theorem ordinal_allSteps (l : List ℕ) :
    allSteps (l.map (fun (i : ℕ) => ((i : Time), ordinalInfo i)))
      = l.map (fun (i : ℕ) => (i : Time)) := by
  induction l with
  | nil => simp [allSteps]
  | cons a rest ih =>
    rw [List.map_cons, allSteps_cons, ih]
    simp [ordinalInfo]

/-- The aggregate steps of the faked timeline of `n` inputs. -/
theorem ordinal_leadingAggregateSteps (dmax : Time) (n : ℕ) (h : (n : Time) ≤ dmax) :
    leadingAggregateSteps dmax (ordinalRegistry n).RangeMap
      = (List.range n).map (fun (i : ℕ) => (i : Time)) := by
  rw [leadingAggregateSteps_eq_all, ordinalRegistry, ordinal_allSteps]
  · simp only [ordinalRegistry, List.range_eq_range']
    exact ordinal_stepsBelowNext n 0
  · intro l hl s hs
    have hmem := List.mem_of_mem_getLast? hl
    simp only [ordinalRegistry, List.mem_map, List.mem_range] at hmem
    obtain ⟨i, hi, rfl⟩ := hmem
    simp only [ordinalInfo, Option.getD_some, List.mem_singleton] at hs
    subst hs
    have : (i : Time) < (n : Time) := by exact_mod_cast hi
    linarith

/-- C15. Describe without reader time: with `n ≥ 1` file names (`n` an `int`,
`dmax` not below the `int` range), when input 0 reports neither range nor
steps or `IgnoreReaderTime` is set, `RequestInformation` returns 1, registers
each input `i < n` with the steps `[i]` and the range `[i, i]`, and publishes
for `n ≥ 2` the range `[0, n - 1]` with the steps `0, 1, ..., n - 1`, for
`n = 1` neither range nor steps. -/
theorem C15_fake_timeline (dmax : Time) (reader : vtkAlgorithm) (self : vtkFileSeriesReader)
    (outInfo : vtkInformation)
    (h1 : 1 ≤ self.NumberOfFileNames) (hint : self.NumberOfFileNames < 2 ^ 31)
    (hmax : (2 : Time) ^ 31 ≤ dmax)
    (hfake : self.IgnoreReaderTime = true ∨
      ((reader.REQUEST_INFORMATION 0
          { outInfo with TIME_STEPS := none, TIME_RANGE := none }).2.TIME_STEPS = none ∧
       (reader.REQUEST_INFORMATION 0
          { outInfo with TIME_STEPS := none, TIME_RANGE := none }).2.TIME_RANGE = none)) :
    ∃ self' out, RequestInformation dmax reader self outInfo = some (1, self', out) ∧
      self'.TimeRanges = ordinalRegistry self.NumberOfFileNames ∧
      (∀ i : ℕ, i < self.NumberOfFileNames →
        mapLookup (i : ℤ) self'.TimeRanges.InputLookup
          = some { INDEX := (i : ℤ), TIME_RANGE := some ((i : Time), (i : Time)),
                   TIME_STEPS := some [(i : Time)] }) ∧
      (2 ≤ self.NumberOfFileNames →
        out.TIME_RANGE = some (0, (self.NumberOfFileNames : Time) - 1) ∧
        out.TIME_STEPS
          = some ((List.range self.NumberOfFileNames).map (fun (i : ℕ) => (i : Time)))) ∧
      (self.NumberOfFileNames = 1 → out.TIME_RANGE = none ∧ out.TIME_STEPS = none) := by
  obtain ⟨n, hn⟩ : ∃ n, self.NumberOfFileNames = n + 1 := ⟨self.NumberOfFileNames - 1, by omega⟩
  have hnd : (self.NumberOfFileNames : Time) ≤ dmax := by
    have : (self.NumberOfFileNames : Time) < 2 ^ 31 := by exact_mod_cast hint
    linarith
  obtain ⟨faked, hfaked, _⟩ := fakeTimeSteps_ordinal self.NumberOfFileNames 0
    { (reader.REQUEST_INFORMATION 0
        { outInfo with TIME_STEPS := none, TIME_RANGE := none }).2 with
      TIME_STEPS := none, TIME_RANGE := none } rfl
  simp only [Nat.cast_zero, zero_add] at hfaked
  have hreset : (Reset self.TimeRanges) = ordinalRegistry 0 := by
    simp [Reset, ordinalRegistry]
  have hwf := ordinalRegistry_WF self.NumberOfFileNames
  have hgr : HasGlobalRange (ordinalRegistry self.NumberOfFileNames).RangeMap 0 (n : Time) := by
    rw [hn]
    exact ordinalRegistry_globalRange n
  have hagg := fun o => GetAggregateTimeInfo_of_range dmax
    (ordinalRegistry self.NumberOfFileNames) o 0 (n : Time) hwf hgr
  have hcond : self.IgnoreReaderTime = true ∨
      ((reader.REQUEST_INFORMATION 0
          { outInfo with TIME_STEPS := none, TIME_RANGE := none }).2.TIME_STEPS.isNone = true ∧
       (reader.REQUEST_INFORMATION 0
          { outInfo with TIME_STEPS := none, TIME_RANGE := none }).2.TIME_RANGE.isNone = true) := by
    rcases hfake with h | ⟨h, h'⟩
    · exact Or.inl h
    · exact Or.inr ⟨by rw [h]; rfl, by rw [h']; rfl⟩
  refine ⟨{ self with
      TimeRanges := ordinalRegistry self.NumberOfFileNames,
      LastRequestInformationIndex := 0,
      InformationRequests := self.InformationRequests ++ [0] },
    (if (0 : Time) ≥ (n : Time) then
      { faked with TIME_RANGE := none, TIME_STEPS := none }
    else
      { faked with TIME_RANGE := some (0, (n : Time)),
                   TIME_STEPS := SetVector (leadingAggregateSteps dmax
                     (ordinalRegistry self.NumberOfFileNames).RangeMap) }),
    ?_, rfl, ?_, ?_, ?_⟩
  · have hlt : ¬ self.NumberOfFileNames < 1 := by omega
    simp only [RequestInformation, hlt, if_false, RequestInformationForInput, Option.isSome_some,
      or_true, if_true, Option.getD_some, hreset, if_pos hcond, hfaked, Option.map_some',
      hagg]
  · intro i hi
    exact ordinalRegistry_lookup self.NumberOfFileNames i hi
  · intro h2
    have hpos : ¬ (0 : Time) ≥ (n : Time) := by
      have : 1 ≤ n := by omega
      have : (1 : Time) ≤ (n : Time) := by exact_mod_cast this
      intro hc
      linarith
    rw [if_neg hpos]
    refine ⟨?_, ?_⟩
    · simp only [hn]
      push_cast
      simp
    · simp only
      rw [ordinal_leadingAggregateSteps dmax self.NumberOfFileNames hnd, SetVector_of_ne_nil]
      rw [hn, List.range_succ_eq_map]
      simp
  · intro h1'
    have hz : n = 0 := by omega
    subst hz
    simp

/-- C15 on three file names with `IgnoreReaderTime` set: the registry is the
faked one, the published range is `[0, 2]` and the steps are `0, 1, 2`; on one
file name neither range nor steps are published. -/
theorem C15_fake_timeline_witness :
    (1 ≤ (ignoringReader 3).NumberOfFileNames ∧ (ignoringReader 3).NumberOfFileNames < 2 ^ 31 ∧
      (2 : Time) ^ 31 ≤ sampleDoubleMax ∧ (ignoringReader 3).IgnoreReaderTime = true) ∧
    (∃ self' out,
      RequestInformation sampleDoubleMax idleReader (ignoringReader 3) emptyInfo
        = some (1, self', out) ∧
      self'.TimeRanges = ordinalRegistry 3 ∧
      out.TIME_RANGE = some (0, 2) ∧ out.TIME_STEPS = some [0, 1, 2]) ∧
    (∃ self' out,
      RequestInformation sampleDoubleMax idleReader (ignoringReader 1) staleInfo
        = some (1, self', out) ∧
      out.TIME_RANGE = none ∧ out.TIME_STEPS = none) :=
  have hmax : (2 : Time) ^ 31 ≤ sampleDoubleMax := by norm_num [sampleDoubleMax]
  ⟨⟨by simp [ignoringReader], by simp [ignoringReader], hmax, rfl⟩,
   match C15_fake_timeline sampleDoubleMax idleReader (ignoringReader 3) emptyInfo
      (by simp [ignoringReader]) (by simp [ignoringReader]) hmax (Or.inl rfl) with
   | ⟨s, o, h, ht, _, h2, _⟩ =>
     ⟨s, o, h, ht, by
       have := (h2 (by simp [ignoringReader])).1
       rw [this]
       norm_num [ignoringReader], by
       have := (h2 (by simp [ignoringReader])).2
       rw [this]
       simp [ignoringReader, List.range_succ]⟩,
   match C15_fake_timeline sampleDoubleMax idleReader (ignoringReader 1) staleInfo
      (by simp [ignoringReader]) (by simp [ignoringReader]) hmax (Or.inl rfl) with
   | ⟨s, o, h, _, _, _, h1⟩ => ⟨s, o, h, h1 rfl⟩⟩

/-- C21. One-entry probe cache: when `RequestUpdateExtent` selects the index
`i`, the reader is asked for its information, once and for input `i`, exactly
when `i` differs from the most recently probed index; in both cases the most
recently probed index is `i` afterwards and the registry is untouched, so the
following `RequestData` restores the local time information of input `i`. -/
theorem C21_probe_cache (reader : vtkAlgorithm) (self : vtkFileSeriesReader)
    (outInfo : vtkInformation) (i : ℤ)
    (hsel : (RequestUpdateExtent reader self outInfo).1 = UpdateExtentResult.selected i) :
    (RequestUpdateExtent reader self outInfo).2.LastRequestInformationIndex = i ∧
    (RequestUpdateExtent reader self outInfo).2.TimeRanges = self.TimeRanges ∧
    (i ≠ self.LastRequestInformationIndex →
      (RequestUpdateExtent reader self outInfo).2.InformationRequests
        = self.InformationRequests ++ [i]) ∧
    (i = self.LastRequestInformationIndex →
      (RequestUpdateExtent reader self outInfo).2.InformationRequests
        = self.InformationRequests) := by
  unfold RequestUpdateExtent at hsel ⊢
  simp only [gt_iff_lt] at hsel ⊢
  split
  · rename_i h
    simp [h] at hsel
  · rename_i h
    split
    · rename_i h0
      simp [h, h0] at hsel
    · rename_i h0
      simp only [h, h0, if_false, dite_false, UpdateExtentResult.selected.injEq] at hsel
      simp only [hsel, RequestInformationForInput, Option.isSome_none, Bool.false_eq_true,
        or_false]
      by_cases hc : i = self.LastRequestInformationIndex
      · simp [hc]
      · simp [hc]

/-- C21 on the inputs with ranges `[0, 1]` and `[2, 3]`, input 1 probed last:
a request for the time 2.5 selects input 1 without a probe, a request for the
time 0.5 selects input 0 with one. -/
theorem C21_probe_cache_witness :
    ((RequestUpdateExtent idleReader twoInputsProbed (requestFor [5 / 2])).1
        = UpdateExtentResult.selected 1 ∧
      (RequestUpdateExtent idleReader twoInputsProbed (requestFor [1 / 2])).1
        = UpdateExtentResult.selected 0) ∧
    ((RequestUpdateExtent idleReader twoInputsProbed (requestFor [5 / 2])).2.LastRequestInformationIndex = 1 ∧
      (RequestUpdateExtent idleReader twoInputsProbed (requestFor [5 / 2])).2.InformationRequests
        = [0, 1]) ∧
    ((RequestUpdateExtent idleReader twoInputsProbed (requestFor [1 / 2])).2.LastRequestInformationIndex = 0 ∧
      (RequestUpdateExtent idleReader twoInputsProbed (requestFor [1 / 2])).2.InformationRequests
        = [0, 1, 0]) :=
  have h1 : (RequestUpdateExtent idleReader twoInputsProbed (requestFor [5 / 2])).1
      = UpdateExtentResult.selected 1 := by
    rw [RequestUpdateExtent_selected_iff]
    norm_num [twoInputsProbed, twoInputs, ChooseInputs, GetIndexForTime, upper_bound, requestFor]
  have h0 : (RequestUpdateExtent idleReader twoInputsProbed (requestFor [1 / 2])).1
      = UpdateExtentResult.selected 0 := by
    rw [RequestUpdateExtent_selected_iff]
    norm_num [twoInputsProbed, twoInputs, ChooseInputs, GetIndexForTime, upper_bound, requestFor]
  ⟨⟨h1, h0⟩,
   ⟨(C21_probe_cache idleReader twoInputsProbed (requestFor [5 / 2]) 1 h1).1,
    (C21_probe_cache idleReader twoInputsProbed (requestFor [5 / 2]) 1 h1).2.2.2 rfl⟩,
   ⟨(C21_probe_cache idleReader twoInputsProbed (requestFor [1 / 2]) 0 h0).1,
    (C21_probe_cache idleReader twoInputsProbed (requestFor [1 / 2]) 0 h0).2.2.1 (by decide)⟩⟩

/-! ## Each entry and its bound -/

theorem nextStarts_cons_cons (e e' : Time × StoredInfo) (rest : List (Time × StoredInfo)) :
    nextStarts (e :: e' :: rest) = some e'.1 :: nextStarts (e' :: rest) := by
  simp [nextStarts]

/-- An entry of the by-start-time view and its bound: the bound is the start
of an entry, no start lies between the entry's start and the bound, and the
entry without a bound has the largest start. -/
theorem zip_nextStarts_spec (m : List (Time × StoredInfo))
    (hs : m.Pairwise (fun a b => a.1 < b.1)) :
    ∀ p ∈ m.zip (nextStarts m),
      p.1 ∈ m ∧ (p.2 = none → ∀ x ∈ m, x.1 ≤ p.1.1) ∧
      (∀ b, p.2 = some b → (∃ x ∈ m, x.1 = b) ∧ ∀ x ∈ m, x.1 ≤ p.1.1 ∨ b ≤ x.1) := by
  induction m with
  | nil => intro p hp; simp [nextStarts] at hp
  | cons e rest ih =>
    have hs' := List.pairwise_cons.mp hs
    cases rest with
    | nil =>
      intro p hp
      simp only [nextStarts, List.tail_cons, List.map_nil, List.nil_append, List.zip_cons_cons,
        List.zip_nil_right, List.mem_singleton] at hp
      subst hp
      refine ⟨List.mem_cons_self _ _, ?_, ?_⟩
      · intro _ x hx
        simp only [List.mem_singleton] at hx
        rw [hx]
      · intro b hb
        cases hb
    | cons e' rest' =>
      intro p hp
      rw [nextStarts_cons_cons, List.zip_cons_cons] at hp
      rcases List.mem_cons.mp hp with h | h
      · subst h
        refine ⟨List.mem_cons_self _ _, ?_, ?_⟩
        · intro hn
          cases hn
        · intro b hb
          simp only [Option.some.injEq] at hb
          subst hb
          refine ⟨⟨e', by simp, rfl⟩, ?_⟩
          intro x hx
          rcases List.mem_cons.mp hx with hx | hx
          · left
            rw [hx]
          · right
            rcases List.mem_cons.mp hx with hx | hx
            · rw [hx]
            · exact le_of_lt ((List.pairwise_cons.mp hs'.2).1 x hx)
      · obtain ⟨h1, h2, h3⟩ := ih hs'.2 p h
        have hlt : e.1 < p.1.1 := hs'.1 p.1 h1
        refine ⟨List.mem_cons_of_mem _ h1, ?_, ?_⟩
        · intro hn x hx
          rcases List.mem_cons.mp hx with hx | hx
          · rw [hx]
            exact le_of_lt hlt
          · exact h2 hn x hx
        · intro b hb
          obtain ⟨⟨y, hy, hyb⟩, hall⟩ := h3 b hb
          refine ⟨⟨y, List.mem_cons_of_mem _ hy, hyb⟩, ?_⟩
          intro x hx
          rcases List.mem_cons.mp hx with hx | hx
          · left
            rw [hx]
            exact le_of_lt hlt
          · exact hall x hx

theorem mem_leadingAggregateSteps (dmax : Time) (m : List (Time × StoredInfo)) (s : Time) :
    s ∈ leadingAggregateSteps dmax m ↔
      ∃ p ∈ m.zip (nextStarts m),
        s ∈ (p.1.2.TIME_STEPS.getD []).takeWhile (fun s => s < p.2.getD dmax) := by
  simp only [leadingAggregateSteps, List.mem_flatMap]

namespace vtkFileSeriesReaderTimeRanges

/-- A time from an entry's start up to its bound resolves to that entry. -/
theorem GetIndexForTime_of_share (self : vtkFileSeriesReaderTimeRanges)
    (hs : self.RangeMap.Pairwise (fun a b => a.1 < b.1))
    (p : (Time × StoredInfo) × Option Time)
    (hp : p ∈ self.RangeMap.zip (nextStarts self.RangeMap)) (s : Time)
    (hlo : p.1.1 ≤ s) (hhi : ∀ b, p.2 = some b → s < b) :
    self.GetIndexForTime s = p.1.2.INDEX := by
  obtain ⟨h1, _, h3⟩ := zip_nextStarts_spec self.RangeMap hs p hp
  obtain ⟨e, he, hidx, hown⟩ := GetIndexForTime_entry self s hs (List.ne_nil_of_mem h1)
  rcases hown with ⟨hle, hgreat⟩ | ⟨hall, _⟩
  · have hge : p.1.1 ≤ e.1 := hgreat p.1 h1 hlo
    have hle' : e.1 ≤ p.1.1 := by
      cases hb : p.2 with
      | none =>
        exact (zip_nextStarts_spec self.RangeMap hs p hp).2.1 hb e he
      | some b =>
        rcases (h3 b hb).2 e he with h | h
        · exact h
        · exact absurd (lt_of_lt_of_le (hhi b hb) h) (not_lt.mpr hle)
    rw [hidx, sorted_key_unique hs he h1 (le_antisymm hle' hge)]
  · exact absurd (hall p.1 h1) (not_lt.mpr hlo)

end vtkFileSeriesReaderTimeRanges

/-- C22. Every published step resolves to the input that supplied it: on a
registry built from pairwise distinct indices with pairwise distinct starts,
with a non-degenerate global range and no step of an entry below the entry's
start, the step sequence handed to the output (which holds it as its steps,
and holds no steps when the sequence is empty) is the concatenation of what
each entry supplies, and every value `s` supplied by an entry `e` has
`GetIndexForTime(s)` equal to the index of `e`, the registered input whose
stored information `e` is. -/
theorem C22_steps_resolve_to_supplier (dmax : Time) (inputs : List (ℤ × vtkInformation))
    (reg : vtkFileSeriesReaderTimeRanges) (outInfo : vtkInformation) (lo hi : Time)
    (hidx : (inputs.map Prod.fst).Nodup)
    (hstart : (inputs.map (fun p => reportedStart p.2)).Nodup)
    (htime : ∀ p ∈ inputs, p.2.TIME_STEPS ≠ none ∨ p.2.TIME_RANGE ≠ none)
    (hreg : registerAll inputs = some reg)
    (hr : HasGlobalRange reg.RangeMap lo hi) (hnd : lo < hi)
    (hsteps : ∀ e ∈ reg.RangeMap, ∀ s ∈ e.2.TIME_STEPS.getD [], e.1 ≤ s) :
    reg.GetAggregateTimeInfo dmax outInfo
      = some (1, { outInfo with
          TIME_RANGE := some (lo, hi),
          TIME_STEPS := SetVector ((reg.RangeMap.zip (nextStarts reg.RangeMap)).flatMap
            (fun p => (p.1.2.TIME_STEPS.getD []).takeWhile (fun s => s < p.2.getD dmax))) }) ∧
    ∀ p ∈ reg.RangeMap.zip (nextStarts reg.RangeMap),
      ∀ s ∈ (p.1.2.TIME_STEPS.getD []).takeWhile (fun s => s < p.2.getD dmax),
        reg.GetIndexForTime s = p.1.2.INDEX ∧
        mapLookup p.1.2.INDEX reg.InputLookup = some p.1.2 := by
  obtain ⟨hwf, hl, _⟩ := registerAll_distinct inputs reg hidx hstart htime hreg
  constructor
  · rw [GetAggregateTimeInfo_of_range dmax reg outInfo lo hi hwf hr, if_neg (not_le.mpr hnd)]
    rfl
  · intro p hp s hs
    obtain ⟨h1, _, _⟩ := zip_nextStarts_spec reg.RangeMap hwf.1 p hp
    have hmem : s ∈ p.1.2.TIME_STEPS.getD [] := (List.takeWhile_sublist _).subset hs
    have hlt : s < p.2.getD dmax := by simpa using List.mem_takeWhile_imp hs
    refine ⟨GetIndexForTime_of_share reg hwf.1 p hp s (hsteps p.1 h1 s hmem) ?_,
      (mapLookup_eq_some _ _ _ hwf.2.1).mpr (hl.1 p.1 h1)⟩
    intro b hb
    rw [hb] at hlt
    exact hlt

/-- C23. Aggregate steps lie inside the aggregate range: on a registry with a
non-degenerate global range in which every entry has start `≤` end and all of
its steps within `[start, end]`, the call succeeds and every value of the step
sequence `timeSteps` it hands to the output (which holds it as its steps, and
holds no steps when the sequence is empty) lies within the emitted range
`[lo, hi]`. -/
theorem C23_steps_inside_range (dmax : Time) (self : vtkFileSeriesReaderTimeRanges)
    (outInfo : vtkInformation) (lo hi : Time) (hwf : self.WF)
    (hr : HasGlobalRange self.RangeMap lo hi) (hnd : lo < hi)
    (hin : ∀ e ∈ self.RangeMap, ∀ r, e.2.TIME_RANGE = some r →
      r.1 ≤ r.2 ∧ ∀ s ∈ e.2.TIME_STEPS.getD [], r.1 ≤ s ∧ s ≤ r.2) :
    ∃ timeSteps,
      self.GetAggregateTimeInfo dmax outInfo
        = some (1, { outInfo with TIME_RANGE := some (lo, hi),
                                  TIME_STEPS := SetVector timeSteps }) ∧
      ∀ s ∈ timeSteps, lo ≤ s ∧ s ≤ hi := by
  refine ⟨leadingAggregateSteps dmax self.RangeMap, ?_, ?_⟩
  · rw [GetAggregateTimeInfo_of_range dmax self outInfo lo hi hwf hr, if_neg (not_le.mpr hnd)]
  · intro s hs
    obtain ⟨p, hp, hsp⟩ := (mem_leadingAggregateSteps dmax _ s).mp hs
    obtain ⟨h1, h2, h3⟩ := zip_nextStarts_spec self.RangeMap hwf.1 p hp
    obtain ⟨first, hfm, last, hlm, hall, hlo, hhi⟩ := hr
    have hmem : s ∈ p.1.2.TIME_STEPS.getD [] := (List.takeWhile_sublist _).subset hsp
    have hlt : s < p.2.getD dmax := by simpa using List.mem_takeWhile_imp hsp
    have h3p := hwf.2.2.1 p.1 h1
    cases hrp : p.1.2.TIME_RANGE with
    | none => simp [hrp] at h3p
    | some r =>
      simp only [hrp, Option.map_some', Option.some.injEq] at h3p
      obtain ⟨_, hsr⟩ := hin p.1 h1 r hrp
      obtain ⟨hs1, hs2⟩ := hsr s hmem
      constructor
      · rw [← hlo]
        exact le_trans (hall p.1 h1).1 (by rw [← h3p]; exact hs1)
      · cases hb : p.2 with
        | none =>
          have hk : p.1.1 = last.1 := le_antisymm (hall p.1 h1).2 (h2 hb last hlm)
          have := sorted_key_unique hwf.1 h1 hlm hk
          rw [this, hhi] at hrp
          simp only [Option.some.injEq] at hrp
          rw [← hrp] at hs2
          exact hs2
        | some b =>
          rw [hb] at hlt
          obtain ⟨⟨x, hx, hxb⟩, _⟩ := h3 b hb
          have hbl : b ≤ last.1 := by rw [← hxb]; exact (hall x hx).2
          have hle := (hin last hlm _ hhi).1
          exact le_of_lt (lt_of_lt_of_le hlt (le_trans hbl hle))

/-- C22 on the registry built from the inputs with steps `0, 0.5, 1` and
`2, 2.5, 3`: the steps 0.5 and 2.5 resolve to the inputs 0 and 1. -/
theorem C22_steps_resolve_to_supplier_witness :
    ((twoInputsSources.map Prod.fst).Nodup ∧
      (twoInputsSources.map (fun p => reportedStart p.2)).Nodup ∧
      (∀ p ∈ twoInputsSources, p.2.TIME_STEPS ≠ none ∨ p.2.TIME_RANGE ≠ none) ∧
      registerAll twoInputsSources = some twoInputs ∧
      HasGlobalRange twoInputs.RangeMap 0 3 ∧ (0 : Time) < 3 ∧
      ∀ e ∈ twoInputs.RangeMap, ∀ s ∈ e.2.TIME_STEPS.getD [], e.1 ≤ s) ∧
    (twoInputs.GetAggregateTimeInfo sampleDoubleMax emptyInfo
      = some (1, { emptyInfo with
          TIME_RANGE := some (0, 3),
          TIME_STEPS := SetVector ((twoInputs.RangeMap.zip (nextStarts twoInputs.RangeMap)).flatMap
            (fun p =>
              (p.1.2.TIME_STEPS.getD []).takeWhile (fun s => s < p.2.getD sampleDoubleMax))) }) ∧
      ∀ p ∈ twoInputs.RangeMap.zip (nextStarts twoInputs.RangeMap),
        ∀ s ∈ (p.1.2.TIME_STEPS.getD []).takeWhile (fun s => s < p.2.getD sampleDoubleMax),
          twoInputs.GetIndexForTime s = p.1.2.INDEX ∧
          mapLookup p.1.2.INDEX twoInputs.InputLookup = some p.1.2) ∧
    twoInputs.GetIndexForTime (1 / 2) = 0 ∧ twoInputs.GetIndexForTime (5 / 2) = 1 :=
  have h1 : (twoInputsSources.map Prod.fst).Nodup := by norm_num [twoInputsSources]
  have h2 : (twoInputsSources.map (fun p => reportedStart p.2)).Nodup := by
    norm_num [twoInputsSources, reportedStart]
  have h3 : ∀ p ∈ twoInputsSources, p.2.TIME_STEPS ≠ none ∨ p.2.TIME_RANGE ≠ none := by
    simp [twoInputsSources]
  have h4 : registerAll twoInputsSources = some twoInputs := by
    norm_num [registerAll, twoInputsSources, twoInputs, Reset, AddTimeRange, mapAssign]
  have h5 : HasGlobalRange twoInputs.RangeMap 0 3 := by norm_num [HasGlobalRange, twoInputs]
  have h6 : ∀ e ∈ twoInputs.RangeMap, ∀ s ∈ e.2.TIME_STEPS.getD [], e.1 ≤ s := by
    norm_num [twoInputs]
  ⟨⟨h1, h2, h3, h4, h5, by norm_num, h6⟩,
   C22_steps_resolve_to_supplier sampleDoubleMax twoInputsSources twoInputs emptyInfo 0 3
     h1 h2 h3 h4 h5 (by norm_num) h6,
   by norm_num [twoInputs, GetIndexForTime, upper_bound],
   by norm_num [twoInputs, GetIndexForTime, upper_bound]⟩

/-- C23 on the inputs with ranges `[0, 10]` and `[1, 2]`: the emitted range is
`[0, 2]` and the emitted steps `0, 1, 2` lie inside it. -/
theorem C23_steps_inside_range_witness :
    (nestedInputs.WF ∧ HasGlobalRange nestedInputs.RangeMap 0 2 ∧ (0 : Time) < 2 ∧
      ∀ e ∈ nestedInputs.RangeMap, ∀ r, e.2.TIME_RANGE = some r →
        r.1 ≤ r.2 ∧ ∀ s ∈ e.2.TIME_STEPS.getD [], r.1 ≤ s ∧ s ≤ r.2) ∧
    (∃ timeSteps,
      nestedInputs.GetAggregateTimeInfo sampleDoubleMax emptyInfo
        = some (1, { emptyInfo with TIME_RANGE := some (0, 2),
                                    TIME_STEPS := SetVector timeSteps }) ∧
      ∀ s ∈ timeSteps, 0 ≤ s ∧ s ≤ 2) ∧
    nestedInputs.GetAggregateTimeInfo sampleDoubleMax emptyInfo
      = some (1, { TIME_RANGE := some (0, 2), TIME_STEPS := some [0, 1, 2],
                   UPDATE_TIME_STEPS := none }) :=
  have hr : HasGlobalRange nestedInputs.RangeMap 0 2 := by
    norm_num [HasGlobalRange, nestedInputs]
  have hin : ∀ e ∈ nestedInputs.RangeMap, ∀ r, e.2.TIME_RANGE = some r →
      r.1 ≤ r.2 ∧ ∀ s ∈ e.2.TIME_STEPS.getD [], r.1 ≤ s ∧ s ≤ r.2 := by
    intro e he r hr'
    simp only [nestedInputs, List.mem_cons, List.mem_singleton, List.not_mem_nil, or_false] at he
    rcases he with rfl | rfl
    · simp only [Option.some.injEq] at hr'
      subst hr'
      norm_num
    · simp only [Option.some.injEq] at hr'
      subst hr'
      norm_num
  ⟨⟨nestedInputs_WF, hr, by norm_num, hin⟩,
   C23_steps_inside_range sampleDoubleMax nestedInputs emptyInfo 0 2 nestedInputs_WF hr
     (by norm_num) hin,
   by norm_num [nestedInputs, GetAggregateTimeInfo, aggregateLoop, copyTimeSteps, emptyInfo,
      sampleDoubleMax]⟩

/-! ## Order of registration -/

theorem mapAssign_comm {κ α : Type} [LinearOrder κ] (k1 k2 : κ) (v1 v2 : α)
    (m : List (κ × α)) (hne : k1 ≠ k2) :
    mapAssign k1 v1 (mapAssign k2 v2 m) = mapAssign k2 v2 (mapAssign k1 v1 m) := by
  induction m with
  | nil =>
    rcases lt_or_gt_of_ne hne with h | h
    · simp [mapAssign, h, not_lt.mpr (le_of_lt h), hne.symm]
    · simp [mapAssign, h, not_lt.mpr (le_of_lt h), hne]
  | cons x rest ih =>
    obtain ⟨k', v'⟩ := x
    rcases lt_trichotomy k1 k' with h1 | h1 | h1 <;>
      rcases lt_trichotomy k2 k' with h2 | h2 | h2
    · rcases lt_or_gt_of_ne hne with h | h
      · simp [mapAssign, h1, h2, h, not_lt.mpr (le_of_lt h), hne.symm]
      · simp [mapAssign, h1, h2, h, not_lt.mpr (le_of_lt h), hne]
    · subst h2
      simp [mapAssign, h1, not_lt.mpr (le_of_lt h1), hne.symm]
    · have h12 : k1 < k2 := lt_trans h1 h2
      simp [mapAssign, h1, h12, not_lt.mpr (le_of_lt h2), not_lt.mpr (le_of_lt h12),
        (ne_of_gt h2), hne.symm]
    · subst h1
      simp [mapAssign, h2, not_lt.mpr (le_of_lt h2), hne]
    · exact absurd (h1.trans h2.symm) hne
    · subst h1
      simp [mapAssign, h2, not_lt.mpr (le_of_lt h2), (ne_of_gt h2)]
    · have h21 : k2 < k1 := lt_trans h2 h1
      simp [mapAssign, h2, h21, not_lt.mpr (le_of_lt h1), not_lt.mpr (le_of_lt h21),
        (ne_of_gt h1), hne]
    · subst h2
      simp [mapAssign, h1, not_lt.mpr (le_of_lt h1), (ne_of_gt h1)]
    · simp [mapAssign, not_lt.mpr (le_of_lt h1), not_lt.mpr (le_of_lt h2), (ne_of_gt h1),
        (ne_of_gt h2), ih]

namespace vtkFileSeriesReaderTimeRanges

/-- What `AddTimeRange` does with a source that reports a start, on any
registry. -/
theorem AddTimeRange_of_start (index : ℤ) (srcInfo : vtkInformation) (s : Time)
    (h : reportedStart srcInfo = some s) :
    ∃ range : Time × Time, range.1 = s ∧
      ∀ other : vtkFileSeriesReaderTimeRanges, other.AddTimeRange index srcInfo
        = some { RangeMap := mapAssign s
                   { INDEX := index, TIME_RANGE := some range,
                     TIME_STEPS := CopyEntry srcInfo.TIME_STEPS } other.RangeMap,
                 InputLookup := mapAssign index
                   { INDEX := index, TIME_RANGE := some range,
                     TIME_STEPS := CopyEntry srcInfo.TIME_STEPS } other.InputLookup } := by
  unfold reportedStart at h
  cases hr : srcInfo.TIME_RANGE with
  | some timeRange =>
    simp only [hr, Option.some.injEq] at h
    refine ⟨timeRange, h, fun other => ?_⟩
    cases hs : srcInfo.TIME_STEPS <;> simp [AddTimeRange, hs, hr, h]
  | none =>
    simp only [hr] at h
    cases hs : srcInfo.TIME_STEPS with
    | none => simp [hs] at h
    | some timeSteps =>
      simp only [hs, Option.getD_some] at h
      cases timeSteps with
      | nil => simp at h
      | cons first rest =>
        simp only [List.head?_cons, Option.some.injEq] at h
        subst h
        refine ⟨(first, (first :: rest).getLast (List.cons_ne_nil _ _)), rfl, fun other => ?_⟩
        simp [AddTimeRange, hs, hr, List.getLast?_eq_getLast]

/-- Two registrations with different indices and different starts commute. -/
theorem AddTimeRange_comm (x y : ℤ × vtkInformation) (sx sy : Time)
    (hx : reportedStart x.2 = some sx) (hy : reportedStart y.2 = some sy)
    (hidx : x.1 ≠ y.1) (hst : sx ≠ sy) (z : Option vtkFileSeriesReaderTimeRanges) :
    (z.bind (fun r => r.AddTimeRange x.1 x.2)).bind (fun r => r.AddTimeRange y.1 y.2)
      = (z.bind (fun r => r.AddTimeRange y.1 y.2)).bind (fun r => r.AddTimeRange x.1 x.2) := by
  obtain ⟨rx, _, hax⟩ := AddTimeRange_of_start x.1 x.2 sx hx
  obtain ⟨ry, _, hay⟩ := AddTimeRange_of_start y.1 y.2 sy hy
  cases z with
  | none => rfl
  | some r =>
    simp only [Option.some_bind, hax, hay]
    rw [mapAssign_comm sy sx _ _ r.RangeMap hst.symm,
      mapAssign_comm y.1 x.1 _ _ r.InputLookup hidx.symm]

/-- Registration of inputs that each report a start succeeds. -/
theorem register_succeeds (inputs : List (ℤ × vtkInformation))
    (h : ∀ p ∈ inputs, reportedStart p.2 ≠ none) :
    ∀ reg0 : vtkFileSeriesReaderTimeRanges, ∃ reg,
      inputs.foldl (fun reg input => reg.bind (fun r => r.AddTimeRange input.1 input.2))
        (some reg0) = some reg := by
  induction inputs with
  | nil => intro reg0; exact ⟨reg0, rfl⟩
  | cons p rest ih =>
    intro reg0
    cases hs : reportedStart p.2 with
    | none => exact absurd hs (h p (List.mem_cons_self _ _))
    | some s =>
      obtain ⟨range, _, hadd⟩ := AddTimeRange_of_start p.1 p.2 s hs
      simp only [List.foldl_cons, Option.some_bind, hadd]
      exact ih (fun q hq => h q (List.mem_cons_of_mem _ hq)) _

/-- Registration in two orders gives the same registry. -/
theorem registerAll_perm (l1 l2 : List (ℤ × vtkInformation)) (hperm : l1.Perm l2)
    (hidx : (l1.map Prod.fst).Nodup)
    (hstart : (l1.map (fun p => reportedStart p.2)).Nodup)
    (hsome : ∀ p ∈ l1, reportedStart p.2 ≠ none) :
    registerAll l1 = registerAll l2 := by
  unfold registerAll
  apply List.Perm.foldl_eq' hperm
  intro x hx y hy z
  by_cases hxy : x = y
  · rw [hxy]
  · have h1 : x.1 ≠ y.1 := fun h => hxy (List.inj_on_of_nodup_map hidx hx hy h)
    have h2 : reportedStart x.2 ≠ reportedStart y.2 :=
      fun h => hxy (List.inj_on_of_nodup_map hstart hx hy h)
    cases hsx : reportedStart x.2 with
    | none => exact absurd hsx (hsome x hx)
    | some sx =>
      cases hsy : reportedStart y.2 with
      | none => exact absurd hsy (hsome y hy)
      | some sy =>
        rw [hsx, hsy] at h2
        exact AddTimeRange_comm x y sx sy hsx hsy h1 (fun h => h2 (by rw [h])) z

end vtkFileSeriesReaderTimeRanges

/-- C24. Registration order does not matter: for a family of reported infos
with pairwise distinct indices and pairwise distinct starts, registering them
after `Reset` in two orders succeeds both times and yields the same registry,
hence the same `GetAggregateTimeInfo` result, the same `GetIndexForTime(t)`
for every `t` and the same `GetTimesForInput(i, requested)` for every `i`. -/
theorem C24_registration_order (l1 l2 : List (ℤ × vtkInformation)) (hperm : l1.Perm l2)
    (hidx : (l1.map Prod.fst).Nodup)
    (hstart : (l1.map (fun p => reportedStart p.2)).Nodup)
    (hsome : ∀ p ∈ l1, reportedStart p.2 ≠ none) :
    ∃ reg1 reg2, registerAll l1 = some reg1 ∧ registerAll l2 = some reg2 ∧ reg1 = reg2 ∧
      (∀ dmax outInfo,
        reg1.GetAggregateTimeInfo dmax outInfo = reg2.GetAggregateTimeInfo dmax outInfo) ∧
      (∀ t, reg1.GetIndexForTime t = reg2.GetIndexForTime t) ∧
      (∀ dmax i outInfo,
        reg1.GetTimesForInput dmax i outInfo = reg2.GetTimesForInput dmax i outInfo) := by
  obtain ⟨reg, hreg⟩ := register_succeeds l1 hsome
    (Reset { RangeMap := [], InputLookup := [] })
  have h1 : registerAll l1 = some reg := hreg
  have h2 : registerAll l2 = some reg := by
    rw [← registerAll_perm l1 l2 hperm hidx hstart hsome]
    exact h1
  exact ⟨reg, reg, h1, h2, rfl, fun _ _ => rfl, fun _ => rfl, fun _ _ _ => rfl⟩

/-- C24 on the inputs with ranges `[0, 1]` and `[2, 3]`, registered as input 0
then input 1 and as input 1 then input 0: both orders give `twoInputs`. -/
theorem C24_registration_order_witness :
    (twoInputsSources.Perm twoInputsSources.reverse ∧
      (twoInputsSources.map Prod.fst).Nodup ∧
      (twoInputsSources.map (fun p => reportedStart p.2)).Nodup ∧
      ∀ p ∈ twoInputsSources, reportedStart p.2 ≠ none) ∧
    (∃ reg1 reg2, registerAll twoInputsSources = some reg1 ∧
      registerAll twoInputsSources.reverse = some reg2 ∧ reg1 = reg2 ∧
      (∀ dmax outInfo,
        reg1.GetAggregateTimeInfo dmax outInfo = reg2.GetAggregateTimeInfo dmax outInfo) ∧
      (∀ t, reg1.GetIndexForTime t = reg2.GetIndexForTime t) ∧
      (∀ dmax i outInfo,
        reg1.GetTimesForInput dmax i outInfo = reg2.GetTimesForInput dmax i outInfo)) ∧
    registerAll twoInputsSources = some twoInputs ∧
    registerAll twoInputsSources.reverse = some twoInputs :=
  have hp : twoInputsSources.Perm twoInputsSources.reverse :=
    (List.reverse_perm twoInputsSources).symm
  have h1 : (twoInputsSources.map Prod.fst).Nodup := by norm_num [twoInputsSources]
  have h2 : (twoInputsSources.map (fun p => reportedStart p.2)).Nodup := by
    norm_num [twoInputsSources, reportedStart]
  have h3 : ∀ p ∈ twoInputsSources, reportedStart p.2 ≠ none := by
    simp [twoInputsSources, reportedStart]
  ⟨⟨hp, h1, h2, h3⟩,
   C24_registration_order twoInputsSources twoInputsSources.reverse hp h1 h2 h3,
   by norm_num [registerAll, twoInputsSources, twoInputs, Reset, AddTimeRange, mapAssign],
   by norm_num [registerAll, twoInputsSources, twoInputs, Reset, AddTimeRange, mapAssign]⟩

end FileSeries
